import Mathlib

/-!
Verification of the override-resolution engine of the `configparser-override`
repository (file `src/configparser_override/configparser_override.py`).

The embedding models a `configparser.ConfigParser` as an ordered association
structure (`Config`): Python dicts are ordered, so sections and options are
association lists whose keys are unique in every store that Python can
actually represent.  The process environment and the direct-overrides mapping
are likewise ordered association lists of strings.

Python's `str.lower` / `str.upper` are modelled ASCII-only via `Char.toLower` /
`Char.toUpper` (the repository only ever manipulates ASCII configuration
names).  The parser's `optionxform` and the strategy's `optionxform_fn` are
modelled as one function `f`: `ConfigParserOverride.__init__` (lines 460-468)
aligns the two for consistency.
-/

namespace CPO

/-- Association-list of option name to value, in insertion order (Python dict). -/
abbrev Opts := List (String × String)

/-- The environment / overrides mapping: ordered string-to-string pairs. -/
abbrev Env := List (String × String)

/-- ASCII model of Python `str.lower`. -/
def lowerStr (s : String) : String := ⟨s.data.map Char.toLower⟩

/-- ASCII model of Python `str.upper`. -/
def upperStr (s : String) : String := ⟨s.data.map Char.toUpper⟩

/-- Python dict lookup (`d[k]` / `d.get(k)`): first (= only) matching key. -/
def alookup : Env → String → Option String
  | [], _ => none
  | p :: rest, k => if p.1 = k then some p.2 else alookup rest k

/-- Python dict membership test (`k in d`). -/
def ahas : Env → String → Bool
  | [], _ => false
  | p :: rest, k => if p.1 = k then true else ahas rest k

/-- Python dict assignment `d[k] = v`: update in place, else append. -/
def aset : Opts → String → String → Opts
  | [], k, v => [(k, v)]
  | p :: rest, k, v => if p.1 = k then (k, v) :: rest else p :: aset rest k v

/-- Keys of a dict, in order. -/
def akeys (l : Opts) : List String := l.map Prod.fst

/-- List membership as a Bool (Python `in` on a list of names). -/
def lmem : List String → String → Bool
  | [], _ => false
  | a :: rest, k => if a = k then true else lmem rest k

/-- Lookup of a section's option dict inside `_sections`. -/
def slookup : List (String × Opts) → String → Option Opts
  | [], _ => none
  | p :: rest, k => if p.1 = k then some p.2 else slookup rest k

/-- In-place update of one section's option dict inside `_sections`. -/
def supdate : List (String × Opts) → String → (Opts → Opts) → List (String × Opts)
  | [], _, _ => []
  | p :: rest, k, g => if p.1 = k then (p.1, g p.2) :: rest else p :: supdate rest k g

/-- The value of `{sec.lower(): sec for sec in sections}[target]`: a Python dict
comprehension lets the LAST section with a given lower-cased name win. -/
def lastWithLower : List String → String → Option String
  | [], _ => none
  | a :: rest, k =>
    match lastWithLower rest k with
    | some r => some r
    | none => if lowerStr a = k then some a else none

/-- Model of `configparser.ConfigParser` state: the distinguished default
section name, the default section's own options (`_defaults`), and the
non-default sections (`_sections`), all in insertion order. -/
structure Config where
  default_section : String
  defaults : Opts
  sections : List (String × Opts)
deriving DecidableEq

/-- `ConfigParser.sections()`: the non-default section names, in order. -/
def Config.sectionNames (c : Config) : List String := c.sections.map Prod.fst

/-- `ConfigParser.has_section`: never true for the default section. -/
def Config.has_section (c : Config) (s : String) : Bool :=
  lmem c.sectionNames s

/-- `ConfigParser.set(section, option, value)`: applies `optionxform` to the
option and writes into `_defaults` when the section is falsy or the default
section, else into the section's own dict.  (configparser raises
`NoSectionError` on a missing section; every call site in the strategy code is
guarded so this point is unreachable, and the model leaves the store as is.) -/
def Config.set (f : String → String) (c : Config) (s o v : String) : Config :=
  if s = "" ∨ s = c.default_section then
    { c with defaults := aset c.defaults (f o) v }
  else
    { c with sections := supdate c.sections s (fun os => aset os (f o) v) }

/-- `ConfigParser.add_section`: appends an empty section.  (The duplicate /
default-section `ValueError` paths are unreachable from the strategy code,
which only adds after a negative `has_section` test.) -/
def Config.add_section (c : Config) (s : String) : Config :=
  { c with sections := c.sections ++ [(s, [])] }

/-- `ConfigParser.has_option(section, option)`: checks the default dict for a
falsy or default section name, else the section's own dict with fallback into
the defaults.  Missing section gives `NoSectionError` in configparser; the
strategies only call this on names that passed `has_section`. -/
def Config.has_option (f : String → String) (c : Config) (s o : String) : Bool :=
  if s = "" ∨ s = c.default_section then
    ahas c.defaults (f o)
  else
    match slookup c.sections s with
    | some os => if ahas os (f o) then true else ahas c.defaults (f o)
    | none => false

/-- `ConfigParser.options(section)` / iteration over `parser[section]`: the
section's own option names followed by the default options not shadowed by
them (`opts = own.copy(); opts.update(defaults)` on ordered dicts). -/
def Config.optionsOf (c : Config) (s : String) : List String :=
  let own := akeys ((slookup c.sections s).getD [])
  own ++ (akeys c.defaults).filter (fun k => lmem own k = false)

/-- Raw stored value of an option in a section's own storage (no default
fallback); reads `_defaults` itself for the default section. -/
def Config.rawGet (c : Config) (s o : String) : Option String :=
  if s = c.default_section then alookup c.defaults o
  else (slookup c.sections s).bind (fun os => alookup os o)

/-- Own option dict of a non-default section. -/
def Config.ownOpts (c : Config) (s : String) : Opts :=
  (slookup c.sections s).getD []

/-- Leftmost occurrence of the separator `__` in a character list:
`some (l, r)` when the list is `l ++ '_' :: '_' :: r` with the split at the
first occurrence, `none` when no two adjacent underscores occur.  This is
Python's `key.split("__", 1)` (lines 90-93). -/
def splitAtSep : List Char → Option (List Char × List Char)
  | [] => none
  | [_] => none
  | c1 :: c2 :: rest =>
    if c1 = '_' ∧ c2 = '_' then some ([], rest)
    else
      match splitAtSep (c2 :: rest) with
      | none => none
      | some (l, r) => some (c1 :: l, r)

/-- `Strategy.parse_key` (lines 78-93): split the key on the first `__`; no
separator means the default section with the whole key as option; the option
part goes through `optionxform_fn`, the section part keeps its case. -/
def parse_key (ds : String) (f : String → String) (key : String) : String × String :=
  match splitAtSep key.data with
  | none => (ds, f key)
  | some (l, r) => (⟨l⟩, f (⟨r⟩ : String))

/-- `Strategy.decide_env_var` (lines 95-117). -/
def decide_env_var (ds : String) (cs : Bool) ( pfx sec opt : String) : String :=
  if cs then
    if sec = ds then
      if pfx ≠ "" then pfx ++ opt else opt
    else
      if pfx ≠ "" then pfx ++ sec ++ "__" ++ opt else sec ++ "__" ++ opt
  else
    if lowerStr sec = lowerStr ds then
      if pfx ≠ "" then upperStr pfx ++ upperStr opt else upperStr opt
    else
      if pfx ≠ "" then upperStr pfx ++ upperStr sec ++ "__" ++ upperStr opt
      else upperStr sec ++ "__" ++ upperStr opt

/-- `Strategy.has_section` (lines 171-180): exact (or default-section) match in
case-sensitive mode, lower-cased match otherwise. -/
def strat_has_section (cs : Bool) (c : Config) (s : String) : Bool :=
  if cs then
    if c.has_section s then true else s = c.default_section
  else
    if lmem (c.sectionNames.map lowerStr) (lowerStr s) then true
    else lowerStr c.default_section = lowerStr s

/-- `Strategy.get_existing_section_case_insensitive` (lines 182-186): the
default section when the lower-cased names agree, else the last stored section
whose lower-cased name matches (a dict comprehension lets the last entry win).
The `KeyError` case (no match) is unreachable behind `has_section` guards; the
model returns the input name there. -/
def get_existing_ci (c : Config) (s : String) : String :=
  if lowerStr s = lowerStr c.default_section then c.default_section
  else (lastWithLower c.sectionNames (lowerStr s)).getD s

/-- `Strategy.collect_env_vars_with_prefix` (lines 63-76): environment entries
whose name starts with the given string, with that leading string removed,
in environment order. -/
def collect_env_vars ( pfx : String) (env : Env) : Env :=
  env.filterMap (fun kv =>
    if kv.1.startsWith pfx then some (kv.1.drop pfx.length, kv.2) else none)

/-- All parameters a `Strategy` instance closes over (lines 30-56): the
environment snapshot, the environment-variable name lead-in `env_pfx`, the
direct overrides, the case flag and the shared option-normalization
function. -/
structure Ctx where
  env : Env
  env_pfx : String
  overrides : Env
  cs : Bool
  f : String → String

/-- Common body of the create-new branches of `override_env` (lines 128-142)
and `override_direct` (lines 196-210): create the section when absent
(lower-cased in case-insensitive mode), resolving to the canonical existing
section otherwise, then set. -/
def createStep (ctx : Ctx) (c : Config) (kv : String × String) : Config :=
  let so := parse_key c.default_section ctx.f kv.1
  if ctx.cs then
    let c1 := if strat_has_section true c so.1 = false then c.add_section so.1 else c
    c1.set ctx.f so.1 so.2 kv.2
  else
    if strat_has_section false c so.1 = false then
      (c.add_section (lowerStr so.1)).set ctx.f (lowerStr so.1) so.2 kv.2
    else
      c.set ctx.f (get_existing_ci c so.1) so.2 kv.2

/-- One option of the no-new environment scan (lines 145-169): compute the
expected variable name and overwrite the stored value when it is set. -/
def envStepNoNew (ctx : Ctx) (sec : String) (c : Config) (opt : String) : Config :=
  match alookup ctx.env (decide_env_var c.default_section ctx.cs ctx.env_pfx sec opt) with
  | some v => c.set ctx.f sec opt v
  | none => c

/-- The inner loop of the no-new environment scan for one section
(`for option in self._config[section]`, lines 146-153): the option list is the
snapshot taken when the section's loop starts. -/
def envSectionNoNew (ctx : Ctx) (c : Config) (sec : String) : Config :=
  (c.optionsOf sec).foldl (envStepNoNew ctx sec) c

/-- `Strategy.override_env` with `create_new_options=False` (lines 144-169):
scan every existing section's visible options, then the default section's own
options. -/
def override_env_no_new (ctx : Ctx) (c : Config) : Config :=
  let c1 := c.sectionNames.foldl (envSectionNoNew ctx) c
  (akeys c1.defaults).foldl (fun c2 opt => envStepNoNew ctx c1.default_section c2 opt) c1

/-- `Strategy.override_env` with `create_new_options=True` (lines 126-142):
walk the collected prefixed environment variables in order. -/
def override_env_create (ctx : Ctx) (c : Config) : Config :=
  (collect_env_vars ctx.env_pfx ctx.env).foldl (createStep ctx) c

/-- `Strategy.override_env` (lines 119-169). -/
def override_env (ctx : Ctx) (create_new_options : Bool) (c : Config) : Config :=
  if create_new_options then override_env_create ctx c else override_env_no_new ctx c

/-- One direct override in no-new mode (lines 213-240): apply only when the
section exists (canonicalized in case-insensitive mode) and the option already
exists there; otherwise the entry is a silent no-op. -/
def directStepNoNew (ctx : Ctx) (c : Config) (kv : String × String) : Config :=
  let so := parse_key c.default_section ctx.f kv.1
  if ctx.cs then
    if strat_has_section true c so.1 then
      if c.has_option ctx.f so.1 so.2 then c.set ctx.f so.1 so.2 kv.2 else c
    else c
  else
    if strat_has_section false c so.1 then
      let sec := get_existing_ci c so.1
      if c.has_option ctx.f sec so.2 then c.set ctx.f sec so.2 kv.2 else c
    else c

/-- `Strategy.override_direct` (lines 188-240). -/
def override_direct (ctx : Ctx) (create_new_options : Bool) (c : Config) : Config :=
  if create_new_options then ctx.overrides.foldl (createStep ctx) c
  else ctx.overrides.foldl (directStepNoNew ctx) c

/-- The six strategy variants (enum `OverrideStrategies`, lines 285-291). -/
inductive OverrideStrategies
  | NO_PREFIX_NO_NEW
  | NO_PREFIX_NEW_DIRECT
  | PREFIX_NO_NEW
  | PREFIX_NEW_ENV
  | PREFIX_NEW_DIRECT
  | PREFIX_NEW_ENV_NEW_DIRECT
deriving DecidableEq

/-- The `create_new_options` flag each variant passes to `override_env`
(lines 243-282). -/
def envCreateFlag : OverrideStrategies → Bool
  | .PREFIX_NEW_ENV => true
  | .PREFIX_NEW_ENV_NEW_DIRECT => true
  | _ => false

/-- The `create_new_options` flag each variant passes to `override_direct`
(lines 243-282). -/
def directCreateFlag : OverrideStrategies → Bool
  | .NO_PREFIX_NEW_DIRECT => true
  | .PREFIX_NEW_DIRECT => true
  | .PREFIX_NEW_ENV_NEW_DIRECT => true
  | _ => false

/-- `execute` of each strategy class (lines 243-282): the environment pass
runs first, the direct pass second. -/
def Strategy.execute (strat : OverrideStrategies) (ctx : Ctx) (c : Config) : Config :=
  override_direct ctx (directCreateFlag strat) (override_env ctx (envCreateFlag strat) c)

/-- `OverrideStrategyNotImplementedError` (line 20). -/
inductive OverrideStrategyNotImplementedError
  | mk
deriving DecidableEq

/-- `StrategyFactory.get_strategy` (lines 328-417): the six mutually exclusive
predicates, tried in order, with the error raised when none matches. -/
def get_strategy ( env_pfx : String) (create_new_from_env_pfx create_new_from_direct : Bool) :
    Except OverrideStrategyNotImplementedError OverrideStrategies :=
  if env_pfx = "" ∧ create_new_from_env_pfx = false ∧ create_new_from_direct = false then
    .ok .NO_PREFIX_NO_NEW
  else if env_pfx = "" ∧ create_new_from_env_pfx = false ∧ create_new_from_direct = true then
    .ok .NO_PREFIX_NEW_DIRECT
  else if env_pfx ≠ "" ∧ create_new_from_env_pfx = false ∧ create_new_from_direct = false then
    .ok .PREFIX_NO_NEW
  else if env_pfx ≠ "" ∧ create_new_from_env_pfx = true ∧ create_new_from_direct = false then
    .ok .PREFIX_NEW_ENV
  else if env_pfx ≠ "" ∧ create_new_from_env_pfx = false ∧ create_new_from_direct = true then
    .ok .PREFIX_NEW_DIRECT
  else if env_pfx ≠ "" ∧ create_new_from_env_pfx = true ∧ create_new_from_direct = true then
    .ok .PREFIX_NEW_ENV_NEW_DIRECT
  else
    .error .mk

/-- The store state at the end of `ConfigParserOverride.read` (lines 487-524),
starting from the store as loaded from the files: `get_strategy` runs before
`strategy.execute()`, so the raised error leaves the store untouched. -/
def read_after_files (ctx : Ctx) (e d : Bool) (c : Config) : Config :=
  match get_strategy ctx.env_pfx e d with
  | .error _ => c
  | .ok strat => Strategy.execute strat ctx c

/-- `ConfigParserOverride.__init__` (lines 421-468): with
`create_new_from_env_prefix` set, `assert self.env_prefix` demands a nonempty
(truthy) string; the construction succeeds exactly when this returns true. -/
def init_accepts ( env_pfx : String) (create_new_from_env_pfx : Bool) : Bool :=
  if create_new_from_env_pfx then (if env_pfx = "" then false else true) else true

/-! ### Well-formedness of stores

Invariants every store representable by a real `ConfigParser` satisfies:
section names are dict keys (pairwise distinct), the default section is kept
outside `_sections`, and section names read from INI files are nonempty. -/

/-- Representable-store invariant. -/
def WF (c : Config) : Prop :=
  c.sectionNames.Nodup ∧ c.default_section ∉ c.sectionNames ∧ "" ∉ c.sectionNames

/-- All option names of a dict are fixed points of the normalization function
(`ConfigParser.set` and file reading pass every option through
`optionxform`, so stored names are normalized). -/
def NormOpts (f : String → String) (l : Opts) : Prop :=
  ∀ p ∈ l, f p.1 = p.1

/-- Every stored option name in the store is normalized. -/
def Normalized (f : String → String) (c : Config) : Prop :=
  NormOpts f c.defaults ∧ ∀ q ∈ c.sections, NormOpts f q.2

instance (c : Config) : Decidable (WF c) :=
  inferInstanceAs (Decidable (_ ∧ _ ∧ _))

instance (f : String → String) (l : Opts) : Decidable (NormOpts f l) :=
  inferInstanceAs (Decidable (∀ p ∈ l, f p.1 = p.1))

instance (f : String → String) (c : Config) : Decidable (Normalized f c) :=
  inferInstanceAs (Decidable (_ ∧ _))

/-- The section name a `ConfigParser.set` call actually writes to: a falsy or
default name goes to the default section. -/
def canonSec (ds s : String) : String := if s = "" ∨ s = ds then ds else s

/-- A cell address: stored (canonical) section name and stored option key. -/
abbrev Cell := String × String

/-- One recorded overwrite. -/
abbrev Write := Cell × String

/-- Replay one recorded overwrite (a `set` with the identity normalization,
since the recorded key is already the stored one). -/
def setCell (c : Config) (w : Write) : Config :=
  Config.set (fun x => x) c w.1.1 w.1.2 w.2

/-- Replay a list of recorded overwrites in order. -/
def applyW (c : Config) (W : List Write) : Config := W.foldl setCell c

/-- Left-biased choice on optional values. -/
def oorelse (a b : Option String) : Option String :=
  match a with
  | some v => some v
  | none => b

/-- The last recorded value for a cell, if any. -/
def lastW : List Write → Cell → Option String
  | [], _ => none
  | w :: W, a => oorelse (lastW W a) (if w.1 = a then some w.2 else none)

/-- The stored section a create-new step's `set` targets, as a function of
the current section-name list (case-insensitive mode resolves through the
lower-cased index; case-sensitive mode uses the parsed name as is). -/
def resolveSec (cs : Bool) (names : List String) (ds s1 : String) : String :=
  if cs then s1
  else if lowerStr s1 = lowerStr ds then ds
  else
    match lastWithLower names (lowerStr s1) with
    | some t => t
    | none => lowerStr s1

/-- The cell a create-new step writes for a given override key. -/
def entryCell (cs : Bool) (names : List String) (ds : String) (f : String → String)
    (key : String) : Cell :=
  let so := parse_key ds f key
  (canonSec ds (resolveSec cs names ds so.1), f so.2)

/-- The write trace of a create-new fold, resolving each entry on the store
state at its own processing time. -/
def createTrace (ctx : Ctx) : Config → List (String × String) → List Write
  | _, [] => []
  | c, kv :: rest =>
    ((entryCell ctx.cs c.sectionNames c.default_section ctx.f kv.1, kv.2))
      :: createTrace ctx (createStep ctx c kv) rest

/-- The write a no-new direct entry performs, with guards and resolution
evaluated on a fixed store state `e`; `none` for a dropped entry. -/
def dnnEntry (ctx : Ctx) (e : Config) (kv : String × String) : Option Write :=
  let so := parse_key e.default_section ctx.f kv.1
  if ctx.cs then
    if strat_has_section true e so.1 = true ∧ e.has_option ctx.f so.1 so.2 = true then
      some ((canonSec e.default_section so.1, ctx.f so.2), kv.2)
    else none
  else
    if strat_has_section false e so.1 = true
        ∧ e.has_option ctx.f (get_existing_ci e so.1) so.2 = true then
      some ((canonSec e.default_section (get_existing_ci e so.1), ctx.f so.2), kv.2)
    else none

/-- The write trace of a no-new direct pass, with guards and resolution
evaluated on a fixed store state. -/
def directNNTrace (ctx : Ctx) (c : Config) : List Write :=
  ctx.overrides.filterMap (dnnEntry ctx c)

/-- A chain of sections appended by create-new steps: each added name is new
relative to everything before it, never the default section, and (in
case-insensitive mode) lower-cased with a lower-cased form that is also new
relative to everything before it. -/
def ChainExt (cs : Bool) (ds : String) : List String → List String → Prop
  | _, [] => True
  | base, a :: rest =>
    a ≠ ds ∧ a ∉ base
    ∧ (cs = false → lowerStr a = a ∧ lowerStr a ∉ base.map lowerStr)
    ∧ ChainExt cs ds (base ++ [a]) rest

/-- A cell address that `rawGet` and `setCell` agree on: the default section,
or a stored nonempty non-default section. -/
def cellOK (x : Config) (w : Write) : Prop :=
  w.1.1 = x.default_section
  ∨ (w.1.1 ∈ x.sectionNames ∧ w.1.1 ≠ "" ∧ w.1.1 ≠ x.default_section)

/-- Equal store skeletons: same default-section name, same section spine with
the same option keys per section, same default keys. -/
def SkelEq (x y : Config) : Prop :=
  x.default_section = y.default_section
  ∧ x.sections.map (fun q => (q.1, akeys q.2)) = y.sections.map (fun q => (q.1, akeys q.2))
  ∧ akeys x.defaults = akeys y.defaults

/-- Python-dict invariant on option keys. -/
def OptNodup (c : Config) : Prop :=
  (akeys c.defaults).Nodup ∧ ∀ q ∈ c.sections, (akeys q.2).Nodup

instance (c : Config) : Decidable (OptNodup c) :=
  inferInstanceAs (Decidable (_ ∧ _))

/-- `KeysEq f c0 c` relates a store `c` reachable from `c0` by overwrites of
visible options: same default-section name, same section list, same
default-option keys, each section's own keys squeezed between the original
ones and the original ones plus defaults (overwriting a default-visible
option copies its key into the section's own dict), and all keys still
normalized. -/
def KeysEq (f : String → String) (c0 c : Config) : Prop :=
  c.default_section = c0.default_section
  ∧ c.sectionNames = c0.sectionNames
  ∧ akeys c.defaults = akeys c0.defaults
  ∧ (∀ s : String,
      (∀ o, o ∈ akeys (c0.ownOpts s) → o ∈ akeys (c.ownOpts s))
      ∧ (∀ o, o ∈ akeys (c.ownOpts s) → o ∈ akeys (c0.ownOpts s) ∨ o ∈ akeys c.defaults))
  ∧ Normalized f c

/-- The standing facts about the cell (S, o) carried through a resolution:
the default-section name, distinct section names, S present, o present in S's
own storage, and (in case-insensitive mode) S being the canonical section for
its lower-cased name. -/
def CellInv (cs : Bool) (ds S o : String) (c : Config) : Prop :=
  c.default_section = ds
  ∧ c.sectionNames.Nodup
  ∧ S ∈ c.sectionNames
  ∧ ahas (c.ownOpts S) o = true
  ∧ (cs = false → lastWithLower c.sectionNames (lowerStr S) = some S)

/-! ### Association-list lemmas -/

@[simp]
theorem alookup_nil (k : String) : alookup [] k = none := rfl

@[simp]
theorem alookup_cons (p : String × String) (l : Env) (k : String) :
    alookup (p :: l) k = if p.1 = k then some p.2 else alookup l k := rfl

@[simp]
theorem ahas_nil (k : String) : ahas [] k = false := rfl

@[simp]
theorem ahas_cons (p : String × String) (l : Env) (k : String) :
    ahas (p :: l) k = if p.1 = k then true else ahas l k := rfl

@[simp]
theorem lmem_nil (k : String) : lmem [] k = false := rfl

@[simp]
theorem lmem_cons (a : String) (l : List String) (k : String) :
    lmem (a :: l) k = if a = k then true else lmem l k := rfl

theorem lmem_iff (l : List String) (k : String) : lmem l k = true ↔ k ∈ l := by
  induction l with
  | nil => simp
  | cons a l ih =>
    by_cases h : a = k
    · simp [h]
    · have h' : k ≠ a := fun hh => h hh.symm
      simp [h, ih, h']

theorem lmem_append (l1 l2 : List String) (k : String) :
    lmem (l1 ++ l2) k = (lmem l1 k || lmem l2 k) := by
  induction l1 with
  | nil => simp
  | cons a l ih =>
    by_cases h : a = k <;> simp [h, ih]

theorem ahas_iff (l : Opts) (k : String) : ahas l k = true ↔ k ∈ akeys l := by
  induction l with
  | nil => simp [akeys]
  | cons p l ih =>
    by_cases h : p.1 = k
    · simp [h, akeys]
    · have h' : k ≠ p.1 := fun hh => h hh.symm
      simp [h, akeys, h'] at ih ⊢
      exact ih

theorem alookup_isSome (l : Env) (k : String) : (alookup l k).isSome = ahas l k := by
  induction l with
  | nil => simp
  | cons p l ih =>
    by_cases h : p.1 = k <;> simp [h, ih]

@[simp]
theorem aset_nil (k v : String) : aset [] k v = [(k, v)] := rfl

@[simp]
theorem aset_cons (p : String × String) (l : Opts) (k v : String) :
    aset (p :: l) k v = if p.1 = k then (k, v) :: l else p :: aset l k v := rfl

theorem alookup_aset_self (l : Opts) (k v : String) : alookup (aset l k v) k = some v := by
  induction l with
  | nil => simp
  | cons p l ih =>
    by_cases h : p.1 = k <;> simp [h, ih]

theorem alookup_aset_ne (l : Opts) (k v k' : String) (h : k' ≠ k) :
    alookup (aset l k v) k' = alookup l k' := by
  have h' : k ≠ k' := Ne.symm h
  induction l with
  | nil => simp [h']
  | cons p l ih =>
    by_cases hp : p.1 = k
    · simp [hp, h']
    · simp [hp, ih]

theorem ahas_aset (l : Opts) (k v k' : String) :
    ahas (aset l k v) k' = if k = k' then true else ahas l k' := by
  induction l with
  | nil => by_cases h : k = k' <;> simp [h]
  | cons p l ih =>
    by_cases hp : p.1 = k
    · by_cases h : k = k' <;> simp [hp, h]
    · by_cases h : p.1 = k'
      · have hkk : ¬ k' = k := fun hh => hp (h.trans hh)
        have hkk' : ¬ k = k' := fun hh => hkk hh.symm
        simp [hp, h, hkk, hkk']
      · by_cases hk : k = k'
        · subst hk
          simp only [aset_cons, if_neg hp, ahas_cons, if_neg h, if_pos rfl]
          simpa using ih
        · simp [hp, h, hk, ih]

theorem akeys_aset_of_ahas (l : Opts) (k v : String) (h : ahas l k = true) :
    akeys (aset l k v) = akeys l := by
  induction l with
  | nil => simp at h
  | cons p l ih =>
    by_cases hp : p.1 = k
    · simp [hp, akeys]
    · simp [hp] at h ⊢
      simp [akeys] at ih ⊢
      exact ih h

theorem akeys_aset_of_not_ahas (l : Opts) (k v : String) (h : ahas l k = false) :
    akeys (aset l k v) = akeys l ++ [k] := by
  induction l with
  | nil => simp [akeys]
  | cons p l ih =>
    by_cases hp : p.1 = k
    · simp [hp] at h
    · simp [hp] at h ⊢
      simp [akeys] at ih ⊢
      exact ih h

theorem ahas_aset_superset (l : Opts) (k v k' : String) (h : ahas l k' = true) :
    ahas (aset l k v) k' = true := by
  rw [ahas_aset]
  by_cases hk : k = k' <;> simp [hk, h]

theorem normOpts_aset (f : String → String) (l : Opts) (k v : String)
    (hl : NormOpts f l) (hk : f k = k) : NormOpts f (aset l k v) := by
  induction l with
  | nil => intro p hp; simp at hp; simp [hp, hk]
  | cons p l ih =>
    by_cases hp : p.1 = k
    · intro q hq
      simp [hp] at hq
      rcases hq with hq | hq
      · simp [hq, hk]
      · exact hl q (by simp [hq])
    · intro q hq
      simp [hp] at hq
      rcases hq with hq | hq
      · exact hl q (by simp [hq])
      · exact ih (fun r hr => hl r (by simp [hr])) q hq

/-! ### Section-list lemmas -/

@[simp]
theorem slookup_nil (k : String) : slookup [] k = none := rfl

@[simp]
theorem slookup_cons (p : String × Opts) (l : List (String × Opts)) (k : String) :
    slookup (p :: l) k = if p.1 = k then some p.2 else slookup l k := rfl

@[simp]
theorem supdate_nil (k : String) (g : Opts → Opts) : supdate [] k g = [] := rfl

@[simp]
theorem supdate_cons (p : String × Opts) (l : List (String × Opts)) (k : String)
    (g : Opts → Opts) :
    supdate (p :: l) k g = if p.1 = k then (p.1, g p.2) :: l else p :: supdate l k g := rfl

theorem supdate_fst (l : List (String × Opts)) (k : String) (g : Opts → Opts) :
    (supdate l k g).map Prod.fst = l.map Prod.fst := by
  induction l with
  | nil => simp
  | cons p l ih =>
    by_cases h : p.1 = k <;> simp [h, ih]

theorem slookup_supdate_self (l : List (String × Opts)) (k : String) (g : Opts → Opts)
    (hnd : (l.map Prod.fst).Nodup) :
    slookup (supdate l k g) k = (slookup l k).map g := by
  induction l with
  | nil => simp
  | cons p l ih =>
    simp at hnd
    by_cases h : p.1 = k
    · simp [h]
    · simp [h, ih hnd.2]

theorem slookup_supdate_ne (l : List (String × Opts)) (k : String) (g : Opts → Opts)
    (k' : String) (h : k' ≠ k) :
    slookup (supdate l k g) k' = slookup l k' := by
  have h' : k ≠ k' := Ne.symm h
  induction l with
  | nil => simp
  | cons p l ih =>
    by_cases hp : p.1 = k
    · simp [hp, h']
    · by_cases hq : p.1 = k' <;> simp [hp, hq, ih, h]

theorem slookup_append_left (l1 l2 : List (String × Opts)) (k : String)
    (h : (slookup l1 k).isSome) :
    slookup (l1 ++ l2) k = slookup l1 k := by
  induction l1 with
  | nil => simp at h
  | cons p l ih =>
    by_cases hp : p.1 = k
    · simp [hp]
    · simp [hp] at h ⊢
      exact ih h

theorem slookup_append_right (l1 l2 : List (String × Opts)) (k : String)
    (h : slookup l1 k = none) :
    slookup (l1 ++ l2) k = slookup l2 k := by
  induction l1 with
  | nil => simp
  | cons p l ih =>
    by_cases hp : p.1 = k
    · simp [hp] at h
    · simp [hp] at h ⊢
      exact ih h

theorem slookup_isSome_iff (l : List (String × Opts)) (k : String) :
    (slookup l k).isSome ↔ k ∈ l.map Prod.fst := by
  induction l with
  | nil => simp
  | cons p l ih =>
    by_cases h : p.1 = k
    · simp [h]
    · have h' : k ≠ p.1 := fun hh => h hh.symm
      simp [h, ih, h']

theorem slookup_eq_none_iff (l : List (String × Opts)) (k : String) :
    slookup l k = none ↔ k ∉ l.map Prod.fst := by
  rw [← slookup_isSome_iff, Option.isSome_iff_ne_none]
  tauto

/-! ### Config operation lemmas -/

@[simp]
theorem default_section_set (f : String → String) (c : Config) (s o v : String) :
    (c.set f s o v).default_section = c.default_section := by
  unfold Config.set
  by_cases h : s = "" ∨ s = c.default_section <;> simp [h]

@[simp]
theorem default_section_add (c : Config) (s : String) :
    (c.add_section s).default_section = c.default_section := rfl

@[simp]
theorem sectionNames_set (f : String → String) (c : Config) (s o v : String) :
    (c.set f s o v).sectionNames = c.sectionNames := by
  unfold Config.set Config.sectionNames
  by_cases h : s = "" ∨ s = c.default_section <;> simp [h, supdate_fst]

@[simp]
theorem sectionNames_add (c : Config) (s : String) :
    (c.add_section s).sectionNames = c.sectionNames ++ [s] := by
  simp [Config.add_section, Config.sectionNames]

theorem defaults_set_def (f : String → String) (c : Config) (s o v : String)
    (h : s = "" ∨ s = c.default_section) :
    (c.set f s o v).defaults = aset c.defaults (f o) v := by
  simp [Config.set, h]

theorem defaults_set_other (f : String → String) (c : Config) (s o v : String)
    (h : ¬(s = "" ∨ s = c.default_section)) :
    (c.set f s o v).defaults = c.defaults := by
  simp [Config.set, h]

theorem sections_set_def (f : String → String) (c : Config) (s o v : String)
    (h : s = "" ∨ s = c.default_section) :
    (c.set f s o v).sections = c.sections := by
  simp [Config.set, h]

theorem sections_set_other (f : String → String) (c : Config) (s o v : String)
    (h : ¬(s = "" ∨ s = c.default_section)) :
    (c.set f s o v).sections = supdate c.sections s (fun os => aset os (f o) v) := by
  simp [Config.set, h]

@[simp]
theorem defaults_add (c : Config) (s : String) : (c.add_section s).defaults = c.defaults := rfl

theorem ownOpts_set_self (f : String → String) (c : Config) (s o v : String)
    (hnd : c.sectionNames.Nodup) (hs : ¬(s = "" ∨ s = c.default_section))
    (hmem : s ∈ c.sectionNames) :
    (c.set f s o v).ownOpts s = aset (c.ownOpts s) (f o) v := by
  unfold Config.ownOpts
  rw [sections_set_other f c s o v hs]
  rw [slookup_supdate_self c.sections s _ hnd]
  rcases Option.isSome_iff_exists.mp ((slookup_isSome_iff c.sections s).mpr hmem) with ⟨os, hos⟩
  simp [hos]

theorem ownOpts_set_ne (f : String → String) (c : Config) (s o v t : String)
    (ht : t ≠ s) :
    (c.set f s o v).ownOpts t = c.ownOpts t := by
  unfold Config.ownOpts Config.set
  by_cases h : s = "" ∨ s = c.default_section
  · simp [h]
  · simp [h, slookup_supdate_ne c.sections s _ t ht]

theorem ownOpts_add_ne (c : Config) (s t : String) (ht : t ≠ s) :
    (c.add_section s).ownOpts t = c.ownOpts t := by
  unfold Config.ownOpts Config.add_section
  by_cases hin : (slookup c.sections t).isSome
  · simp [slookup_append_left c.sections [(s, [])] t hin]
  · have hnone : slookup c.sections t = none := by
      cases heq : slookup c.sections t
      · rfl
      · simp [heq] at hin
    rw [slookup_append_right c.sections [(s, [])] t hnone]
    simp [hnone, Ne.symm ht]

theorem rawGet_set_self (f : String → String) (c : Config) (s o v : String)
    (hnd : c.sectionNames.Nodup) (hmem : s ∈ c.sectionNames ∨ s = c.default_section)
    (hs0 : s = "" → s = c.default_section) :
    (c.set f s o v).rawGet s (f o) = some v := by
  unfold Config.rawGet
  by_cases h : s = "" ∨ s = c.default_section
  · have hsd : s = c.default_section := by
      rcases h with h | h
      · exact hs0 h
      · exact h
    simp [Config.set, h, hsd, alookup_aset_self]
  · have hmem' : s ∈ c.sectionNames := by
      rcases hmem with hm | hm
      · exact hm
      · exact absurd (Or.inr hm) h
    have hsd : s ≠ c.default_section := fun hh => h (Or.inr hh)
    rw [default_section_set]
    rw [if_neg hsd]
    rw [sections_set_other f c s o v h]
    rw [slookup_supdate_self c.sections s _ hnd]
    rcases Option.isSome_iff_exists.mp ((slookup_isSome_iff c.sections s).mpr hmem') with ⟨os, hos⟩
    simp [hos, alookup_aset_self]

theorem rawGet_set_ne_sec (f : String → String) (c : Config) (s o v t o' : String)
    (hts : t ≠ s) (htd : t = c.default_section → s ≠ "" ∧ s ≠ c.default_section) :
    (c.set f s o v).rawGet t o' = c.rawGet t o' := by
  unfold Config.rawGet
  rw [default_section_set]
  by_cases htd' : t = c.default_section
  · rcases htd htd' with ⟨h1, h2⟩
    have h : ¬(s = "" ∨ s = c.default_section) := by
      rintro (hh | hh)
      · exact h1 hh
      · exact h2 hh
    simp [htd', defaults_set_def, sections_set_other f c s o v h, h,
      defaults_set_other f c s o v h]
  · simp only [if_neg htd']
    by_cases h : s = "" ∨ s = c.default_section
    · rw [sections_set_def f c s o v h]
    · rw [sections_set_other f c s o v h, slookup_supdate_ne c.sections s _ t hts]

theorem rawGet_set_ne_opt (f : String → String) (c : Config) (s o v t o' : String)
    (ho : o' ≠ f o) (hnd : c.sectionNames.Nodup) :
    (c.set f s o v).rawGet t o' = c.rawGet t o' := by
  unfold Config.rawGet
  rw [default_section_set]
  by_cases htd : t = c.default_section
  · by_cases h : s = "" ∨ s = c.default_section
    · simp [htd, defaults_set_def f c s o v h, alookup_aset_ne _ _ _ _ ho]
    · simp [htd, defaults_set_other f c s o v h]
  · simp only [if_neg htd]
    by_cases h : s = "" ∨ s = c.default_section
    · rw [sections_set_def f c s o v h]
    · rw [sections_set_other f c s o v h]
      by_cases hts : t = s
      · subst hts
        rw [slookup_supdate_self c.sections t _ hnd]
        cases heq : slookup c.sections t
        · simp
        · simp [heq, alookup_aset_ne _ _ _ _ ho]
      · rw [slookup_supdate_ne c.sections s _ t hts]

/-! ### Key splitting: correctness of the first-occurrence split -/

theorem splitAtSep_sound (cs : List Char) (l r : List Char)
    (h : splitAtSep cs = some (l, r)) : cs = l ++ '_' :: '_' :: r := by
  induction cs generalizing l r with
  | nil => simp [splitAtSep] at h
  | cons c rest ih =>
    cases rest with
    | nil => simp [splitAtSep] at h
    | cons c2 rest2 =>
      by_cases hc : c = '_' ∧ c2 = '_'
      · rw [splitAtSep, if_pos hc] at h
        rcases hc with ⟨h1, h2⟩
        cases h
        simp [h1, h2]
      · rw [splitAtSep, if_neg hc] at h
        cases heq : splitAtSep (c2 :: rest2) with
        | none => rw [heq] at h; cases h
        | some p =>
          rw [heq] at h
          cases p with
          | mk l2 r2 =>
            simp at h
            rcases h with ⟨hl, hr⟩
            have := ih l2 r2 heq
            subst hl
            subst hr
            simp [this]

theorem splitAtSep_first (cs : List Char) (l r : List Char)
    (h : splitAtSep cs = some (l, r)) :
    ∀ i, i < l.length → ¬(cs[i]? = some '_' ∧ cs[i + 1]? = some '_') := by
  induction cs generalizing l r with
  | nil => simp [splitAtSep] at h
  | cons c rest ih =>
    cases rest with
    | nil => simp [splitAtSep] at h
    | cons c2 rest2 =>
      by_cases hc : c = '_' ∧ c2 = '_'
      · rw [splitAtSep, if_pos hc] at h
        cases h
        intro i hi
        simp at hi
      · rw [splitAtSep, if_neg hc] at h
        cases heq : splitAtSep (c2 :: rest2) with
        | none => rw [heq] at h; cases h
        | some p =>
          rw [heq] at h
          cases p with
          | mk l2 r2 =>
            simp at h
            rcases h with ⟨hl, hr⟩
            subst hl
            intro i hi
            cases i with
            | zero =>
              rintro ⟨h1, h2⟩
              simp at h1 h2
              have h2' : (c2 :: rest2)[0]? = some '_' := by
                simpa using h2
              simp at h2'
              exact hc ⟨h1, h2'⟩
            | succ j =>
              simp at hi
              have := ih l2 r2 heq j hi
              intro hj
              apply this
              constructor
              · simpa using hj.1
              · simpa using hj.2

theorem splitAtSep_none (cs : List Char) (h : splitAtSep cs = none) :
    ∀ i, ¬(cs[i]? = some '_' ∧ cs[i + 1]? = some '_') := by
  induction cs with
  | nil => intro i; rintro ⟨h1, _⟩; simp at h1
  | cons c rest ih =>
    cases rest with
    | nil =>
      intro i
      rintro ⟨h1, h2⟩
      cases i with
      | zero => simp at h2
      | succ j => simp at h1
    | cons c2 rest2 =>
      by_cases hc : c = '_' ∧ c2 = '_'
      · rw [splitAtSep, if_pos hc] at h
        cases h
      · rw [splitAtSep, if_neg hc] at h
        cases heq : splitAtSep (c2 :: rest2) with
        | none =>
          intro i
          cases i with
          | zero =>
            rintro ⟨h1, h2⟩
            simp at h1 h2
            have h2' : (c2 :: rest2)[0]? = some '_' := by simpa using h2
            simp at h2'
            exact hc ⟨h1, h2'⟩
          | succ j =>
            have := ih heq j
            rintro ⟨h1, h2⟩
            apply this
            constructor
            · simpa using h1
            · simpa using h2
        | some p => rw [heq] at h; cases p; cases h

theorem splitAtSep_complete (cs : List Char) (l r : List Char)
    (hdec : cs = l ++ '_' :: '_' :: r)
    (hfirst : ∀ i, i < l.length → ¬(cs[i]? = some '_' ∧ cs[i + 1]? = some '_')) :
    splitAtSep cs = some (l, r) := by
  have hsep0 : cs[l.length]? = some '_' := by
    subst hdec
    rw [List.getElem?_append_right (Nat.le_refl _)]
    simp
  have hsep1 : cs[l.length + 1]? = some '_' := by
    subst hdec
    rw [List.getElem?_append_right (Nat.le_succ_of_le (Nat.le_refl _))]
    simp
  cases heq : splitAtSep cs with
  | none =>
    exact absurd ⟨hsep0, hsep1⟩ (splitAtSep_none cs heq l.length)
  | some p =>
    cases p with
    | mk l2 r2 =>
      have hdec2 := splitAtSep_sound cs l2 r2 heq
      have hlen : l2.length = l.length := by
        rcases Nat.lt_trichotomy l2.length l.length with hlt | heq' | hgt
        · exfalso
          have h0 : cs[l2.length]? = some '_' := by
            rw [hdec2, List.getElem?_append_right (Nat.le_refl _)]
            simp
          have h1 : cs[l2.length + 1]? = some '_' := by
            rw [hdec2, List.getElem?_append_right (Nat.le_succ_of_le (Nat.le_refl _))]
            simp
          exact hfirst l2.length hlt ⟨h0, h1⟩
        · exact heq'
        · exact absurd ⟨hsep0, hsep1⟩ (splitAtSep_first cs l2 r2 heq l.length hgt)
      have hl : l2 = l := by
        have hthis : l2 ++ '_' :: '_' :: r2 = l ++ '_' :: '_' :: r := by
          rw [← hdec2, hdec]
        exact List.append_inj_left hthis (by rw [hlen])
      subst hl
      have hr : r2 = r := by
        have h2 : l2 ++ '_' :: '_' :: r2 = l2 ++ '_' :: '_' :: r := by
          rw [← hdec2, hdec]
        have := List.append_inj_right h2 rfl
        simpa using this
      subst hr
      rfl

/-! ### Claim C5: parse_key splits on the first double-underscore -/

/-- C5: for every key, `parse_key` splits on the first occurrence of the
double-underscore separator: when no two adjacent underscores occur it returns
the default-section name with the whole key passed through the normalization
function, and when the key decomposes as `l ++ "__" ++ r` at the leftmost such
position it returns the left part with its case untouched and the right part
passed through the normalization function. -/
theorem parse_key_splits_on_first_sep (ds : String) (f : String → String) (key : String) :
    ((∀ i, i < key.data.length →
        ¬(key.data[i]? = some '_' ∧ key.data[i + 1]? = some '_')) →
      parse_key ds f key = (ds, f key))
    ∧ (∀ l r, key.data = l ++ '_' :: '_' :: r →
        (∀ i, i < l.length → ¬(key.data[i]? = some '_' ∧ key.data[i + 1]? = some '_')) →
        parse_key ds f key = (⟨l⟩, f (⟨r⟩ : String))) := by
  constructor
  · intro hno
    unfold parse_key
    cases heq : splitAtSep key.data with
    | none => rfl
    | some p =>
      cases p with
      | mk l r =>
        exfalso
        have hdec := splitAtSep_sound key.data l r heq
        have h0 : key.data[l.length]? = some '_' := by
          rw [hdec, List.getElem?_append_right (Nat.le_refl _)]
          simp
        have h1 : key.data[l.length + 1]? = some '_' := by
          rw [hdec, List.getElem?_append_right (Nat.le_succ_of_le (Nat.le_refl _))]
          simp
        have hlen : l.length < key.data.length := by
          rw [hdec]
          simp only [List.length_append, List.length_cons]
          omega
        exact hno l.length hlen ⟨h0, h1⟩
  · intro l r hdec hfirst
    unfold parse_key
    rw [splitAtSep_complete key.data l r hdec hfirst]

/-- Witness for C5 at the key `a__b_c` (first split, not at the later single
underscore) and at the separator-free key `plain`. -/
theorem parse_key_splits_on_first_sep_witness :
    parse_key "DEFAULT" (fun s => s) "a__b_c" = ("a", "b_c")
    ∧ parse_key "DEFAULT" (fun s => s) "plain" = ("DEFAULT", "plain") := by
  constructor
  · exact (parse_key_splits_on_first_sep "DEFAULT" (fun s => s) "a__b_c").2
      ['a'] ['b', '_', 'c'] (by decide) (by decide)
  · exact (parse_key_splits_on_first_sep "DEFAULT" (fun s => s) "plain").1 (by decide)

/-! ### Claim C6: environment-variable naming -/

/-- C6: the codec's environment-variable naming function returns
PFX ++ OPTION when the section equals the default-section name (compared
exactly in case-sensitive mode, ignoring case in case-insensitive mode) and
PFX ++ SECTION ++ "__" ++ OPTION otherwise; in case-insensitive mode every
component of the result is upper-cased, in case-sensitive mode all case is
preserved as given.  (With an empty lead-in the concatenations collapse to
just the option part, matching the code's separate empty-string branches.) -/
theorem decide_env_var_naming (ds p sec opt : String) :
    (sec = ds → decide_env_var ds true p sec opt = p ++ opt)
    ∧ (sec ≠ ds → decide_env_var ds true p sec opt = p ++ sec ++ "__" ++ opt)
    ∧ (lowerStr sec = lowerStr ds →
        decide_env_var ds false p sec opt = upperStr p ++ upperStr opt)
    ∧ (lowerStr sec ≠ lowerStr ds →
        decide_env_var ds false p sec opt =
          upperStr p ++ upperStr sec ++ "__" ++ upperStr opt) := by
  have hpe : ∀ t : String, "" ++ t = t := by
    intro t
    cases t
    rfl
  have hue : upperStr "" = "" := rfl
  refine ⟨?_, ?_, ?_, ?_⟩
  · intro h
    by_cases hp : p = ""
    · subst hp
      simp [decide_env_var, h, hpe]
    · simp [decide_env_var, h, hp]
  · intro h
    by_cases hp : p = ""
    · subst hp
      simp [decide_env_var, h, hpe]
    · simp [decide_env_var, h, hp]
  · intro h
    by_cases hp : p = ""
    · subst hp
      simp [decide_env_var, h, hue, hpe]
    · simp [decide_env_var, h, hp]
  · intro h
    by_cases hp : p = ""
    · subst hp
      simp [decide_env_var, h, hue, hpe]
    · simp [decide_env_var, h, hp]

/-- Witness for C6 at concrete names in both modes. -/
theorem decide_env_var_naming_witness :
    decide_env_var "DEFAULT" true "Pf_" "Sec1" "Opt1" = "Pf_Sec1__Opt1"
    ∧ decide_env_var "DEFAULT" false "pf_" "Sec1" "opt1" = "PF_SEC1__OPT1"
    ∧ decide_env_var "DEFAULT" false "pf_" "Default" "opt1" = "PF_OPT1" := by
  refine ⟨?_, ?_, ?_⟩
  · rw [(decide_env_var_naming "DEFAULT" "Pf_" "Sec1" "Opt1").2.1 (by decide)]
    decide
  · rw [(decide_env_var_naming "DEFAULT" "pf_" "Sec1" "opt1").2.2.2 (by decide)]
    decide
  · rw [(decide_env_var_naming "DEFAULT" "pf_" "Default" "opt1").2.2.1 (by decide)]
    decide

/-! ### Claim C2: strategy selection and atomic failure -/

/-- C2: the factory raises `OverrideStrategyNotImplementedError` exactly when
the lead-in string is empty and create-new-from-environment is requested (for
either value of the direct flag); each of the other six combinations selects
exactly its corresponding variant; and since selection runs before any
override pass inside `read`, the failing case leaves the store exactly as
read from the files. -/
theorem get_strategy_policy_table ( p : String) (e d : Bool) (ctx : Ctx) (c : Config) :
    (get_strategy p e d = .error .mk ↔ (p = "" ∧ e = true))
    ∧ (p = "" → e = false → d = false → get_strategy p e d = .ok .NO_PREFIX_NO_NEW)
    ∧ (p = "" → e = false → d = true → get_strategy p e d = .ok .NO_PREFIX_NEW_DIRECT)
    ∧ (p ≠ "" → e = false → d = false → get_strategy p e d = .ok .PREFIX_NO_NEW)
    ∧ (p ≠ "" → e = true → d = false → get_strategy p e d = .ok .PREFIX_NEW_ENV)
    ∧ (p ≠ "" → e = false → d = true → get_strategy p e d = .ok .PREFIX_NEW_DIRECT)
    ∧ (p ≠ "" → e = true → d = true → get_strategy p e d = .ok .PREFIX_NEW_ENV_NEW_DIRECT)
    ∧ (get_strategy ctx.env_pfx e d = .error .mk → read_after_files ctx e d c = c) := by
  refine ⟨?_, ?_, ?_, ?_, ?_, ?_, ?_, ?_⟩
  · by_cases hp : p = "" <;> cases e <;> cases d <;> simp [get_strategy, hp]
  · intro h1 h2 h3
    simp [get_strategy, h1, h2, h3]
  · intro h1 h2 h3
    simp [get_strategy, h1, h2, h3]
  · intro h1 h2 h3
    simp [get_strategy, h1, h2, h3]
  · intro h1 h2 h3
    simp [get_strategy, h1, h2, h3]
  · intro h1 h2 h3
    simp [get_strategy, h1, h2, h3]
  · intro h1 h2 h3
    simp [get_strategy, h1, h2, h3]
  · intro h
    simp [read_after_files, h]

/-- Witness for C2: the error case at empty string with the env flag, a
selected variant, and the untouched store on failure. -/
theorem get_strategy_policy_table_witness :
    get_strategy "" true true = .error .mk
    ∧ get_strategy "APP_" false true = .ok .PREFIX_NEW_DIRECT
    ∧ read_after_files ⟨[("APP_A__B", "x")], "", [("A__b", "y")], false, lowerStr⟩ true false
        (Config.mk "DEFAULT" [] [("A", [("b", "v")])])
      = Config.mk "DEFAULT" [] [("A", [("b", "v")])] := by
  refine ⟨?_, ?_, ?_⟩
  · exact (get_strategy_policy_table "" true true ⟨[], "", [], false, id⟩
      (Config.mk "DEFAULT" [] [])).1.mpr ⟨rfl, rfl⟩
  · exact (get_strategy_policy_table "APP_" false true ⟨[], "", [], false, id⟩
      (Config.mk "DEFAULT" [] [])).2.2.2.2.2.1 (by decide) rfl rfl
  · exact (get_strategy_policy_table ""
      true false ⟨[("APP_A__B", "x")], "", [("A__b", "y")], false, lowerStr⟩
      (Config.mk "DEFAULT" [] [("A", [("b", "v")])])).2.2.2.2.2.2.2
      (by simp [get_strategy])

/-! ### Claim C10: constructor-time rejection of the invalid policy -/

/-- C10: constructing the orchestrator with create-new-from-environment set
and an empty lead-in fails at the `assert` inside `__init__`, before any file
read; conversely every configuration that survives construction makes
`get_strategy` succeed, so through the public orchestrator interface the
invalid combination is rejected at construction time and never reaches the
selector's error. -/
theorem init_rejects_invalid_policy ( p : String) (e d : Bool) :
    (init_accepts p e = false ↔ (e = true ∧ p = ""))
    ∧ (init_accepts p e = true → ∃ strat, get_strategy p e d = .ok strat) := by
  constructor
  · cases e <;> by_cases hp : p = "" <;> simp [init_accepts, hp]
  · intro h
    cases e <;> by_cases hp : p = "" <;> cases d <;>
      simp [init_accepts, hp, get_strategy] at h ⊢

/-- Witness for C10: rejected at construction for the invalid pair, accepted
with a real lead-in and then resolvable. -/
theorem init_rejects_invalid_policy_witness :
    init_accepts "" true = false
    ∧ (∃ strat, get_strategy "APP_" true true = .ok strat) := by
  constructor
  · exact (init_rejects_invalid_policy "" true true).1.mpr ⟨rfl, rfl⟩
  · exact (init_rejects_invalid_policy "APP_" true true).2 (by decide)

/-! ### Structure preservation under no-new passes -/

theorem KeysEq_refl (f : String → String) (c : Config) (hn : Normalized f c) :
    KeysEq f c c := by
  exact ⟨rfl, rfl, rfl, fun s => ⟨fun o h => h, fun o h => Or.inl h⟩, hn⟩

theorem norm_key_of_mem (f : String → String) (l : Opts) (k : String)
    (hn : NormOpts f l) (hk : k ∈ akeys l) : f k = k := by
  simp [akeys] at hk
  rcases hk with ⟨v, hv⟩
  exact hn (k, v) hv

theorem mem_akeys_aset (l : Opts) (k v x : String) (h : x ∈ akeys (aset l k v)) :
    x ∈ akeys l ∨ x = k := by
  induction l with
  | nil => simp [akeys] at h ⊢; tauto
  | cons p l ih =>
    by_cases hp : p.1 = k
    · simp [hp, akeys] at h ⊢
      tauto
    · simp [hp, akeys] at h ⊢
      rcases h with h | h
      · tauto
      · rcases ih (by simpa [akeys] using h) with h2 | h2
        · simp [akeys] at h2; tauto
        · tauto

theorem slookup_mem (l : List (String × Opts)) (k : String) (os : Opts)
    (h : slookup l k = some os) : (k, os) ∈ l := by
  induction l with
  | nil => simp at h
  | cons p l ih =>
    by_cases hp : p.1 = k
    · simp [hp] at h
      subst h
      have hpe : (k, p.2) = p := by
        rw [← hp]
      rw [hpe]
      exact List.mem_cons_self _ _
    · simp [hp] at h
      exact List.mem_cons_of_mem p (ih h)

theorem mem_supdate (l : List (String × Opts)) (k : String) (g : Opts → Opts)
    (q : String × Opts) (h : q ∈ supdate l k g) :
    q ∈ l ∨ ∃ os, (k, os) ∈ l ∧ q = (k, g os) := by
  induction l with
  | nil => simp at h
  | cons p l ih =>
    by_cases hp : p.1 = k
    · simp [hp] at h
      rcases h with h | h
      · right
        refine ⟨p.2, ?_, h⟩
        have hpe : (k, p.2) = p := by
          rw [← hp]
        rw [hpe]
        exact List.mem_cons_self _ _
      · exact Or.inl (List.mem_cons_of_mem p h)
    · simp [hp] at h
      rcases h with h | h
      · rw [h]
        exact Or.inl (List.mem_cons_self _ _)
      · rcases ih h with h2 | h2
        · exact Or.inl (List.mem_cons_of_mem p h2)
        · rcases h2 with ⟨os, hos, hq⟩
          exact Or.inr ⟨os, List.mem_cons_of_mem p hos, hq⟩

theorem ownOpts_norm (f : String → String) (c : Config) (s : String)
    (hn : Normalized f c) : NormOpts f (c.ownOpts s) := by
  unfold Config.ownOpts
  cases heq : slookup c.sections s with
  | none => intro p hp; simp at hp
  | some os =>
    simp
    exact hn.2 (s, os) (slookup_mem c.sections s os heq)

/-- A `set` of an option visible in the target section (the only kind of
`set` the no-new passes perform) preserves the key structure. -/
theorem set_preserves_KeysEq (f : String → String) (c0 c : Config) (sec opt v : String)
    (hwf : WF c0) (hk : KeysEq f c0 c)
    (hsec : sec ∈ c0.sectionNames ∨ sec = c0.default_section ∨ sec = "")
    (hvis : f opt ∈ akeys (c.ownOpts sec) ∨ f opt ∈ akeys c.defaults) :
    KeysEq f c0 (c.set f sec opt v) := by
  obtain ⟨hds, hnames, hdef, hown, hnorm⟩ := hk
  obtain ⟨hnd0, hds0, hne0⟩ := hwf
  by_cases hcase : sec = "" ∨ sec = c.default_section
  · -- write goes to the defaults dict
    have hvisd : f opt ∈ akeys c.defaults := by
      rcases hvis with hv | hv
      · -- own options of the default (or empty-named) section are empty
        have hnone : slookup c.sections sec = none := by
          rw [slookup_eq_none_iff]
          rcases hcase with hc | hc
          · subst hc
            rw [show c.sections.map Prod.fst = c.sectionNames from rfl, hnames]
            exact hne0
          · subst hc
            rw [show c.sections.map Prod.fst = c.sectionNames from rfl, hnames, hds]
            exact hds0
        rw [Config.ownOpts, hnone] at hv
        simp [akeys] at hv
      · exact hv
    have hfo : f (f opt) = f opt := norm_key_of_mem f c.defaults (f opt) hnorm.1 hvisd
    have hah : ahas c.defaults (f opt) = true := (ahas_iff _ _).mpr hvisd
    refine ⟨?_, ?_, ?_, ?_, ?_⟩
    · rw [default_section_set, hds]
    · rw [sectionNames_set, hnames]
    · rw [defaults_set_def f c sec opt v hcase, akeys_aset_of_ahas _ _ _ hah, hdef]
    · intro s
      have hsame : (c.set f sec opt v).ownOpts s = c.ownOpts s := by
        unfold Config.ownOpts
        rw [sections_set_def f c sec opt v hcase]
      rw [hsame]
      refine ⟨(hown s).1, fun o ho => ?_⟩
      rcases (hown s).2 o ho with h | h
      · exact Or.inl h
      · right
        rw [defaults_set_def f c sec opt v hcase, akeys_aset_of_ahas _ _ _ hah]
        exact h
    · constructor
      · rw [defaults_set_def f c sec opt v hcase]
        exact normOpts_aset f c.defaults (f opt) v hnorm.1 hfo
      · intro q hq
        rw [sections_set_def f c sec opt v hcase] at hq
        exact hnorm.2 q hq
  · -- write goes into an existing section's own dict
    have hsec' : sec ∈ c0.sectionNames := by
      rcases hsec with h | h | h
      · exact h
      · exact absurd (Or.inr (h.trans hds.symm)) hcase
      · exact absurd (Or.inl h) hcase
    have hsecc : sec ∈ c.sectionNames := hnames ▸ hsec'
    have hndc : c.sectionNames.Nodup := hnames ▸ hnd0
    rcases Option.isSome_iff_exists.mp ((slookup_isSome_iff c.sections sec).mpr hsecc)
      with ⟨os, hos⟩
    have hosn : NormOpts f os := hnorm.2 (sec, os) (slookup_mem c.sections sec os hos)
    have hfo : f (f opt) = f opt := by
      rcases hvis with hv | hv
      · exact norm_key_of_mem f (c.ownOpts sec) (f opt)
          (ownOpts_norm f c sec hnorm) hv
      · exact norm_key_of_mem f c.defaults (f opt) hnorm.1 hv
    have hownset : (c.set f sec opt v).ownOpts sec = aset (c.ownOpts sec) (f opt) v := by
      unfold Config.ownOpts
      rw [sections_set_other f c sec opt v hcase,
        slookup_supdate_self c.sections sec _ hndc, hos]
      simp [hos]
    refine ⟨?_, ?_, ?_, ?_, ?_⟩
    · rw [default_section_set, hds]
    · rw [sectionNames_set, hnames]
    · rw [defaults_set_other f c sec opt v hcase, hdef]
    · intro s
      by_cases hs : s = sec
      · subst hs
        rw [hownset]
        constructor
        · intro o ho
          have := (hown s).1 o ho
          rw [← ahas_iff] at this ⊢
          exact ahas_aset_superset _ _ _ _ this
        · intro o ho
          rcases mem_akeys_aset _ _ _ _ ho with h | h
          · rcases (hown s).2 o h with h2 | h2
            · exact Or.inl h2
            · right
              rw [defaults_set_other f c s opt v hcase]
              exact h2
          · subst h
            rcases hvis with hv | hv
            · rcases (hown s).2 _ hv with h2 | h2
              · exact Or.inl h2
              · right
                rw [defaults_set_other f c s opt v hcase]
                exact h2
            · right
              rw [defaults_set_other f c s opt v hcase]
              exact hv
      · have hsame : (c.set f sec opt v).ownOpts s = c.ownOpts s :=
          ownOpts_set_ne f c sec opt v s hs
        rw [hsame]
        refine ⟨(hown s).1, fun o ho => ?_⟩
        rcases (hown s).2 o ho with h | h
        · exact Or.inl h
        · right
          rw [defaults_set_other f c sec opt v hcase]
          exact h
    · constructor
      · rw [defaults_set_other f c sec opt v hcase]
        exact hnorm.1
      · intro q hq
        rw [sections_set_other f c sec opt v hcase] at hq
        rcases mem_supdate _ _ _ q hq with h | h
        · exact hnorm.2 q h
        · rcases h with ⟨os2, hos2, hq2⟩
          subst hq2
          have heq2 : os2 = os := by
            have h1 := slookup_mem c.sections sec os hos
            have hnd : (c.sections.map Prod.fst).Nodup := hndc
            have hpair := List.inj_on_of_nodup_map hnd hos2 h1 rfl
            injection hpair with ha hb
          subst heq2
          exact normOpts_aset f os2 (f opt) v hosn hfo

theorem mem_optionsOf (c : Config) (s o : String) :
    o ∈ c.optionsOf s ↔ o ∈ akeys (c.ownOpts s) ∨ o ∈ akeys c.defaults := by
  unfold Config.optionsOf Config.ownOpts
  simp only [List.mem_append, List.mem_filter]
  constructor
  · rintro (h | ⟨h1, _⟩)
    · exact Or.inl h
    · exact Or.inr h1
  · rintro (h | h)
    · exact Or.inl h
    · cases hm : lmem (akeys ((slookup c.sections s).getD [])) o with
      | true => exact Or.inl ((lmem_iff _ _).mp hm)
      | false => exact Or.inr ⟨h, by simp [hm]⟩

theorem KeysEq_vis (f : String → String) (c0 c : Config) (hk : KeysEq f c0 c)
    (s o : String) : o ∈ c.optionsOf s ↔ o ∈ c0.optionsOf s := by
  obtain ⟨_, _, hdef, hown, _⟩ := hk
  rw [mem_optionsOf, mem_optionsOf]
  constructor
  · rintro (h | h)
    · rcases (hown s).2 o h with h2 | h2
      · exact Or.inl h2
      · exact Or.inr (hdef ▸ h2)
    · exact Or.inr (hdef ▸ h)
  · rintro (h | h)
    · exact Or.inl ((hown s).1 o h)
    · exact Or.inr (hdef ▸ h)

theorem optionsOf_norm (f : String → String) (c : Config) (s o : String)
    (hn : Normalized f c) (ho : o ∈ c.optionsOf s) : f o = o := by
  rcases (mem_optionsOf c s o).mp ho with h | h
  · exact norm_key_of_mem f (c.ownOpts s) o (ownOpts_norm f c s hn) h
  · exact norm_key_of_mem f c.defaults o hn.1 h

theorem has_option_vis (f : String → String) (c : Config) (s o : String)
    (h : c.has_option f s o = true) :
    f o ∈ akeys (c.ownOpts s) ∨ f o ∈ akeys c.defaults := by
  unfold Config.has_option at h
  by_cases hc : s = "" ∨ s = c.default_section
  · rw [if_pos hc] at h
    exact Or.inr ((ahas_iff _ _).mp h)
  · rw [if_neg hc] at h
    cases heq : slookup c.sections s with
    | none => rw [heq] at h; cases h
    | some os =>
      rw [heq] at h
      change (if ahas os (f o) = true then true else ahas c.defaults (f o)) = true at h
      unfold Config.ownOpts
      rw [heq]
      by_cases ho : ahas os (f o) = true
      · exact Or.inl (by simpa using (ahas_iff _ _).mp ho)
      · rw [if_neg ho] at h
        exact Or.inr ((ahas_iff _ _).mp h)

theorem strat_has_section_true_elim (c : Config) (s : String)
    (h : strat_has_section true c s = true) :
    s ∈ c.sectionNames ∨ s = c.default_section := by
  unfold strat_has_section Config.has_section at h
  simp only [if_true] at h
  cases hm : lmem c.sectionNames s with
  | true => exact Or.inl ((lmem_iff _ _).mp hm)
  | false =>
    rw [hm] at h
    simp at h
    exact Or.inr h

theorem lastWithLower_mem (l : List String) (k t : String)
    (h : lastWithLower l k = some t) : t ∈ l ∧ lowerStr t = k := by
  induction l with
  | nil => simp [lastWithLower] at h
  | cons a rest ih =>
    rw [lastWithLower] at h
    cases heq : lastWithLower rest k with
    | some r =>
      rw [heq] at h
      cases h
      have := ih heq
      exact ⟨List.mem_cons_of_mem a this.1, this.2⟩
    | none =>
      rw [heq] at h
      by_cases ha : lowerStr a = k
      · rw [if_pos ha] at h
        cases h
        exact ⟨List.mem_cons_self _ _, ha⟩
      · rw [if_neg ha] at h
        cases h

theorem lastWithLower_isSome_of_lmem (l : List String) (k : String)
    (h : lmem (l.map lowerStr) k = true) : (lastWithLower l k).isSome := by
  induction l with
  | nil => simp at h
  | cons a rest ih =>
    rw [lastWithLower]
    simp only [List.map_cons, lmem_cons] at h
    cases heq : lastWithLower rest k with
    | some r => simp
    | none =>
      by_cases ha : lowerStr a = k
      · simp [ha]
      · rw [if_neg ha] at h
        have := ih h
        rw [heq] at this
        simp at this

theorem get_existing_ci_target (c : Config) (s : String)
    (h : strat_has_section false c s = true) :
    get_existing_ci c s ∈ c.sectionNames ∨ get_existing_ci c s = c.default_section := by
  unfold get_existing_ci
  by_cases hd : lowerStr s = lowerStr c.default_section
  · simp [hd]
  · rw [if_neg hd]
    unfold strat_has_section at h
    simp only [Bool.if_false_right, Bool.if_true_left] at h
    cases hm : lmem (c.sectionNames.map lowerStr) (lowerStr s) with
    | false =>
      rw [hm] at h
      simp at h
      exact absurd h.symm hd
    | true =>
      have hsome := lastWithLower_isSome_of_lmem c.sectionNames (lowerStr s) hm
      rcases Option.isSome_iff_exists.mp hsome with ⟨t, ht⟩
      rw [ht]
      exact Or.inl (lastWithLower_mem c.sectionNames (lowerStr s) t ht).1

/-- One step of the no-new environment scan preserves the key structure,
as long as the scanned option is visible in the target section. -/
theorem envStepNoNew_KeysEq (ctx : Ctx) (c0 : Config) (hwf : WF c0) (sec : String)
    (hsec : sec ∈ c0.sectionNames ∨ sec = c0.default_section ∨ sec = "")
    (c : Config) (opt : String) (hk : KeysEq ctx.f c0 c)
    (hvis : opt ∈ c0.optionsOf sec) :
    KeysEq ctx.f c0 (envStepNoNew ctx sec c opt) := by
  unfold envStepNoNew
  cases alookup ctx.env (decide_env_var c.default_section ctx.cs ctx.env_pfx sec opt) with
  | none => exact hk
  | some v =>
    have hvisc : opt ∈ c.optionsOf sec := (KeysEq_vis ctx.f c0 c hk sec opt).mpr hvis
    have hfo : ctx.f opt = opt := optionsOf_norm ctx.f c sec opt hk.2.2.2.2 hvisc
    apply set_preserves_KeysEq ctx.f c0 c sec opt v hwf hk hsec
    rw [hfo]
    exact (mem_optionsOf c sec opt).mp hvisc

theorem env_inner_fold_KeysEq (ctx : Ctx) (c0 : Config) (hwf : WF c0) (sec : String)
    (hsec : sec ∈ c0.sectionNames ∨ sec = c0.default_section ∨ sec = "")
    (opts : List String) :
    ∀ c, KeysEq ctx.f c0 c → (∀ o ∈ opts, o ∈ c0.optionsOf sec) →
      KeysEq ctx.f c0 (opts.foldl (envStepNoNew ctx sec) c) := by
  induction opts with
  | nil => intro c hk _; exact hk
  | cons o opts ih =>
    intro c hk hin
    rw [List.foldl_cons]
    exact ih (envStepNoNew ctx sec c o)
      (envStepNoNew_KeysEq ctx c0 hwf sec hsec c o hk (hin o (by simp)))
      (fun o2 h2 => hin o2 (by simp [h2]))

theorem env_sections_fold_KeysEq (ctx : Ctx) (c0 : Config) (hwf : WF c0)
    (secs : List String) (hsecs : ∀ t ∈ secs, t ∈ c0.sectionNames) :
    ∀ c, KeysEq ctx.f c0 c →
      KeysEq ctx.f c0 (secs.foldl (envSectionNoNew ctx) c) := by
  induction secs with
  | nil => intro c hk; exact hk
  | cons sec secs ih =>
    intro c hk
    rw [List.foldl_cons]
    have hsec : sec ∈ c0.sectionNames := hsecs sec (by simp)
    apply ih (fun t ht => hsecs t (by simp [ht]))
    unfold envSectionNoNew
    apply env_inner_fold_KeysEq ctx c0 hwf sec (Or.inl hsec) (c.optionsOf sec) c hk
    intro o ho
    exact (KeysEq_vis ctx.f c0 c hk sec o).mp ho

/-- The whole no-new environment pass preserves the key structure. -/
theorem override_env_no_new_KeysEq (ctx : Ctx) (c0 : Config) (hwf : WF c0)
    (c : Config) (hk : KeysEq ctx.f c0 c) :
    KeysEq ctx.f c0 (override_env_no_new ctx c) := by
  unfold override_env_no_new
  have h1 : KeysEq ctx.f c0 (c.sectionNames.foldl (envSectionNoNew ctx) c) := by
    apply env_sections_fold_KeysEq ctx c0 hwf c.sectionNames _ c hk
    intro t ht
    rw [hk.2.1] at ht
    exact ht
  set c1 := c.sectionNames.foldl (envSectionNoNew ctx) c with hc1
  apply env_inner_fold_KeysEq ctx c0 hwf c1.default_section
    (Or.inr (Or.inl h1.1)) (akeys c1.defaults) c1 h1
  intro o ho
  rw [mem_optionsOf]
  right
  rw [← h1.2.2.1]
  exact ho

/-- One direct override in no-new mode preserves the key structure. -/
theorem directStepNoNew_KeysEq (ctx : Ctx) (c0 : Config) (hwf : WF c0)
    (c : Config) (kv : String × String) (hk : KeysEq ctx.f c0 c) :
    KeysEq ctx.f c0 (directStepNoNew ctx c kv) := by
  unfold directStepNoNew
  cases hcs : ctx.cs with
  | true =>
    simp only [if_true]
    by_cases h1 : strat_has_section true c (parse_key c.default_section ctx.f kv.1).1 = true
    · rw [if_pos h1]
      by_cases h2 : c.has_option ctx.f (parse_key c.default_section ctx.f kv.1).1
          (parse_key c.default_section ctx.f kv.1).2 = true
      · rw [if_pos h2]
        apply set_preserves_KeysEq ctx.f c0 c _ _ _ hwf hk
        · rcases strat_has_section_true_elim c _ h1 with h | h
          · exact Or.inl (hk.2.1 ▸ h)
          · exact Or.inr (Or.inl (h.trans hk.1))
        · exact has_option_vis ctx.f c _ _ h2
      · rw [if_neg h2]
        exact hk
    · rw [if_neg h1]
      exact hk
  | false =>
    simp only [Bool.false_eq_true, if_false]
    by_cases h1 : strat_has_section false c (parse_key c.default_section ctx.f kv.1).1 = true
    · rw [if_pos h1]
      by_cases h2 : c.has_option ctx.f
          (get_existing_ci c (parse_key c.default_section ctx.f kv.1).1)
          (parse_key c.default_section ctx.f kv.1).2 = true
      · rw [if_pos h2]
        apply set_preserves_KeysEq ctx.f c0 c _ _ _ hwf hk
        · rcases get_existing_ci_target c _ h1 with h | h
          · exact Or.inl (hk.2.1 ▸ h)
          · exact Or.inr (Or.inl (h.trans hk.1))
        · exact has_option_vis ctx.f c _ _ h2
      · rw [if_neg h2]
        exact hk
    · rw [if_neg h1]
      exact hk

/-- The whole no-new direct pass preserves the key structure. -/
theorem override_direct_no_new_KeysEq (ctx : Ctx) (c0 : Config) (hwf : WF c0)
    (ov : Env) :
    ∀ c, KeysEq ctx.f c0 c → KeysEq ctx.f c0 (ov.foldl (directStepNoNew ctx) c) := by
  induction ov with
  | nil => intro c hk; exact hk
  | cons kv ov ih =>
    intro c hk
    rw [List.foldl_cons]
    exact ih (directStepNoNew ctx c kv) (directStepNoNew_KeysEq ctx c0 hwf c kv hk)

/-! ### Claim C3: no-new resolution leaves the key sets unchanged -/

/-- C3: under the no-new policies (both passes in no-new mode), a
direct-override key whose parsed target option is visible in no section is
silently dropped (the step is the identity, never an error), and the whole
resolution leaves the store's section list and every section's set of visible
options unchanged — no new section or option appears.  The store is assumed
representable (`WF`) and normalized, the invariants of every parser-built
store. -/
theorem no_new_resolution_preserves_key_sets (ctx : Ctx) (c : Config)
    (strat : OverrideStrategies)
    (hstrat : strat = .NO_PREFIX_NO_NEW ∨ strat = .PREFIX_NO_NEW)
    (hwf : WF c) (hn : Normalized ctx.f c) :
    (Strategy.execute strat ctx c).default_section = c.default_section
    ∧ (Strategy.execute strat ctx c).sectionNames = c.sectionNames
    ∧ akeys (Strategy.execute strat ctx c).defaults = akeys c.defaults
    ∧ (∀ s o, o ∈ (Strategy.execute strat ctx c).optionsOf s ↔ o ∈ c.optionsOf s)
    ∧ (∀ c' (kv : String × String),
        (∀ t, (t ∈ c'.sectionNames ∨ t = c'.default_section) →
          ctx.f (parse_key c'.default_section ctx.f kv.1).2 ∉ c'.optionsOf t) →
        directStepNoNew ctx c' kv = c') := by
  have hflags : envCreateFlag strat = false ∧ directCreateFlag strat = false := by
    rcases hstrat with h | h <;> subst h <;> exact ⟨rfl, rfl⟩
  have hexec : Strategy.execute strat ctx c =
      ctx.overrides.foldl (directStepNoNew ctx) (override_env_no_new ctx c) := by
    unfold Strategy.execute override_env override_direct
    rw [hflags.1, hflags.2]
    simp
  have hk : KeysEq ctx.f c (Strategy.execute strat ctx c) := by
    rw [hexec]
    exact override_direct_no_new_KeysEq ctx c hwf ctx.overrides _
      (override_env_no_new_KeysEq ctx c hwf c (KeysEq_refl ctx.f c hn))
  refine ⟨hk.1, hk.2.1, hk.2.2.1, ?_, ?_⟩
  · intro s o
    exact KeysEq_vis ctx.f c _ hk s o
  · intro c' kv hmiss
    unfold directStepNoNew
    cases hcs : ctx.cs with
    | true =>
      simp only [if_true]
      by_cases h1 : strat_has_section true c' (parse_key c'.default_section ctx.f kv.1).1 = true
      · rw [if_pos h1]
        by_cases h2 : c'.has_option ctx.f (parse_key c'.default_section ctx.f kv.1).1
            (parse_key c'.default_section ctx.f kv.1).2 = true
        · exfalso
          rcases strat_has_section_true_elim c' _ h1 with ht | ht
          · exact hmiss _ (Or.inl ht) ((mem_optionsOf c' _ _).mpr (has_option_vis ctx.f c' _ _ h2))
          · exact hmiss _ (Or.inr ht) ((mem_optionsOf c' _ _).mpr (has_option_vis ctx.f c' _ _ h2))
        · rw [if_neg h2]
      · rw [if_neg h1]
    | false =>
      simp only [Bool.false_eq_true, if_false]
      by_cases h1 : strat_has_section false c' (parse_key c'.default_section ctx.f kv.1).1 = true
      · rw [if_pos h1]
        by_cases h2 : c'.has_option ctx.f
            (get_existing_ci c' (parse_key c'.default_section ctx.f kv.1).1)
            (parse_key c'.default_section ctx.f kv.1).2 = true
        · exfalso
          rcases get_existing_ci_target c' _ h1 with ht | ht
          · exact hmiss _ (Or.inl ht) ((mem_optionsOf c' _ _).mpr (has_option_vis ctx.f c' _ _ h2))
          · exact hmiss _ (Or.inr ht) ((mem_optionsOf c' _ _).mpr (has_option_vis ctx.f c' _ _ h2))
        · rw [if_neg h2]
      · rw [if_neg h1]

/-- Witness for C3: a concrete normalized store with one section, one
environment override hitting an existing option and one direct override
addressed at a missing option. -/
theorem no_new_resolution_preserves_key_sets_witness :
    (Strategy.execute .NO_PREFIX_NO_NEW
        ⟨[("S1__K1", "e")], "", [("S1__missing", "x")], false, lowerStr⟩
        (Config.mk "DEFAULT" [("dk", "dv")] [("S1", [("k1", "v1")])])).sectionNames
      = (Config.mk "DEFAULT" [("dk", "dv")] [("S1", [("k1", "v1")])]).sectionNames := by
  exact (no_new_resolution_preserves_key_sets
    ⟨[("S1__K1", "e")], "", [("S1__missing", "x")], false, lowerStr⟩
    (Config.mk "DEFAULT" [("dk", "dv")] [("S1", [("k1", "v1")])])
    .NO_PREFIX_NO_NEW (Or.inl rfl) (by decide)
    (by constructor <;> decide)).2.1

/-! ### Claim C9: duplication of fallback options into own storage -/

theorem get_existing_ci_spec (c : Config) (s : String)
    (h : strat_has_section false c s = true) :
    get_existing_ci c s = c.default_section
    ∨ (get_existing_ci c s ∈ c.sectionNames
        ∧ lowerStr (get_existing_ci c s) = lowerStr s) := by
  unfold get_existing_ci
  by_cases hd : lowerStr s = lowerStr c.default_section
  · simp [hd]
  · rw [if_neg hd]
    unfold strat_has_section at h
    simp only [Bool.if_false_right, Bool.if_true_left] at h
    cases hm : lmem (c.sectionNames.map lowerStr) (lowerStr s) with
    | false =>
      rw [hm] at h
      simp at h
      exact absurd h.symm hd
    | true =>
      have hsome := lastWithLower_isSome_of_lmem c.sectionNames (lowerStr s) hm
      rcases Option.isSome_iff_exists.mp hsome with ⟨t, ht⟩
      rw [ht]
      right
      exact ⟨(lastWithLower_mem c.sectionNames (lowerStr s) t ht).1,
        (lastWithLower_mem c.sectionNames (lowerStr s) t ht).2⟩

/-- A `set` that misses the cell (S, o) leaves S's own storage membership of o
unchanged. -/
theorem ahas_ownOpts_set_miss (f : String → String) (c : Config) (sec opt v S o : String)
    (hnd : c.sectionNames.Nodup) (hds : c.default_section ∉ c.sectionNames)
    (hne : "" ∉ c.sectionNames) (hS : S ∈ c.sectionNames)
    (hmiss : sec ≠ S ∨ f opt ≠ o) :
    ahas ((c.set f sec opt v).ownOpts S) o = ahas (c.ownOpts S) o := by
  by_cases hsec : sec = S
  · subst hsec
    have hfo : f opt ≠ o := by
      rcases hmiss with h | h
      · exact absurd rfl h
      · exact h
    have hnotd : ¬(sec = "" ∨ sec = c.default_section) := by
      rintro (h | h)
      · exact hne (h ▸ hS)
      · exact hds (h ▸ hS)
    rw [ownOpts_set_self f c sec opt v hnd hnotd hS, ahas_aset]
    simp [hfo]
  · rw [ownOpts_set_ne f c sec opt v S (fun hh => hsec hh.symm)]

theorem env_inner_fold_notOwn (ctx : Ctx) (c0 : Config) (hwf : WF c0)
    (S o : String) (hS : S ∈ c0.sectionNames)
    (henv : alookup ctx.env
      (decide_env_var c0.default_section ctx.cs ctx.env_pfx S o) = none)
    (sec : String)
    (hsec : sec ∈ c0.sectionNames ∨ sec = c0.default_section ∨ sec = "")
    (opts : List String) :
    ∀ c, KeysEq ctx.f c0 c → (∀ p ∈ opts, p ∈ c0.optionsOf sec) →
      ahas (c.ownOpts S) o = false →
      KeysEq ctx.f c0 (opts.foldl (envStepNoNew ctx sec) c)
      ∧ ahas ((opts.foldl (envStepNoNew ctx sec) c).ownOpts S) o = false := by
  induction opts with
  | nil => intro c hk _ ha; exact ⟨hk, ha⟩
  | cons opt opts ih =>
    intro c hk hin ha
    rw [List.foldl_cons]
    have hstep : KeysEq ctx.f c0 (envStepNoNew ctx sec c opt) :=
      envStepNoNew_KeysEq ctx c0 hwf sec hsec c opt hk (hin opt (by simp))
    have hstepa : ahas ((envStepNoNew ctx sec c opt).ownOpts S) o = false := by
      unfold envStepNoNew
      cases hl : alookup ctx.env
          (decide_env_var c.default_section ctx.cs ctx.env_pfx sec opt) with
      | none => exact ha
      | some v =>
        have hndc : c.sectionNames.Nodup := hk.2.1 ▸ hwf.1
        have hdsc : c.default_section ∉ c.sectionNames := by
          rw [hk.2.1, hk.1]
          exact hwf.2.1
        have hnec : "" ∉ c.sectionNames := hk.2.1 ▸ hwf.2.2
        have hSc : S ∈ c.sectionNames := hk.2.1 ▸ hS
        rw [ahas_ownOpts_set_miss ctx.f c sec opt v S o hndc hdsc hnec hSc ?_]
        · exact ha
        · by_cases hss : sec = S
          · subst hss
            by_cases hoo : opt = o
            · subst hoo
              rw [hk.1] at hl
              rw [henv] at hl
              cases hl
            · right
              have hreg : ctx.f opt = opt := by
                have hvisc : opt ∈ c.optionsOf sec :=
                  (KeysEq_vis ctx.f c0 c hk sec opt).mpr (hin opt (by simp))
                exact optionsOf_norm ctx.f c sec opt hk.2.2.2.2 hvisc
              rw [hreg]
              exact hoo
          · exact Or.inl hss
    rcases ih (envStepNoNew ctx sec c opt) hstep
      (fun p hp => hin p (by simp [hp])) hstepa with ⟨h1, h2⟩
    exact ⟨h1, h2⟩

theorem env_sections_fold_notOwn (ctx : Ctx) (c0 : Config) (hwf : WF c0)
    (S o : String) (hS : S ∈ c0.sectionNames)
    (henv : alookup ctx.env
      (decide_env_var c0.default_section ctx.cs ctx.env_pfx S o) = none)
    (secs : List String) (hsecs : ∀ t ∈ secs, t ∈ c0.sectionNames) :
    ∀ c, KeysEq ctx.f c0 c → ahas (c.ownOpts S) o = false →
      KeysEq ctx.f c0 (secs.foldl (envSectionNoNew ctx) c)
      ∧ ahas ((secs.foldl (envSectionNoNew ctx) c).ownOpts S) o = false := by
  induction secs with
  | nil => intro c hk ha; exact ⟨hk, ha⟩
  | cons sec secs ih =>
    intro c hk ha
    rw [List.foldl_cons]
    have hsec : sec ∈ c0.sectionNames := hsecs sec (by simp)
    have hstep := env_inner_fold_notOwn ctx c0 hwf S o hS henv sec (Or.inl hsec)
      (c.optionsOf sec) c hk
      (fun p hp => (KeysEq_vis ctx.f c0 c hk sec p).mp hp) ha
    exact ih (fun t ht => hsecs t (by simp [ht])) _ hstep.1 hstep.2

theorem override_env_no_new_notOwn (ctx : Ctx) (c0 : Config) (hwf : WF c0)
    (S o : String) (hS : S ∈ c0.sectionNames)
    (henv : alookup ctx.env
      (decide_env_var c0.default_section ctx.cs ctx.env_pfx S o) = none)
    (c : Config) (hk : KeysEq ctx.f c0 c) (ha : ahas (c.ownOpts S) o = false) :
    KeysEq ctx.f c0 (override_env_no_new ctx c)
    ∧ ahas ((override_env_no_new ctx c).ownOpts S) o = false := by
  unfold override_env_no_new
  have h1 := env_sections_fold_notOwn ctx c0 hwf S o hS henv c.sectionNames
    (fun t ht => hk.2.1 ▸ ht) c hk ha
  set c1 := c.sectionNames.foldl (envSectionNoNew ctx) c with hc1
  apply env_inner_fold_notOwn ctx c0 hwf S o hS henv c1.default_section
    (Or.inr (Or.inl h1.1.1)) (akeys c1.defaults) c1 h1.1 _ h1.2
  intro p hp
  rw [mem_optionsOf]
  right
  rw [← h1.1.2.2.1]
  exact hp

theorem directStepNoNew_notOwn (ctx : Ctx) (c0 : Config) (hwf : WF c0)
    (S o : String) (hS : S ∈ c0.sectionNames)
    (c : Config) (kv : String × String) (hk : KeysEq ctx.f c0 c)
    (ha : ahas (c.ownOpts S) o = false)
    (hkv : (ctx.cs = true → ¬((parse_key c0.default_section ctx.f kv.1).1 = S
        ∧ ctx.f (parse_key c0.default_section ctx.f kv.1).2 = o))
      ∧ (ctx.cs = false → ¬(lowerStr (parse_key c0.default_section ctx.f kv.1).1 = lowerStr S
        ∧ ctx.f (parse_key c0.default_section ctx.f kv.1).2 = o))) :
    ahas ((directStepNoNew ctx c kv).ownOpts S) o = false := by
  have hndc : c.sectionNames.Nodup := hk.2.1 ▸ hwf.1
  have hdsc : c.default_section ∉ c.sectionNames := by
    rw [hk.2.1, hk.1]
    exact hwf.2.1
  have hnec : "" ∉ c.sectionNames := hk.2.1 ▸ hwf.2.2
  have hSc : S ∈ c.sectionNames := hk.2.1 ▸ hS
  have hdsS : c.default_section ≠ S := fun hh => hdsc (hh ▸ hSc)
  have hpk : parse_key c.default_section ctx.f kv.1
      = parse_key c0.default_section ctx.f kv.1 := by
    rw [hk.1]
  unfold directStepNoNew
  cases hcs : ctx.cs with
  | true =>
    simp only [if_true]
    by_cases h1 : strat_has_section true c (parse_key c.default_section ctx.f kv.1).1 = true
    · rw [if_pos h1]
      by_cases h2 : c.has_option ctx.f (parse_key c.default_section ctx.f kv.1).1
          (parse_key c.default_section ctx.f kv.1).2 = true
      · rw [if_pos h2]
        rw [ahas_ownOpts_set_miss ctx.f c _ _ _ S o hndc hdsc hnec hSc ?_]
        · exact ha
        · have hmiss := hkv.1 hcs
          rw [← hpk] at hmiss
          by_cases hss : (parse_key c.default_section ctx.f kv.1).1 = S
          · right
            intro hfo
            exact hmiss ⟨hss, hfo⟩
          · exact Or.inl hss
      · rw [if_neg h2]
        exact ha
    · rw [if_neg h1]
      exact ha
  | false =>
    simp only [Bool.false_eq_true, if_false]
    by_cases h1 : strat_has_section false c (parse_key c.default_section ctx.f kv.1).1 = true
    · rw [if_pos h1]
      by_cases h2 : c.has_option ctx.f
          (get_existing_ci c (parse_key c.default_section ctx.f kv.1).1)
          (parse_key c.default_section ctx.f kv.1).2 = true
      · rw [if_pos h2]
        rw [ahas_ownOpts_set_miss ctx.f c _ _ _ S o hndc hdsc hnec hSc ?_]
        · exact ha
        · have hmiss := hkv.2 hcs
          rw [← hpk] at hmiss
          rcases get_existing_ci_spec c (parse_key c.default_section ctx.f kv.1).1 h1
            with ht | ⟨htm, htl⟩
          · left
            rw [ht]
            exact hdsS
          · by_cases hss : get_existing_ci c (parse_key c.default_section ctx.f kv.1).1 = S
            · right
              intro hfo
              apply hmiss
              refine ⟨?_, hfo⟩
              rw [← htl, hss]
            · exact Or.inl hss
      · rw [if_neg h2]
        exact ha
    · rw [if_neg h1]
      exact ha

theorem override_direct_no_new_notOwn (ctx : Ctx) (c0 : Config) (hwf : WF c0)
    (S o : String) (hS : S ∈ c0.sectionNames)
    (hdir : ∀ kv ∈ ctx.overrides,
      (ctx.cs = true → ¬((parse_key c0.default_section ctx.f kv.1).1 = S
        ∧ ctx.f (parse_key c0.default_section ctx.f kv.1).2 = o))
      ∧ (ctx.cs = false → ¬(lowerStr (parse_key c0.default_section ctx.f kv.1).1 = lowerStr S
        ∧ ctx.f (parse_key c0.default_section ctx.f kv.1).2 = o))) :
    ∀ ov : Env, (∀ kv ∈ ov, kv ∈ ctx.overrides) →
    ∀ c, KeysEq ctx.f c0 c → ahas (c.ownOpts S) o = false →
      ahas ((ov.foldl (directStepNoNew ctx) c).ownOpts S) o = false := by
  intro ov
  induction ov with
  | nil => intro _ c _ ha; exact ha
  | cons kv ov ih =>
    intro hsub c hk ha
    rw [List.foldl_cons]
    exact ih (fun p hp => hsub p (by simp [hp])) (directStepNoNew ctx c kv)
      (directStepNoNew_KeysEq ctx c0 hwf c kv hk)
      (directStepNoNew_notOwn ctx c0 hwf S o hS c kv hk ha (hdir kv (hsub kv (by simp))))

/-- Counterexample to C9 as stated: with defaults `{o: d}` and a section `S`
whose own storage is empty, the option `o` is visible in `S` only through
default-section fallback; yet with the environment variable `S__O` set, the
no-new environment pass writes `o` into `S`'s own storage. -/
theorem fallback_option_duplicated_counterexample :
    (Config.mk "DEFAULT" [("o", "d")] [("S", [])]).ownOpts "S" = []
    ∧ (Strategy.execute .NO_PREFIX_NO_NEW
        ⟨[("S__O", "v1")], "", [], false, lowerStr⟩
        (Config.mk "DEFAULT" [("o", "d")] [("S", [])])).ownOpts "S" = [("o", "v1")] := by
  exact ⟨rfl, rfl⟩

/-- C9 as amended: under a no-new policy, an option visible in section S only
through default-section fallback stays out of S's own storage provided no
override targets the cell (S, o): the environment variable the codec derives
for (S, o) is unset and no direct-override key resolves to it.  (The
counterexample shows the restriction is needed: a targeted fallback option IS
duplicated into the section's own storage.) -/
theorem no_new_fallback_not_duplicated_when_untargeted (ctx : Ctx) (c : Config)
    (strat : OverrideStrategies)
    (hstrat : strat = .NO_PREFIX_NO_NEW ∨ strat = .PREFIX_NO_NEW)
    (hwf : WF c) (hn : Normalized ctx.f c)
    (S o : String) (hS : S ∈ c.sectionNames)
    (hdef : o ∈ akeys c.defaults)
    (hown : ahas (c.ownOpts S) o = false)
    (henv : alookup ctx.env
      (decide_env_var c.default_section ctx.cs ctx.env_pfx S o) = none)
    (hdir : ∀ kv ∈ ctx.overrides,
      (ctx.cs = true → ¬((parse_key c.default_section ctx.f kv.1).1 = S
        ∧ ctx.f (parse_key c.default_section ctx.f kv.1).2 = o))
      ∧ (ctx.cs = false → ¬(lowerStr (parse_key c.default_section ctx.f kv.1).1 = lowerStr S
        ∧ ctx.f (parse_key c.default_section ctx.f kv.1).2 = o))) :
    ahas ((Strategy.execute strat ctx c).ownOpts S) o = false := by
  have hflags : envCreateFlag strat = false ∧ directCreateFlag strat = false := by
    rcases hstrat with h | h <;> subst h <;> exact ⟨rfl, rfl⟩
  have hexec : Strategy.execute strat ctx c =
      ctx.overrides.foldl (directStepNoNew ctx) (override_env_no_new ctx c) := by
    unfold Strategy.execute override_env override_direct
    rw [hflags.1, hflags.2]
    simp
  rw [hexec]
  have henv' := override_env_no_new_notOwn ctx c hwf S o hS henv c
    (KeysEq_refl ctx.f c hn) hown
  exact override_direct_no_new_notOwn ctx c hwf S o hS hdir ctx.overrides
    (fun kv hkv => hkv) _ henv'.1 henv'.2

/-- Witness for the amended C9 at a concrete store: `o` comes only from the
defaults, nothing targets `(S, o)`, and resolution leaves S's own storage
without `o`. -/
theorem no_new_fallback_not_duplicated_when_untargeted_witness :
    ahas ((Strategy.execute .NO_PREFIX_NO_NEW
        ⟨[("S__OTHER", "v1")], "", [("S__k", "v2")], false, lowerStr⟩
        (Config.mk "DEFAULT" [("o", "d")] [("S", [("k", "v0")])])).ownOpts "S") "o"
      = false := by
  exact no_new_fallback_not_duplicated_when_untargeted
    ⟨[("S__OTHER", "v1")], "", [("S__k", "v2")], false, lowerStr⟩
    (Config.mk "DEFAULT" [("o", "d")] [("S", [("k", "v0")])])
    .NO_PREFIX_NO_NEW (Or.inl rfl) (by decide) (by constructor <;> decide)
    "S" "o" (by decide) (by decide) (by decide) (by decide)
    (by intro kv hkv; constructor <;> intro hc <;> simp at hkv <;> subst hkv <;> decide)

/-! ### Claim C4: the NoPrefixNoNew variant and the environment -/

theorem env_inner_fold_agree (c0 : Config) (hwf : WF c0) (cs : Bool)
    (f : String → String) (env1 env2 ov : Env)
    (hagree : ∀ sec ∈ c0.default_section :: c0.sectionNames, ∀ opt ∈ c0.optionsOf sec,
      alookup env1 (decide_env_var c0.default_section cs "" sec opt)
        = alookup env2 (decide_env_var c0.default_section cs "" sec opt))
    (sec : String) (hsec : sec ∈ c0.default_section :: c0.sectionNames)
    (opts : List String) :
    ∀ c, KeysEq f c0 c → (∀ o ∈ opts, o ∈ c0.optionsOf sec) →
      opts.foldl (envStepNoNew ⟨env1, "", ov, cs, f⟩ sec) c
        = opts.foldl (envStepNoNew ⟨env2, "", ov, cs, f⟩ sec) c := by
  have hsec' : sec ∈ c0.sectionNames ∨ sec = c0.default_section ∨ sec = "" := by
    rcases List.mem_cons.mp hsec with h | h
    · exact Or.inr (Or.inl h)
    · exact Or.inl h
  induction opts with
  | nil => intro c _ _; rfl
  | cons opt opts ih =>
    intro c hk hin
    rw [List.foldl_cons, List.foldl_cons]
    have hstepeq : envStepNoNew ⟨env1, "", ov, cs, f⟩ sec c opt
        = envStepNoNew ⟨env2, "", ov, cs, f⟩ sec c opt := by
      unfold envStepNoNew
      rw [show (⟨env1, "", ov, cs, f⟩ : Ctx).env = env1 from rfl]
      rw [show (⟨env2, "", ov, cs, f⟩ : Ctx).env = env2 from rfl]
      rw [show (c.default_section : String) = c0.default_section from hk.1]
      rw [hagree sec hsec opt (hin opt (by simp))]
    rw [hstepeq]
    exact ih (envStepNoNew ⟨env2, "", ov, cs, f⟩ sec c opt)
      (by
        have := envStepNoNew_KeysEq ⟨env2, "", ov, cs, f⟩ c0 hwf sec hsec' c opt hk
          (hin opt (by simp))
        exact this)
      (fun o ho => hin o (by simp [ho]))

theorem env_sections_fold_agree (c0 : Config) (hwf : WF c0) (cs : Bool)
    (f : String → String) (env1 env2 ov : Env)
    (hagree : ∀ sec ∈ c0.default_section :: c0.sectionNames, ∀ opt ∈ c0.optionsOf sec,
      alookup env1 (decide_env_var c0.default_section cs "" sec opt)
        = alookup env2 (decide_env_var c0.default_section cs "" sec opt))
    (secs : List String) (hsecs : ∀ t ∈ secs, t ∈ c0.sectionNames) :
    ∀ c, KeysEq f c0 c →
      secs.foldl (envSectionNoNew ⟨env1, "", ov, cs, f⟩) c
        = secs.foldl (envSectionNoNew ⟨env2, "", ov, cs, f⟩) c
      ∧ KeysEq f c0 (secs.foldl (envSectionNoNew ⟨env2, "", ov, cs, f⟩) c) := by
  induction secs with
  | nil => intro c hk; exact ⟨rfl, hk⟩
  | cons sec secs ih =>
    intro c hk
    rw [List.foldl_cons, List.foldl_cons]
    have hsec : sec ∈ c0.sectionNames := hsecs sec (by simp)
    have hsecin : sec ∈ c0.default_section :: c0.sectionNames := by simp [hsec]
    have hstepeq : envSectionNoNew ⟨env1, "", ov, cs, f⟩ c sec
        = envSectionNoNew ⟨env2, "", ov, cs, f⟩ c sec := by
      unfold envSectionNoNew
      exact env_inner_fold_agree c0 hwf cs f env1 env2 ov hagree sec hsecin
        (c.optionsOf sec) c hk (fun o ho => (KeysEq_vis f c0 c hk sec o).mp ho)
    rw [hstepeq]
    have hk2 : KeysEq f c0 (envSectionNoNew ⟨env2, "", ov, cs, f⟩ c sec) := by
      unfold envSectionNoNew
      exact env_inner_fold_KeysEq ⟨env2, "", ov, cs, f⟩ c0 hwf sec (Or.inl hsec)
        (c.optionsOf sec) c hk (fun o ho => (KeysEq_vis f c0 c hk sec o).mp ho)
    exact ih (fun t ht => hsecs t (by simp [ht])) _ hk2

theorem override_env_no_new_agree (c0 : Config) (hwf : WF c0)
    (hn : Normalized f c0) (cs : Bool) (env1 env2 ov : Env)
    (hagree : ∀ sec ∈ c0.default_section :: c0.sectionNames, ∀ opt ∈ c0.optionsOf sec,
      alookup env1 (decide_env_var c0.default_section cs "" sec opt)
        = alookup env2 (decide_env_var c0.default_section cs "" sec opt)) :
    override_env_no_new ⟨env1, "", ov, cs, f⟩ c0
      = override_env_no_new ⟨env2, "", ov, cs, f⟩ c0 := by
  unfold override_env_no_new
  have hsecs := env_sections_fold_agree c0 hwf cs f env1 env2 ov hagree
    c0.sectionNames (fun t ht => ht) c0 (KeysEq_refl f c0 hn)
  rw [hsecs.1]
  set c1 := c0.sectionNames.foldl (envSectionNoNew ⟨env2, "", ov, cs, f⟩) c0 with hc1
  have hk1 : KeysEq f c0 c1 := hsecs.2
  apply env_inner_fold_agree c0 hwf cs f env1 env2 ov hagree c1.default_section
    (by simp [hk1.1]) (akeys c1.defaults) c1 hk1
  intro o ho
  rw [mem_optionsOf]
  right
  rw [← hk1.2.2.1]
  exact ho

/-- Counterexample to C4 as stated: the NoPrefixNoNew variant DOES scan the
environment (with the empty lead-in): two environment states that differ on
`SECTION1__KEY1` lead to different final stores from the same initial store
and (empty) direct overrides. -/
theorem no_pfx_no_new_env_matters_counterexample :
    Strategy.execute .NO_PREFIX_NO_NEW ⟨[], "", [], false, lowerStr⟩
        (Config.mk "DEFAULT" [] [("section1", [("key1", "v0")])])
      ≠ Strategy.execute .NO_PREFIX_NO_NEW
        ⟨[("SECTION1__KEY1", "x")], "", [], false, lowerStr⟩
        (Config.mk "DEFAULT" [] [("section1", [("key1", "v0")])]) := by
  decide

/-- C4 as amended: the NoPrefixNoNew variant performs the no-new environment
scan with the empty lead-in, so it reads the environment only at the variable
names the codec derives from the store's own (section, option) pairs: any two
process-environment states that agree on those names produce identical final
stores from the same initial store and direct overrides. -/
theorem no_pfx_no_new_env_agreement (c : Config) (ov : Env) (cs : Bool)
    (f : String → String) (env1 env2 : Env)
    (hwf : WF c) (hn : Normalized f c)
    (hagree : ∀ sec ∈ c.default_section :: c.sectionNames, ∀ opt ∈ c.optionsOf sec,
      alookup env1 (decide_env_var c.default_section cs "" sec opt)
        = alookup env2 (decide_env_var c.default_section cs "" sec opt)) :
    Strategy.execute .NO_PREFIX_NO_NEW ⟨env1, "", ov, cs, f⟩ c
      = Strategy.execute .NO_PREFIX_NO_NEW ⟨env2, "", ov, cs, f⟩ c := by
  show override_direct ⟨env1, "", ov, cs, f⟩ false
      (override_env ⟨env1, "", ov, cs, f⟩ false c)
    = override_direct ⟨env2, "", ov, cs, f⟩ false
      (override_env ⟨env2, "", ov, cs, f⟩ false c)
  have henv : override_env ⟨env1, "", ov, cs, f⟩ false c
      = override_env ⟨env2, "", ov, cs, f⟩ false c := by
    unfold override_env
    simp only [Bool.false_eq_true, if_false]
    exact override_env_no_new_agree c hwf hn cs env1 env2 ov hagree
  rw [henv]
  have hdir : override_direct ⟨env1, "", ov, cs, f⟩ false
      = override_direct ⟨env2, "", ov, cs, f⟩ false := by
    funext c'
    unfold override_direct
    rfl
  rw [hdir]

/-- Witness for the amended C4: environments agreeing on the store-derived
name `SECTION1__KEY1` but differing elsewhere give identical results. -/
theorem no_pfx_no_new_env_agreement_witness :
    Strategy.execute .NO_PREFIX_NO_NEW
        ⟨[("SECTION1__KEY1", "x"), ("JUNK", "1")], "", [], false, lowerStr⟩
        (Config.mk "DEFAULT" [] [("section1", [("key1", "v0")])])
      = Strategy.execute .NO_PREFIX_NO_NEW
        ⟨[("SECTION1__KEY1", "x")], "", [], false, lowerStr⟩
        (Config.mk "DEFAULT" [] [("section1", [("key1", "v0")])]) := by
  exact no_pfx_no_new_env_agreement
    (Config.mk "DEFAULT" [] [("section1", [("key1", "v0")])])
    [] false lowerStr
    [("SECTION1__KEY1", "x"), ("JUNK", "1")] [("SECTION1__KEY1", "x")]
    (by decide) (by constructor <;> decide) (by decide)

/-! ### Claim C1: direct overrides win on shared cells -/

theorem foldl_preserves_mem {α : Type} (P : Config → Prop) (step : Config → α → Config) :
    ∀ l : List α, (∀ c a, a ∈ l → P c → P (step c a)) →
    ∀ c, P c → P (l.foldl step c) := by
  intro l
  induction l with
  | nil => intro _ c h; exact h
  | cons a l ih =>
    intro hstep c h
    rw [List.foldl_cons]
    exact ih (fun c' b hb hc => hstep c' b (by simp [hb]) hc) _ (hstep c a (by simp) h)

theorem char_toLower_idem (c : Char) : (Char.toLower c).toLower = Char.toLower c := by
  unfold Char.toLower
  by_cases h : c.toNat ≥ 65 ∧ c.toNat ≤ 90
  · rw [if_pos h]
    have hv : (c.toNat + 32).isValidChar := Or.inl (by omega)
    have hval : (Char.ofNat (c.toNat + 32)).toNat = c.toNat + 32 := by
      rw [Char.ofNat, dif_pos hv]
      rfl
    rw [if_neg]
    rw [hval]
    omega
  · rw [if_neg h, if_neg h]

theorem lowerStr_idem (s : String) : lowerStr (lowerStr s) = lowerStr s := by
  unfold lowerStr
  simp [List.map_map]
  congr 1
  apply List.map_congr_left
  intro c _
  exact char_toLower_idem c

theorem lastWithLower_append (l1 l2 : List String) (k : String) :
    lastWithLower (l1 ++ l2) k =
      match lastWithLower l2 k with
      | some t => some t
      | none => lastWithLower l1 k := by
  induction l1 with
  | nil =>
    simp
    cases lastWithLower l2 k <;> rfl
  | cons a l ih =>
    rw [List.cons_append, lastWithLower, ih, lastWithLower]
    cases lastWithLower l2 k <;> cases lastWithLower l k <;> rfl

theorem lastWithLower_none (l : List String) (k : String)
    (h : k ∉ l.map lowerStr) : lastWithLower l k = none := by
  induction l with
  | nil => rfl
  | cons a l ih =>
    simp at h
    rw [lastWithLower, ih ?_]
    · have hne : lowerStr a ≠ k := fun hh => h.1 hh.symm
      simp [hne]
    · intro hc
      rcases List.mem_map.mp hc with ⟨t, ht, hts⟩
      exact h.2 t ht hts

theorem lastWithLower_self (l : List String) (S : String)
    (hnd : (l.map lowerStr).Nodup) (hS : S ∈ l) :
    lastWithLower l (lowerStr S) = some S := by
  induction l with
  | nil => simp at hS
  | cons a l ih =>
    simp at hnd
    rcases List.mem_cons.mp hS with h | h
    · subst h
      rw [lastWithLower, lastWithLower_none l (lowerStr S) ?_]
      · simp
      · intro hc
        rcases List.mem_map.mp hc with ⟨t, ht, hts⟩
        exact hnd.1 t ht hts
    · rw [lastWithLower, ih hnd.2 h]

theorem ahas_ownOpts_set_mono (f : String → String) (c : Config) (s opt v S o : String)
    (hnd : c.sectionNames.Nodup) (ha : ahas (c.ownOpts S) o = true) :
    ahas ((c.set f s opt v).ownOpts S) o = true := by
  unfold Config.set
  by_cases hcase : s = "" ∨ s = c.default_section
  · simpa [hcase, Config.ownOpts] using ha
  · simp only [if_neg hcase]
    unfold Config.ownOpts at ha ⊢
    by_cases hs : S = s
    · subst hs
      rw [show (supdate c.sections S fun os => aset os (f opt) v)
          = supdate c.sections S (fun os => aset os (f opt) v) from rfl]
      rw [slookup_supdate_self c.sections S _ hnd]
      cases heq : slookup c.sections S with
      | none => rw [heq] at ha; simp at ha
      | some os =>
        rw [heq] at ha
        simp at ha ⊢
        exact ahas_aset_superset os (f opt) v o ha
    · rw [slookup_supdate_ne c.sections s _ S hs]
      exact ha

theorem CellInv_set (cs : Bool) (ds S o : String) (f : String → String)
    (c : Config) (s opt v : String) (hinv : CellInv cs ds S o c) :
    CellInv cs ds S o (c.set f s opt v) := by
  obtain ⟨h1, h2, h3, h4, h5⟩ := hinv
  refine ⟨by rw [default_section_set, h1], by rw [sectionNames_set]; exact h2,
    by rw [sectionNames_set]; exact h3,
    ahas_ownOpts_set_mono f c s opt v S o h2 h4,
    by intro hcs; rw [sectionNames_set]; exact h5 hcs⟩

theorem CellInv_add (cs : Bool) (ds S o : String) (c : Config) (a : String)
    (hinv : CellInv cs ds S o c) (hnew : a ∉ c.sectionNames)
    (hlow : cs = false → lowerStr a ≠ lowerStr S) :
    CellInv cs ds S o (c.add_section a) := by
  obtain ⟨h1, h2, h3, h4, h5⟩ := hinv
  have hSa : S ≠ a := fun hh => hnew (hh ▸ h3)
  refine ⟨h1, ?_, ?_, ?_, ?_⟩
  · rw [sectionNames_add]
    simp [List.nodup_append, h2, hnew]
  · rw [sectionNames_add]
    exact List.mem_append_left _ h3
  · unfold Config.add_section Config.ownOpts
    simp only
    rcases Option.isSome_iff_exists.mp ((slookup_isSome_iff c.sections S).mpr h3)
      with ⟨os, hos⟩
    rw [slookup_append_left c.sections [(a, [])] S (by simp [hos])]
    unfold Config.ownOpts at h4
    exact h4
  · intro hcs
    rw [sectionNames_add, lastWithLower_append]
    rw [lastWithLower, lastWithLower]
    simp only [if_neg (hlow hcs)]
    exact h5 hcs

theorem strat_has_section_cs_of_mem (c : Config) (s : String) (h : s ∈ c.sectionNames) :
    strat_has_section true c s = true := by
  unfold strat_has_section Config.has_section
  simp [(lmem_iff _ _).mpr h]

theorem strat_has_section_ci_of_mem (c : Config) (s : String)
    (h : lowerStr s ∈ c.sectionNames.map lowerStr) :
    strat_has_section false c s = true := by
  unfold strat_has_section
  simp [(lmem_iff _ _).mpr h]

theorem strat_has_section_cs_false_elim (c : Config) (s : String)
    (h : strat_has_section true c s = false) :
    s ∉ c.sectionNames ∧ s ≠ c.default_section := by
  unfold strat_has_section Config.has_section at h
  simp only [if_true] at h
  cases hm : lmem c.sectionNames s with
  | true => rw [hm] at h; simp at h
  | false =>
    rw [hm] at h
    simp at h
    constructor
    · intro hc
      rw [(lmem_iff _ _).mpr hc] at hm
      cases hm
    · exact h

theorem strat_has_section_ci_false_elim (c : Config) (s : String)
    (h : strat_has_section false c s = false) :
    lmem (c.sectionNames.map lowerStr) (lowerStr s) = false
    ∧ lowerStr c.default_section ≠ lowerStr s := by
  unfold strat_has_section at h
  simp only [Bool.false_eq_true, if_false] at h
  cases hm : lmem (c.sectionNames.map lowerStr) (lowerStr s) with
  | true => rw [hm] at h; simp at h
  | false =>
    rw [hm] at h
    simp at h
    exact ⟨rfl, h⟩

theorem get_existing_ci_eq_imp_lower (c : Config) (s S : String)
    (h1 : strat_has_section false c s = true) (hSds : S ≠ c.default_section)
    (he : get_existing_ci c s = S) : lowerStr S = lowerStr s := by
  rcases get_existing_ci_spec c s h1 with ht | ⟨_, htl⟩
  · rw [he] at ht
    exact absurd ht hSds
  · rw [he] at htl
    exact htl

theorem rawGet_add_ne (c : Config) (a S o : String) (hSa : S ≠ a) :
    (c.add_section a).rawGet S o = c.rawGet S o := by
  unfold Config.rawGet Config.add_section
  simp only
  by_cases hd : S = c.default_section
  · simp [hd]
  · simp only [if_neg hd]
    cases heq : slookup c.sections S with
    | some os => rw [slookup_append_left _ _ _ (by simp [heq]), heq]
    | none =>
      rw [slookup_append_right _ _ _ heq]
      simp [heq, Ne.symm hSa]

theorem CellInv_createStep (ctx : Ctx) (ds S o : String) (c : Config)
    (kv : String × String) (hinv : CellInv ctx.cs ds S o c) :
    CellInv ctx.cs ds S o (createStep ctx c kv) := by
  unfold createStep
  cases hcs : ctx.cs with
  | true =>
    have hinvT : CellInv true ds S o c := by rw [← hcs]; exact hinv
    simp only [if_true]
    by_cases h1 : strat_has_section true c (parse_key c.default_section ctx.f kv.1).1 = false
    · rw [if_pos h1]
      rcases strat_has_section_cs_false_elim c _ h1 with ⟨hnew, _⟩
      exact CellInv_set _ _ _ _ _ _ _ _ _
        (CellInv_add true ds S o c _ hinvT hnew (fun hc => by cases hc))
    · rw [if_neg h1]
      exact CellInv_set _ _ _ _ _ _ _ _ _ hinvT
  | false =>
    have hinvF : CellInv false ds S o c := by rw [← hcs]; exact hinv
    simp only [Bool.false_eq_true, if_false]
    by_cases h1 : strat_has_section false c (parse_key c.default_section ctx.f kv.1).1 = false
    · rw [if_pos h1]
      rcases strat_has_section_ci_false_elim c _ h1 with ⟨hnew, _⟩
      apply CellInv_set
      apply CellInv_add false ds S o c _ hinvF
      · intro hc
        have hmem2 : lowerStr (lowerStr (parse_key c.default_section ctx.f kv.1).1)
            ∈ c.sectionNames.map lowerStr :=
          List.mem_map.mpr ⟨_, hc, rfl⟩
        rw [lowerStr_idem] at hmem2
        rw [(lmem_iff _ _).mpr hmem2] at hnew
        cases hnew
      · intro _ hc
        have hSin : lowerStr S ∈ c.sectionNames.map lowerStr :=
          List.mem_map.mpr ⟨S, hinvF.2.2.1, rfl⟩
        rw [lowerStr_idem] at hc
        rw [hc] at hnew
        rw [(lmem_iff _ _).mpr hSin] at hnew
        cases hnew
    · rw [if_neg h1]
      exact CellInv_set _ _ _ _ _ _ _ _ _ hinvF

theorem CellInv_directStepNoNew (ctx : Ctx) (ds S o : String) (c : Config)
    (kv : String × String) (hinv : CellInv ctx.cs ds S o c) :
    CellInv ctx.cs ds S o (directStepNoNew ctx c kv) := by
  unfold directStepNoNew
  cases hcs : ctx.cs with
  | true =>
    have hinvT : CellInv true ds S o c := by rw [← hcs]; exact hinv
    simp only [if_true]
    by_cases h1 : strat_has_section true c (parse_key c.default_section ctx.f kv.1).1 = true
    · rw [if_pos h1]
      by_cases h2 : c.has_option ctx.f (parse_key c.default_section ctx.f kv.1).1
          (parse_key c.default_section ctx.f kv.1).2 = true
      · rw [if_pos h2]
        exact CellInv_set _ _ _ _ _ _ _ _ _ hinvT
      · rw [if_neg h2]
        exact hinvT
    · rw [if_neg h1]
      exact hinvT
  | false =>
    have hinvF : CellInv false ds S o c := by rw [← hcs]; exact hinv
    simp only [Bool.false_eq_true, if_false]
    by_cases h1 : strat_has_section false c (parse_key c.default_section ctx.f kv.1).1 = true
    · rw [if_pos h1]
      by_cases h2 : c.has_option ctx.f
          (get_existing_ci c (parse_key c.default_section ctx.f kv.1).1)
          (parse_key c.default_section ctx.f kv.1).2 = true
      · rw [if_pos h2]
        exact CellInv_set _ _ _ _ _ _ _ _ _ hinvF
      · rw [if_neg h2]
        exact hinvF
    · rw [if_neg h1]
      exact hinvF

theorem CellInv_envStepNoNew (ctx : Ctx) (ds S o : String) (sec : String) (c : Config)
    (opt : String) (hinv : CellInv ctx.cs ds S o c) :
    CellInv ctx.cs ds S o (envStepNoNew ctx sec c opt) := by
  unfold envStepNoNew
  cases alookup ctx.env (decide_env_var c.default_section ctx.cs ctx.env_pfx sec opt) with
  | none => exact hinv
  | some v => exact CellInv_set _ _ _ _ _ _ _ _ _ hinv

theorem CellInv_override_env (ctx : Ctx) (ds S o : String) (e : Bool) (c : Config)
    (hinv : CellInv ctx.cs ds S o c) :
    CellInv ctx.cs ds S o (override_env ctx e c) := by
  unfold override_env
  cases e with
  | true =>
    simp only [if_true]
    unfold override_env_create
    exact foldl_preserves_mem (CellInv ctx.cs ds S o) (createStep ctx) _
      (fun c' a _ h => CellInv_createStep ctx ds S o c' a h) c hinv
  | false =>
    simp only [Bool.false_eq_true, if_false]
    unfold override_env_no_new
    have h1 : CellInv ctx.cs ds S o (c.sectionNames.foldl (envSectionNoNew ctx) c) := by
      apply foldl_preserves_mem (CellInv ctx.cs ds S o) (envSectionNoNew ctx) _
        (fun c' sec _ h => ?_) c hinv
      unfold envSectionNoNew
      exact foldl_preserves_mem (CellInv ctx.cs ds S o) (envStepNoNew ctx sec) _
        (fun c2 opt _ h2 => CellInv_envStepNoNew ctx ds S o sec c2 opt h2) c' h
    set c1 := c.sectionNames.foldl (envSectionNoNew ctx) c with hc1
    exact foldl_preserves_mem (CellInv ctx.cs ds S o)
      (fun c2 opt => envStepNoNew ctx c1.default_section c2 opt) _
      (fun c2 opt _ h2 => CellInv_envStepNoNew ctx ds S o c1.default_section c2 opt h2)
      c1 h1

theorem get_existing_ci_self (c : Config) (ds S : String) (hds : c.default_section = ds)
    (hld : lowerStr S ≠ lowerStr ds)
    (hlast : lastWithLower c.sectionNames (lowerStr S) = some S) :
    get_existing_ci c S = S := by
  unfold get_existing_ci
  rw [hds, if_neg hld, hlast]
  rfl

/-- The write performed when a create-new step targets the tracked cell. -/
theorem createStep_rawGet_hit (ctx : Ctx) (ds S o : String) (c : Config) (k v2 : String)
    (hinv : CellInv ctx.cs ds S o c) (hS0 : S ≠ "") (hSds : S ≠ ds)
    (hld : ctx.cs = false → lowerStr S ≠ lowerStr ds)
    (hparse : parse_key ds ctx.f k = (S, o)) (hfo : ctx.f o = o) :
    (createStep ctx c (k, v2)).rawGet S o = some v2 := by
  obtain ⟨h1, h2, h3, h4, h5⟩ := hinv
  have hparse' : parse_key c.default_section ctx.f k = (S, o) := by
    rw [h1]; exact hparse
  have hset : (c.set ctx.f S o v2).rawGet S o = some v2 := by
    have := rawGet_set_self ctx.f c S o v2 h2 (Or.inl h3) (fun h => absurd h hS0)
    rwa [hfo] at this
  unfold createStep
  simp only [hparse']
  cases hcs : ctx.cs with
  | true =>
    simp only [if_true]
    rw [strat_has_section_cs_of_mem c S h3]
    simpa using hset
  | false =>
    simp only [Bool.false_eq_true, if_false]
    rw [strat_has_section_ci_of_mem c S (List.mem_map.mpr ⟨S, h3, rfl⟩)]
    simp only [Bool.true_eq_false, if_false]
    rw [get_existing_ci_self c ds S h1 (hld hcs) (h5 hcs)]
    exact hset

/-- The write performed when a no-new direct step targets the tracked cell. -/
theorem directStepNoNew_rawGet_hit (ctx : Ctx) (ds S o : String) (c : Config) (k v2 : String)
    (hinv : CellInv ctx.cs ds S o c) (hS0 : S ≠ "") (hSds : S ≠ ds)
    (hld : ctx.cs = false → lowerStr S ≠ lowerStr ds)
    (hparse : parse_key ds ctx.f k = (S, o)) (hfo : ctx.f o = o) :
    (directStepNoNew ctx c (k, v2)).rawGet S o = some v2 := by
  obtain ⟨h1, h2, h3, h4, h5⟩ := hinv
  have hparse' : parse_key c.default_section ctx.f k = (S, o) := by
    rw [h1]; exact hparse
  have hset : (c.set ctx.f S o v2).rawGet S o = some v2 := by
    have := rawGet_set_self ctx.f c S o v2 h2 (Or.inl h3) (fun h => absurd h hS0)
    rwa [hfo] at this
  have hnot : ¬(S = "" ∨ S = c.default_section) := by
    rintro (h | h)
    · exact hS0 h
    · exact hSds (h.trans h1)
  rcases Option.isSome_iff_exists.mp ((slookup_isSome_iff c.sections S).mpr h3)
    with ⟨os, hos⟩
  have hho : c.has_option ctx.f S o = true := by
    unfold Config.has_option
    rw [if_neg hnot, hos]
    change (if ahas os (ctx.f o) = true then true else ahas c.defaults (ctx.f o)) = true
    rw [hfo]
    have : ahas os o = true := by
      unfold Config.ownOpts at h4
      rw [hos] at h4
      simpa using h4
    rw [if_pos this]
  unfold directStepNoNew
  simp only [hparse']
  cases hcs : ctx.cs with
  | true =>
    simp only [if_true]
    rw [strat_has_section_cs_of_mem c S h3]
    simp only [if_true, hho]
    simpa using hset
  | false =>
    simp only [Bool.false_eq_true, if_false]
    rw [strat_has_section_ci_of_mem c S (List.mem_map.mpr ⟨S, h3, rfl⟩)]
    simp only [if_true]
    rw [get_existing_ci_self c ds S h1 (hld hcs) (h5 hcs)]
    simp only [hho, if_true]
    exact hset

/-- A create-new step whose entry does not target the tracked cell leaves the
cell's stored value unchanged. -/
theorem createStep_rawGet_miss (ctx : Ctx) (ds S o : String) (c : Config)
    (kv : String × String) (hinv : CellInv ctx.cs ds S o c)
    (hS0 : S ≠ "") (hSds : S ≠ ds)
    (hm1 : ctx.cs = true → ¬((parse_key ds ctx.f kv.1).1 = S
        ∧ ctx.f (parse_key ds ctx.f kv.1).2 = o))
    (hm2 : ctx.cs = false → ¬(lowerStr (parse_key ds ctx.f kv.1).1 = lowerStr S
        ∧ ctx.f (parse_key ds ctx.f kv.1).2 = o)) :
    (createStep ctx c kv).rawGet S o = c.rawGet S o := by
  obtain ⟨h1, h2, h3, h4, h5⟩ := hinv
  have hparse' : parse_key c.default_section ctx.f kv.1 = parse_key ds ctx.f kv.1 := by
    rw [h1]
  have hSds' : S ≠ c.default_section := fun hh => hSds (hh.trans h1)
  unfold createStep
  simp only [hparse']
  set s1 := (parse_key ds ctx.f kv.1).1 with hs1def
  set w := (parse_key ds ctx.f kv.1).2 with hwdef
  cases hcs : ctx.cs with
  | true =>
    simp only [if_true]
    have hwo : s1 = S → ctx.f w ≠ o := by
      intro hss hww
      exact hm1 hcs ⟨hss, hww⟩
    by_cases hstrat : strat_has_section true c s1 = false
    · rw [if_pos hstrat]
      rcases strat_has_section_cs_false_elim c s1 hstrat with ⟨hnotmem, _⟩
      have hS1 : S ≠ s1 := fun hh => hnotmem (hh ▸ h3)
      rw [rawGet_set_ne_sec ctx.f (c.add_section s1) s1 w kv.2 S o hS1
        (fun hh => absurd hh (by rw [default_section_add]; exact hSds'))]
      exact rawGet_add_ne c s1 S o hS1
    · rw [if_neg hstrat]
      by_cases hss : s1 = S
      · exact rawGet_set_ne_opt ctx.f c s1 w kv.2 S o
          (fun hh => hwo hss hh.symm) h2
      · exact rawGet_set_ne_sec ctx.f c s1 w kv.2 S o
          (fun hh => hss hh.symm) (fun hh => absurd hh hSds')
  | false =>
    simp only [Bool.false_eq_true, if_false]
    by_cases hstrat : strat_has_section false c s1 = false
    · rw [if_pos hstrat]
      rcases strat_has_section_ci_false_elim c s1 hstrat with ⟨hnotmem, _⟩
      have hS1 : S ≠ lowerStr s1 := by
        intro hh
        have hmem2 : lowerStr (lowerStr s1) ∈ c.sectionNames.map lowerStr :=
          List.mem_map.mpr ⟨lowerStr s1, hh ▸ h3, rfl⟩
        rw [lowerStr_idem] at hmem2
        rw [(lmem_iff _ _).mpr hmem2] at hnotmem
        cases hnotmem
      rw [rawGet_set_ne_sec ctx.f (c.add_section (lowerStr s1)) (lowerStr s1) w kv.2 S o hS1
        (fun hh => absurd hh (by rw [default_section_add]; exact hSds'))]
      exact rawGet_add_ne c (lowerStr s1) S o hS1
    · rw [if_neg hstrat]
      have hstrat' : strat_has_section false c s1 = true := by
        cases hb : strat_has_section false c s1 with
        | false => exact absurd hb hstrat
        | true => rfl
      by_cases hts : get_existing_ci c s1 = S
      · have hlow := get_existing_ci_eq_imp_lower c s1 S hstrat' hSds' hts
        have hwo : ctx.f w ≠ o := by
          intro hww
          exact hm2 hcs ⟨hlow.symm, hww⟩
        rw [hts]
        exact rawGet_set_ne_opt ctx.f c S w kv.2 S o (fun hh => hwo hh.symm) h2
      · exact rawGet_set_ne_sec ctx.f c _ w kv.2 S o
          (fun hh => hts hh.symm) (fun hh => absurd hh hSds')

/-- A no-new direct step whose entry does not target the tracked cell leaves
the cell's stored value unchanged. -/
theorem directStepNoNew_rawGet_miss (ctx : Ctx) (ds S o : String) (c : Config)
    (kv : String × String) (hinv : CellInv ctx.cs ds S o c)
    (hS0 : S ≠ "") (hSds : S ≠ ds)
    (hm1 : ctx.cs = true → ¬((parse_key ds ctx.f kv.1).1 = S
        ∧ ctx.f (parse_key ds ctx.f kv.1).2 = o))
    (hm2 : ctx.cs = false → ¬(lowerStr (parse_key ds ctx.f kv.1).1 = lowerStr S
        ∧ ctx.f (parse_key ds ctx.f kv.1).2 = o)) :
    (directStepNoNew ctx c kv).rawGet S o = c.rawGet S o := by
  obtain ⟨h1, h2, h3, h4, h5⟩ := hinv
  have hparse' : parse_key c.default_section ctx.f kv.1 = parse_key ds ctx.f kv.1 := by
    rw [h1]
  have hSds' : S ≠ c.default_section := fun hh => hSds (hh.trans h1)
  unfold directStepNoNew
  simp only [hparse']
  set s1 := (parse_key ds ctx.f kv.1).1 with hs1def
  set w := (parse_key ds ctx.f kv.1).2 with hwdef
  cases hcs : ctx.cs with
  | true =>
    simp only [if_true]
    by_cases hstrat : strat_has_section true c s1 = true
    · rw [if_pos hstrat]
      by_cases h2o : c.has_option ctx.f s1 w = true
      · rw [if_pos h2o]
        by_cases hss : s1 = S
        · exact rawGet_set_ne_opt ctx.f c s1 w kv.2 S o
            (fun hh => hm1 hcs ⟨hss, hh.symm⟩) h2
        · exact rawGet_set_ne_sec ctx.f c s1 w kv.2 S o
            (fun hh => hss hh.symm) (fun hh => absurd hh hSds')
      · rw [if_neg h2o]
    · rw [if_neg hstrat]
  | false =>
    simp only [Bool.false_eq_true, if_false]
    by_cases hstrat : strat_has_section false c s1 = true
    · rw [if_pos hstrat]
      by_cases h2o : c.has_option ctx.f (get_existing_ci c s1) w = true
      · rw [if_pos h2o]
        by_cases hts : get_existing_ci c s1 = S
        · have hlow := get_existing_ci_eq_imp_lower c s1 S hstrat hSds' hts
          rw [hts]
          exact rawGet_set_ne_opt ctx.f c S w kv.2 S o
            (fun hh => hm2 hcs ⟨hlow.symm, hh.symm⟩) h2
        · exact rawGet_set_ne_sec ctx.f c _ w kv.2 S o
            (fun hh => hts hh.symm) (fun hh => absurd hh hSds')
      · rw [if_neg h2o]
    · rw [if_neg hstrat]

/-- Counterexample to C1 as stated: the store has section `sec` with option
`o`, the environment variable the codec derives for it (`SEC__O`) is set to
v1, and the direct-overrides mapping contains the key `sec__o` with value v2 —
yet the final stored value is v3, because a second mapping key (`sec__O`)
resolves to the same cell and is applied later.  The claim as stated fails. -/
theorem direct_override_wins_counterexample :
    (Strategy.execute .NO_PREFIX_NO_NEW
        ⟨[("SEC__O", "v1")], "", [("sec__o", "v2"), ("sec__O", "v3")], false, lowerStr⟩
        (Config.mk "DEFAULT" [] [("sec", [("o", "v0")])])).rawGet "sec" "o" ≠ some "v2"
    ∧ (Strategy.execute .NO_PREFIX_NO_NEW
        ⟨[("SEC__O", "v1")], "", [("sec__o", "v2"), ("sec__O", "v3")], false, lowerStr⟩
        (Config.mk "DEFAULT" [] [("sec", [("o", "v0")])])).rawGet "sec" "o" = some "v3" := by
  exact ⟨by decide, by decide⟩

/-- C1 as amended: for every one of the six policy variants, if the store has
a section S with a stored option o (the option name normalization-fixed, the
store well-formed, and — in case-insensitive mode — no two sections sharing a
lower-cased name and S's fold differing from the default section's), the
environment variable the codec derives for (S, o) is set to v1, and the
direct-overrides mapping contains a key parsing to (S, o) with value v2 such
that no OTHER mapping key resolves to the same cell, then after execute() the
stored value of (S, o) is v2: the environment pass runs first and the direct
pass runs second, so the direct value wins on every key both sources touch. -/
theorem direct_override_wins (ctx : Ctx) (c : Config) (strat : OverrideStrategies)
    (S o v1 v2 k : String)
    (hwf : WF c)
    (hlnd : ctx.cs = false → (c.sectionNames.map lowerStr).Nodup)
    (hlds : ctx.cs = false → lowerStr S ≠ lowerStr c.default_section)
    (hS : S ∈ c.sectionNames)
    (ho : ahas (c.ownOpts S) o = true)
    (hfo : ctx.f o = o)
    (henv : alookup ctx.env
      (decide_env_var c.default_section ctx.cs ctx.env_pfx S o) = some v1)
    (hovnd : (ctx.overrides.map Prod.fst).Nodup)
    (hk : (k, v2) ∈ ctx.overrides)
    (hkparse : parse_key c.default_section ctx.f k = (S, o))
    (hother : ∀ kv ∈ ctx.overrides, kv.1 ≠ k →
      (ctx.cs = true → ¬((parse_key c.default_section ctx.f kv.1).1 = S
        ∧ ctx.f (parse_key c.default_section ctx.f kv.1).2 = o))
      ∧ (ctx.cs = false → ¬(lowerStr (parse_key c.default_section ctx.f kv.1).1 = lowerStr S
        ∧ ctx.f (parse_key c.default_section ctx.f kv.1).2 = o))) :
    (Strategy.execute strat ctx c).rawGet S o = some v2 := by
  have hS0 : S ≠ "" := fun hh => hwf.2.2 (hh ▸ hS)
  have hSds : S ≠ c.default_section := fun hh => hwf.2.1 (hh ▸ hS)
  have hinv0 : CellInv ctx.cs c.default_section S o c :=
    ⟨rfl, hwf.1, hS, ho, fun hcs => lastWithLower_self c.sectionNames S (hlnd hcs) hS⟩
  rcases List.append_of_mem hk with ⟨pre, post, hsplit⟩
  have hpostne : ∀ kv ∈ post, kv.1 ≠ k := by
    intro kv hkv heq
    rw [hsplit] at hovnd
    simp only [List.map_append, List.map_cons] at hovnd
    have := (List.Nodup.of_append_right hovnd)
    rcases List.nodup_cons.mp this with ⟨hnotin, _⟩
    exact hnotin (heq ▸ List.mem_map.mpr ⟨kv, hkv, rfl⟩)
  have hmem_ov : ∀ kv ∈ post, kv ∈ ctx.overrides := by
    intro kv hkv
    rw [hsplit]
    exact List.mem_append_right pre (List.mem_cons_of_mem _ hkv)
  show (override_direct ctx (directCreateFlag strat)
    (override_env ctx (envCreateFlag strat) c)).rawGet S o = some v2
  have hinv1 : CellInv ctx.cs c.default_section S o
      (override_env ctx (envCreateFlag strat) c) :=
    CellInv_override_env ctx c.default_section S o (envCreateFlag strat) c hinv0
  set c1 := override_env ctx (envCreateFlag strat) c with hc1
  unfold override_direct
  cases hdflag : directCreateFlag strat with
  | true =>
    simp only [if_true]
    rw [hsplit, List.foldl_append, List.foldl_cons]
    have hinv2 : CellInv ctx.cs c.default_section S o (pre.foldl (createStep ctx) c1) :=
      foldl_preserves_mem (CellInv ctx.cs c.default_section S o) (createStep ctx) pre
        (fun c' a _ h => CellInv_createStep ctx c.default_section S o c' a h) c1 hinv1
    set c2 := pre.foldl (createStep ctx) c1 with hc2
    have hhit : (createStep ctx c2 (k, v2)).rawGet S o = some v2 :=
      createStep_rawGet_hit ctx c.default_section S o c2 k v2 hinv2 hS0 hSds hlds hkparse hfo
    have hinv3 : CellInv ctx.cs c.default_section S o (createStep ctx c2 (k, v2)) :=
      CellInv_createStep ctx c.default_section S o c2 (k, v2) hinv2
    have := foldl_preserves_mem
      (fun cc => CellInv ctx.cs c.default_section S o cc ∧ cc.rawGet S o = some v2)
      (createStep ctx) post
      (fun c' kv hkv hP => ⟨CellInv_createStep ctx c.default_section S o c' kv hP.1,
        by
          rw [createStep_rawGet_miss ctx c.default_section S o c' kv hP.1 hS0 hSds
            ((hother kv (hmem_ov kv hkv) (hpostne kv hkv)).1)
            ((hother kv (hmem_ov kv hkv) (hpostne kv hkv)).2)]
          exact hP.2⟩)
      (createStep ctx c2 (k, v2)) ⟨hinv3, hhit⟩
    exact this.2
  | false =>
    simp only [Bool.false_eq_true, if_false]
    rw [hsplit, List.foldl_append, List.foldl_cons]
    have hinv2 : CellInv ctx.cs c.default_section S o (pre.foldl (directStepNoNew ctx) c1) :=
      foldl_preserves_mem (CellInv ctx.cs c.default_section S o) (directStepNoNew ctx) pre
        (fun c' a _ h => CellInv_directStepNoNew ctx c.default_section S o c' a h) c1 hinv1
    set c2 := pre.foldl (directStepNoNew ctx) c1 with hc2
    have hhit : (directStepNoNew ctx c2 (k, v2)).rawGet S o = some v2 :=
      directStepNoNew_rawGet_hit ctx c.default_section S o c2 k v2 hinv2 hS0 hSds hlds
        hkparse hfo
    have hinv3 : CellInv ctx.cs c.default_section S o (directStepNoNew ctx c2 (k, v2)) :=
      CellInv_directStepNoNew ctx c.default_section S o c2 (k, v2) hinv2
    have := foldl_preserves_mem
      (fun cc => CellInv ctx.cs c.default_section S o cc ∧ cc.rawGet S o = some v2)
      (directStepNoNew ctx) post
      (fun c' kv hkv hP => ⟨CellInv_directStepNoNew ctx c.default_section S o c' kv hP.1,
        by
          rw [directStepNoNew_rawGet_miss ctx c.default_section S o c' kv hP.1 hS0 hSds
            ((hother kv (hmem_ov kv hkv) (hpostne kv hkv)).1)
            ((hother kv (hmem_ov kv hkv) (hpostne kv hkv)).2)]
          exact hP.2⟩)
      (directStepNoNew ctx c2 (k, v2)) ⟨hinv3, hhit⟩
    exact this.2

/-- Witness for the amended C1 at a concrete store: environment sets v1, the
single key targeting the cell sets v2, and v2 is the final value. -/
theorem direct_override_wins_witness :
    (Strategy.execute .NO_PREFIX_NO_NEW
        ⟨[("SEC__O", "v1")], "", [("x__y", "v9"), ("sec__o", "v2")], false, lowerStr⟩
        (Config.mk "DEFAULT" [] [("sec", [("o", "v0")])])).rawGet "sec" "o" = some "v2" := by
  exact direct_override_wins
    ⟨[("SEC__O", "v1")], "", [("x__y", "v9"), ("sec__o", "v2")], false, lowerStr⟩
    (Config.mk "DEFAULT" [] [("sec", [("o", "v0")])])
    .NO_PREFIX_NO_NEW "sec" "o" "v1" "v2" "sec__o"
    (by decide) (fun _ => by decide) (fun _ => by decide)
    (by decide) (by decide) (by decide) (by decide) (by decide) (by decide) (by decide)
    (by decide)

/-! ### Claim C7: case-insensitive key equivalence, case-sensitive distinctness -/

/-- C7: in case-insensitive mode the override keys Section1__Key1,
section1__KEY1 and SECTION1__key1 are interchangeable: each one applied with
the same value to the same store yields the same final store, mutating the
same stored option; in case-sensitive mode the three keys address three
distinct targets and the three final stores are pairwise different.  (Applied
through the default direct policy, which allows creating new options.) -/
theorem ci_override_keys_interchangeable (v : String) :
    (Strategy.execute .NO_PREFIX_NEW_DIRECT
        ⟨[], "", [("Section1__Key1", v)], false, lowerStr⟩
        (Config.mk "DEFAULT" [] [("Section1", [("key1", "v0")])])
      = Config.mk "DEFAULT" [] [("Section1", [("key1", v)])])
    ∧ (Strategy.execute .NO_PREFIX_NEW_DIRECT
        ⟨[], "", [("section1__KEY1", v)], false, lowerStr⟩
        (Config.mk "DEFAULT" [] [("Section1", [("key1", "v0")])])
      = Config.mk "DEFAULT" [] [("Section1", [("key1", v)])])
    ∧ (Strategy.execute .NO_PREFIX_NEW_DIRECT
        ⟨[], "", [("SECTION1__key1", v)], false, lowerStr⟩
        (Config.mk "DEFAULT" [] [("Section1", [("key1", "v0")])])
      = Config.mk "DEFAULT" [] [("Section1", [("key1", v)])])
    ∧ (Strategy.execute .NO_PREFIX_NEW_DIRECT
        ⟨[], "", [("Section1__Key1", v)], true, lowerStr⟩
        (Config.mk "DEFAULT" [] [("Section1", [("key1", "v0")])])
      = Config.mk "DEFAULT" [] [("Section1", [("key1", v)])])
    ∧ (Strategy.execute .NO_PREFIX_NEW_DIRECT
        ⟨[], "", [("section1__KEY1", v)], true, lowerStr⟩
        (Config.mk "DEFAULT" [] [("Section1", [("key1", "v0")])])
      = Config.mk "DEFAULT" [] [("Section1", [("key1", "v0")]), ("section1", [("key1", v)])])
    ∧ (Strategy.execute .NO_PREFIX_NEW_DIRECT
        ⟨[], "", [("SECTION1__key1", v)], true, lowerStr⟩
        (Config.mk "DEFAULT" [] [("Section1", [("key1", "v0")])])
      = Config.mk "DEFAULT" [] [("Section1", [("key1", "v0")]), ("SECTION1", [("key1", v)])])
    ∧ Config.mk "DEFAULT" [] [("Section1", [("key1", v)])]
      ≠ Config.mk "DEFAULT" [] [("Section1", [("key1", "v0")]), ("section1", [("key1", v)])]
    ∧ Config.mk "DEFAULT" [] [("Section1", [("key1", "v0")]), ("section1", [("key1", v)])]
      ≠ Config.mk "DEFAULT" [] [("Section1", [("key1", "v0")]), ("SECTION1", [("key1", v)])] := by
  refine ⟨rfl, rfl, rfl, rfl, rfl, rfl, ?_, ?_⟩
  · intro h
    have hlen := congrArg (fun c : Config => c.sections.length) h
    simp at hlen
  · intro h
    have hname := congrArg (fun c : Config => c.sections.map Prod.fst) h
    simp at hname


/-! ### Claim C8: replay machinery for create-new resolution -/

theorem oorelse_some (v : String) (b : Option String) : oorelse (some v) b = some v := rfl

theorem oorelse_none (b : Option String) : oorelse none b = b := rfl

theorem oorelse_assoc (p q r : Option String) :
    oorelse p (oorelse q r) = oorelse (oorelse p q) r := by
  cases p <;> cases q <;> rfl

theorem oorelse_none_right (p : Option String) : oorelse p none = p := by
  cases p <;> rfl

theorem lastW_append (W1 W2 : List Write) (a : Cell) :
    lastW (W1 ++ W2) a = oorelse (lastW W2 a) (lastW W1 a) := by
  induction W1 with
  | nil => simp [lastW, oorelse_none_right]
  | cons w W ih =>
    rw [List.cons_append, lastW, ih, lastW]
    cases lastW W2 a <;> rfl

theorem slookup_supdate_self2 (l : List (String × Opts)) (k : String) (g : Opts → Opts) :
    slookup (supdate l k g) k = (slookup l k).map g := by
  induction l with
  | nil => simp
  | cons p l ih =>
    by_cases h : p.1 = k
    · simp [h]
    · simp [h, ih]

theorem alookup_eq_none_of_not_mem (l : Opts) (k : String) (h : k ∉ akeys l) :
    alookup l k = none := by
  induction l with
  | nil => rfl
  | cons p l ih =>
    simp only [akeys, List.map_cons, List.mem_cons] at h
    push_neg at h
    have h1 : ¬ p.1 = k := fun hh => h.1 hh.symm
    rw [alookup_cons, if_neg h1]
    exact ih (by simpa [akeys] using h.2)

theorem set_rawGet_full (f : String → String) (x : Config) (s opt v S' o' : String)
    (hpres : s = "" ∨ s = x.default_section ∨ s ∈ x.sectionNames) :
    (x.set f s opt v).rawGet S' o' =
      if (canonSec x.default_section s, f opt) = (S', o') then some v
      else x.rawGet S' o' := by
  by_cases hcell : (canonSec x.default_section s, f opt) = (S', o')
  · rw [if_pos hcell]
    have hSe : S' = canonSec x.default_section s := (congrArg Prod.fst hcell).symm
    have hoe : o' = f opt := (congrArg Prod.snd hcell).symm
    subst hSe
    subst hoe
    by_cases hc : s = "" ∨ s = x.default_section
    · have hcanon : canonSec x.default_section s = x.default_section := by
        unfold canonSec
        rw [if_pos hc]
      rw [hcanon]
      unfold Config.rawGet
      rw [default_section_set, if_pos rfl, defaults_set_def f x s opt v hc,
        alookup_aset_self]
    · have hs : s ∈ x.sectionNames := by
        rcases hpres with h | h | h
        · exact absurd (Or.inl h) hc
        · exact absurd (Or.inr h) hc
        · exact h
      have hcanon : canonSec x.default_section s = s := by
        unfold canonSec
        rw [if_neg hc]
      rw [hcanon]
      unfold Config.rawGet
      rw [default_section_set, if_neg (fun hh => hc (Or.inr hh)),
        sections_set_other f x s opt v hc, slookup_supdate_self2]
      rcases Option.isSome_iff_exists.mp ((slookup_isSome_iff x.sections s).mpr hs)
        with ⟨os, hos⟩
      rw [hos]
      simp only [Option.map_some', Option.some_bind]
      rw [alookup_aset_self]
  · rw [if_neg hcell]
    by_cases hc : s = "" ∨ s = x.default_section
    · have hcanon : canonSec x.default_section s = x.default_section := by
        unfold canonSec
        rw [if_pos hc]
      unfold Config.rawGet
      rw [default_section_set, sections_set_def f x s opt v hc,
        defaults_set_def f x s opt v hc]
      by_cases hS : S' = x.default_section
      · rw [if_pos hS, if_pos hS]
        have ho : o' ≠ f opt := by
          intro hh
          apply hcell
          rw [hcanon, hS, hh]
        exact alookup_aset_ne _ _ _ _ ho
      · rw [if_neg hS, if_neg hS]
    · have hcanon : canonSec x.default_section s = s := by
        unfold canonSec
        rw [if_neg hc]
      unfold Config.rawGet
      rw [default_section_set, sections_set_other f x s opt v hc,
        defaults_set_other f x s opt v hc]
      by_cases hS : S' = x.default_section
      · rw [if_pos hS, if_pos hS]
      · rw [if_neg hS, if_neg hS]
        by_cases hSs : S' = s
        · subst hSs
          rw [slookup_supdate_self2]
          cases hos : slookup x.sections S' with
          | none => simp
          | some os =>
            simp only [Option.map_some', Option.some_bind]
            have ho : o' ≠ f opt := by
              intro hh
              apply hcell
              rw [hcanon, hh]
            rw [alookup_aset_ne _ _ _ _ ho]
        · rw [slookup_supdate_ne _ _ _ _ hSs]

theorem setCell_rawGet (x : Config) (w : Write) (S' o' : String)
    (hpres : w.1.1 = "" ∨ w.1.1 = x.default_section ∨ w.1.1 ∈ x.sectionNames)
    (hcanon : canonSec x.default_section w.1.1 = w.1.1) :
    (setCell x w).rawGet S' o' =
      if w.1 = (S', o') then some w.2 else x.rawGet S' o' := by
  unfold setCell
  rw [set_rawGet_full (fun y => y) x w.1.1 w.1.2 w.2 S' o' hpres]
  rw [show (canonSec x.default_section w.1.1, (fun (y : String) => y) w.1.2)
      = w.1 from by rw [show (fun (y : String) => y) w.1.2 = w.1.2 from rfl, hcanon]]

@[simp]
theorem applyW_nil (x : Config) : applyW x [] = x := rfl

@[simp]
theorem applyW_cons (x : Config) (w : Write) (W : List Write) :
    applyW x (w :: W) = applyW (setCell x w) W := rfl

@[simp]
theorem setCell_default_section (x : Config) (w : Write) :
    (setCell x w).default_section = x.default_section := by
  unfold setCell
  rw [default_section_set]

@[simp]
theorem setCell_sectionNames (x : Config) (w : Write) :
    (setCell x w).sectionNames = x.sectionNames := by
  unfold setCell
  rw [sectionNames_set]

theorem applyW_default_section (x : Config) (W : List Write) :
    (applyW x W).default_section = x.default_section := by
  induction W generalizing x with
  | nil => rfl
  | cons w W ih => rw [applyW_cons, ih, setCell_default_section]

theorem applyW_sectionNames (x : Config) (W : List Write) :
    (applyW x W).sectionNames = x.sectionNames := by
  induction W generalizing x with
  | nil => rfl
  | cons w W ih => rw [applyW_cons, ih, setCell_sectionNames]

theorem applyW_rawGet (x : Config) (W : List Write) (S' o' : String)
    (hvalid : ∀ w ∈ W, w.1.1 = x.default_section
      ∨ (w.1.1 ∈ x.sectionNames ∧ w.1.1 ≠ "" ∧ w.1.1 ≠ x.default_section)) :
    (applyW x W).rawGet S' o' = oorelse (lastW W (S', o')) (x.rawGet S' o') := by
  induction W generalizing x with
  | nil => rfl
  | cons w W ih =>
    rw [applyW_cons, lastW]
    have hw := hvalid w (by simp)
    have hpres : w.1.1 = "" ∨ w.1.1 = x.default_section ∨ w.1.1 ∈ x.sectionNames := by
      rcases hw with h | ⟨h, _, _⟩
      · exact Or.inr (Or.inl h)
      · exact Or.inr (Or.inr h)
    have hcanon : canonSec x.default_section w.1.1 = w.1.1 := by
      unfold canonSec
      rcases hw with h | ⟨_, h2, h3⟩
      · rw [if_pos (Or.inr h), h]
      · rw [if_neg (by rintro (hh | hh); exact h2 hh; exact h3 hh)]
    have ihs := ih (setCell x w) (by
      intro w2 hw2
      rw [setCell_default_section, setCell_sectionNames]
      exact hvalid w2 (by simp [hw2]))
    rw [ihs, setCell_rawGet x w S' o' hpres hcanon]
    have hsplit : (if w.1 = (S', o') then some w.2 else x.rawGet S' o')
        = oorelse (if w.1 = (S', o') then some w.2 else none) (x.rawGet S' o') := by
      by_cases h : w.1 = (S', o') <;> simp [h, oorelse_some, oorelse_none]
    rw [hsplit, oorelse_assoc]

theorem rawGet_isSome_after_setCell (x : Config) (w : Write) (S' o' : String)
    (hpres : w.1.1 = "" ∨ w.1.1 = x.default_section ∨ w.1.1 ∈ x.sectionNames)
    (hcanon : canonSec x.default_section w.1.1 = w.1.1)
    (h : (x.rawGet S' o').isSome) : ((setCell x w).rawGet S' o').isSome := by
  rw [setCell_rawGet x w S' o' hpres hcanon]
  by_cases hc : w.1 = (S', o') <;> simp [hc, h]

/-! ### Claim C8: small facts about choice, traces and store operations -/

theorem oorelse_isSome_left (a b : Option String) (h : a.isSome) :
    (oorelse a b).isSome := by
  cases a with
  | some v => simp [oorelse]
  | none => simp at h

theorem oorelse_isSome_right (a b : Option String) (h : b.isSome) :
    (oorelse a b).isSome := by
  cases a with
  | some v => simp [oorelse]
  | none => simpa [oorelse] using h

theorem oorelse_collapse (x y z : Option String) :
    oorelse x (oorelse y (oorelse x (oorelse y z))) = oorelse x (oorelse y z) := by
  cases x <;> cases y <;> rfl

theorem lastW_isSome_of_mem (W : List Write) (w : Write) (h : w ∈ W) :
    (lastW W w.1).isSome := by
  induction W with
  | nil => simp at h
  | cons w' W ih =>
    rw [lastW]
    rcases List.mem_cons.mp h with h1 | h1
    · rw [h1]
      exact oorelse_isSome_right _ _ (by simp)
    · exact oorelse_isSome_left _ _ (ih h1)

theorem supdate_not_mem (l : List (String × Opts)) (k : String) (g : Opts → Opts)
    (h : slookup l k = none) : supdate l k g = l := by
  induction l with
  | nil => rfl
  | cons p l ih =>
    rw [slookup_cons] at h
    by_cases hp : p.1 = k
    · rw [if_pos hp] at h
      simp at h
    · rw [if_neg hp] at h
      rw [supdate_cons, if_neg hp, ih h]

theorem ahas_eq_of_akeys (l1 l2 : Opts) (h : akeys l1 = akeys l2) (k : String) :
    ahas l1 k = ahas l2 k := by
  by_cases hk : k ∈ akeys l1
  · rw [(ahas_iff l1 k).mpr hk, (ahas_iff l2 k).mpr (h ▸ hk)]
  · have h2 : k ∉ akeys l2 := h ▸ hk
    cases hb : ahas l1 k with
    | true => exact absurd ((ahas_iff l1 k).mp hb) hk
    | false =>
      cases hb2 : ahas l2 k with
      | true => exact absurd ((ahas_iff l2 k).mp hb2) h2
      | false => rfl

theorem set_eq_setCell (f : String → String) (x : Config) (s o v : String) :
    Config.set f x s o v = setCell x ((canonSec x.default_section s, f o), v) := by
  by_cases hc : s = "" ∨ s = x.default_section
  · have h1 : canonSec x.default_section s = x.default_section := by
      unfold canonSec
      rw [if_pos hc]
    rw [h1]
    show Config.set f x s o v = Config.set (fun y => y) x x.default_section (f o) v
    unfold Config.set
    rw [if_pos hc, if_pos (Or.inr rfl)]
  · have h1 : canonSec x.default_section s = s := by
      unfold canonSec
      rw [if_neg hc]
    rw [h1]
    show Config.set f x s o v = Config.set (fun y => y) x s (f o) v
    unfold Config.set
    rw [if_neg hc]

theorem strat_congr (cs : Bool) (x y : Config) (s : String)
    (hds : y.default_section = x.default_section)
    (hn : y.sectionNames = x.sectionNames) :
    strat_has_section cs y s = strat_has_section cs x s := by
  unfold strat_has_section Config.has_section
  rw [hds, hn]

theorem strat_mono_append (cs : Bool) (x y : Config) (s : String) (C : List String)
    (hds : y.default_section = x.default_section)
    (hn : y.sectionNames = x.sectionNames ++ C)
    (h : strat_has_section cs x s = true) :
    strat_has_section cs y s = true := by
  unfold strat_has_section Config.has_section at h ⊢
  rw [hds, hn]
  cases cs with
  | true =>
    simp only [if_true] at h ⊢
    cases hm : lmem x.sectionNames s with
    | true =>
      rw [lmem_append, hm]
      simp
    | false =>
      rw [hm] at h
      simp at h
      simp [h]
  | false =>
    simp only [Bool.false_eq_true, if_false] at h ⊢
    cases hm : lmem (x.sectionNames.map lowerStr) (lowerStr s) with
    | true =>
      rw [List.map_append, lmem_append, hm]
      simp
    | false =>
      rw [hm] at h
      simp at h
      simp [h]

theorem get_existing_ci_congr (x y : Config) (s : String)
    (hds : y.default_section = x.default_section)
    (hn : y.sectionNames = x.sectionNames) :
    get_existing_ci y s = get_existing_ci x s := by
  unfold get_existing_ci
  rw [hds, hn]

theorem rawGet_add_full (c : Config) (a S o : String) :
    (c.add_section a).rawGet S o = c.rawGet S o := by
  by_cases hSa : S = a
  · subst hSa
    unfold Config.rawGet Config.add_section
    simp only
    by_cases hd : S = c.default_section
    · simp [hd]
    · rw [if_neg hd, if_neg hd]
      cases heq : slookup c.sections S with
      | some os => rw [slookup_append_left _ _ _ (by simp [heq]), heq]
      | none =>
        rw [slookup_append_right _ _ _ heq]
        simp [slookup, alookup, heq]
  · exact rawGet_add_ne c a S o hSa

theorem entryCell_def (cs : Bool) (names : List String) (ds : String)
    (f : String → String) (k : String) :
    entryCell cs names ds f k
      = (canonSec ds (resolveSec cs names ds (parse_key ds f k).1),
         f (parse_key ds f k).2) := rfl

theorem resolveSec_cs (names : List String) (ds s1 : String) :
    resolveSec true names ds s1 = s1 := by
  unfold resolveSec
  simp

theorem resolveSec_ci_ds (names : List String) (ds s1 : String)
    (h : lowerStr s1 = lowerStr ds) : resolveSec false names ds s1 = ds := by
  unfold resolveSec
  simp [h]

theorem resolveSec_ci_found (names : List String) (ds s1 t : String)
    (h : lowerStr s1 ≠ lowerStr ds)
    (ht : lastWithLower names (lowerStr s1) = some t) :
    resolveSec false names ds s1 = t := by
  unfold resolveSec
  simp [h, ht]

theorem resolveSec_ci_missing (names : List String) (ds s1 : String)
    (h : lowerStr s1 ≠ lowerStr ds)
    (ht : lastWithLower names (lowerStr s1) = none) :
    resolveSec false names ds s1 = lowerStr s1 := by
  unfold resolveSec
  simp [h, ht]

theorem canonSec_idem (ds s : String) :
    canonSec ds (canonSec ds s) = canonSec ds s := by
  by_cases hc : s = "" ∨ s = ds
  · have h1 : canonSec ds s = ds := by
      unfold canonSec
      rw [if_pos hc]
    rw [h1]
    unfold canonSec
    rw [if_pos (Or.inr rfl)]
  · have h1 : canonSec ds s = s := by
      unfold canonSec
      rw [if_neg hc]
    rw [h1, h1]

theorem canonSec_hpres (ds : String) (names : List String) (r : String)
    (h : r ∈ names ∨ r = ds) :
    canonSec ds r = "" ∨ canonSec ds r = ds ∨ canonSec ds r ∈ names := by
  unfold canonSec
  by_cases hc : r = "" ∨ r = ds
  · rw [if_pos hc]
    exact Or.inr (Or.inl rfl)
  · rw [if_neg hc]
    rcases h with h | h
    · exact Or.inr (Or.inr h)
    · exact absurd (Or.inr h) hc

theorem canonSec_cellOK (ds : String) (names : List String) (r : String)
    (h : r ∈ names ∨ r = ds) :
    canonSec ds r = ds
      ∨ (canonSec ds r ∈ names ∧ canonSec ds r ≠ "" ∧ canonSec ds r ≠ ds) := by
  unfold canonSec
  by_cases hc : r = "" ∨ r = ds
  · rw [if_pos hc]
    exact Or.inl rfl
  · rw [if_neg hc]
    push_neg at hc
    rcases h with h | h
    · exact Or.inr ⟨h, hc.1, hc.2⟩
    · exact absurd h hc.2

theorem resolveSec_eq_get_existing_ci (x : Config) (s : String)
    (h : strat_has_section false x s = true) :
    resolveSec false x.sectionNames x.default_section s = get_existing_ci x s := by
  by_cases hd : lowerStr s = lowerStr x.default_section
  · rw [resolveSec_ci_ds _ _ _ hd]
    unfold get_existing_ci
    rw [if_pos hd]
  · have hm : lmem (x.sectionNames.map lowerStr) (lowerStr s) = true := by
      unfold strat_has_section at h
      simp only [Bool.false_eq_true, if_false] at h
      cases hm2 : lmem (x.sectionNames.map lowerStr) (lowerStr s) with
      | true => rfl
      | false =>
        rw [hm2] at h
        simp at h
        exact absurd h.symm hd
    rcases Option.isSome_iff_exists.mp
      (lastWithLower_isSome_of_lmem x.sectionNames (lowerStr s) hm) with ⟨t, ht⟩
    rw [resolveSec_ci_found _ _ _ t hd ht]
    unfold get_existing_ci
    rw [if_neg hd, ht]
    rfl

theorem resolveSec_target (cs : Bool) (x : Config) (s : String)
    (h : strat_has_section cs x s = true) :
    resolveSec cs x.sectionNames x.default_section s ∈ x.sectionNames
      ∨ resolveSec cs x.sectionNames x.default_section s = x.default_section := by
  cases cs with
  | true =>
    rw [resolveSec_cs]
    exact strat_has_section_true_elim x s h
  | false =>
    rw [resolveSec_eq_get_existing_ci x s h]
    exact get_existing_ci_target x s h

theorem entryCell_cellOK (ctx : Ctx) (x : Config) (k v : String)
    (h : strat_has_section ctx.cs x (parse_key x.default_section ctx.f k).1 = true) :
    cellOK x ((entryCell ctx.cs x.sectionNames x.default_section ctx.f k, v)) := by
  unfold cellOK
  rw [entryCell_def]
  exact canonSec_cellOK x.default_section x.sectionNames _ (resolveSec_target ctx.cs x _ h)

theorem createStep_spec (ctx : Ctx) (x : Config) (kv : String × String) :
    (createStep ctx x kv).default_section = x.default_section
    ∧ strat_has_section ctx.cs (createStep ctx x kv)
        (parse_key x.default_section ctx.f kv.1).1 = true
    ∧ (((createStep ctx x kv).sectionNames = x.sectionNames
        ∧ strat_has_section ctx.cs x (parse_key x.default_section ctx.f kv.1).1 = true)
       ∨ ∃ a, (createStep ctx x kv).sectionNames = x.sectionNames ++ [a]
          ∧ a ≠ x.default_section ∧ a ∉ x.sectionNames
          ∧ (ctx.cs = false → lowerStr a = a
              ∧ lowerStr a ∉ x.sectionNames.map lowerStr)
          ∧ strat_has_section ctx.cs x (parse_key x.default_section ctx.f kv.1).1 = false
          ∧ (ctx.cs = true → a = (parse_key x.default_section ctx.f kv.1).1)
          ∧ (ctx.cs = false
              → a = lowerStr (parse_key x.default_section ctx.f kv.1).1)) := by
  cases hcs : ctx.cs with
  | true =>
    cases hg : strat_has_section true x (parse_key x.default_section ctx.f kv.1).1 with
    | true =>
      have hstep : createStep ctx x kv
          = Config.set ctx.f x (parse_key x.default_section ctx.f kv.1).1
              (parse_key x.default_section ctx.f kv.1).2 kv.2 := by
        simp [createStep, hcs, hg]
      have hds : (createStep ctx x kv).default_section = x.default_section := by
        rw [hstep, default_section_set]
      have hn : (createStep ctx x kv).sectionNames = x.sectionNames := by
        rw [hstep, sectionNames_set]
      refine ⟨hds, ?_, Or.inl ⟨hn, rfl⟩⟩
      rw [strat_congr true x (createStep ctx x kv) _ hds hn]
      exact hg
    | false =>
      have hstep : createStep ctx x kv
          = Config.set ctx.f (x.add_section (parse_key x.default_section ctx.f kv.1).1)
              (parse_key x.default_section ctx.f kv.1).1
              (parse_key x.default_section ctx.f kv.1).2 kv.2 := by
        simp [createStep, hcs, hg]
      have hfacts := strat_has_section_cs_false_elim x _ hg
      have hds : (createStep ctx x kv).default_section = x.default_section := by
        rw [hstep, default_section_set, default_section_add]
      have hn : (createStep ctx x kv).sectionNames
          = x.sectionNames ++ [(parse_key x.default_section ctx.f kv.1).1] := by
        rw [hstep, sectionNames_set, sectionNames_add]
      refine ⟨hds, ?_, Or.inr ⟨_, hn, hfacts.2, hfacts.1, ?_, rfl, ?_, ?_⟩⟩
      · apply strat_has_section_cs_of_mem
        rw [hn]
        exact List.mem_append_right _ (by simp)
      · intro hh
        simp at hh
      · intro _
        rfl
      · intro hh
        simp at hh
  | false =>
    cases hg : strat_has_section false x (parse_key x.default_section ctx.f kv.1).1 with
    | true =>
      have hstep : createStep ctx x kv
          = Config.set ctx.f x
              (get_existing_ci x (parse_key x.default_section ctx.f kv.1).1)
              (parse_key x.default_section ctx.f kv.1).2 kv.2 := by
        simp [createStep, hcs, hg]
      have hds : (createStep ctx x kv).default_section = x.default_section := by
        rw [hstep, default_section_set]
      have hn : (createStep ctx x kv).sectionNames = x.sectionNames := by
        rw [hstep, sectionNames_set]
      refine ⟨hds, ?_, Or.inl ⟨hn, rfl⟩⟩
      rw [strat_congr false x (createStep ctx x kv) _ hds hn]
      exact hg
    | false =>
      have hstep : createStep ctx x kv
          = Config.set ctx.f
              (x.add_section (lowerStr (parse_key x.default_section ctx.f kv.1).1))
              (lowerStr (parse_key x.default_section ctx.f kv.1).1)
              (parse_key x.default_section ctx.f kv.1).2 kv.2 := by
        simp [createStep, hcs, hg]
      have hfacts := strat_has_section_ci_false_elim x _ hg
      have hds : (createStep ctx x kv).default_section = x.default_section := by
        rw [hstep, default_section_set, default_section_add]
      have hn : (createStep ctx x kv).sectionNames
          = x.sectionNames ++ [lowerStr (parse_key x.default_section ctx.f kv.1).1] := by
        rw [hstep, sectionNames_set, sectionNames_add]
      have hlownotin : lowerStr (parse_key x.default_section ctx.f kv.1).1
          ∉ x.sectionNames.map lowerStr := by
        intro hc
        rw [(lmem_iff _ _).mpr hc] at hfacts
        cases hfacts.1
      have hlowfix : lowerStr (lowerStr (parse_key x.default_section ctx.f kv.1).1)
          = lowerStr (parse_key x.default_section ctx.f kv.1).1 := lowerStr_idem _
      have hnotin : lowerStr (parse_key x.default_section ctx.f kv.1).1
          ∉ x.sectionNames := by
        intro hc
        exact hlownotin (hlowfix ▸ List.mem_map_of_mem lowerStr hc)
      have hneds : lowerStr (parse_key x.default_section ctx.f kv.1).1
          ≠ x.default_section := by
        intro hc
        apply hfacts.2
        calc lowerStr x.default_section
            = lowerStr (lowerStr (parse_key x.default_section ctx.f kv.1).1) := by rw [hc]
          _ = lowerStr (parse_key x.default_section ctx.f kv.1).1 := lowerStr_idem _
      refine ⟨hds, ?_, Or.inr ⟨_, hn, hneds, hnotin, ?_, rfl, ?_, ?_⟩⟩
      · apply strat_has_section_ci_of_mem
        rw [hn, List.map_append]
        exact List.mem_append_right _ (by simp [hlowfix])
      · intro _
        exact ⟨hlowfix, by rw [hlowfix]; exact hlownotin⟩
      · intro hh
        simp at hh
      · intro _
        rfl

theorem createStep_rawGet_char (ctx : Ctx) (x : Config) (kv : String × String)
    (S' o' : String) :
    (createStep ctx x kv).rawGet S' o' =
      if entryCell ctx.cs x.sectionNames x.default_section ctx.f kv.1 = (S', o')
      then some kv.2 else x.rawGet S' o' := by
  cases hcs : ctx.cs with
  | true =>
    rw [entryCell_def, resolveSec_cs]
    cases hg : strat_has_section true x (parse_key x.default_section ctx.f kv.1).1 with
    | true =>
      have hstep : createStep ctx x kv
          = Config.set ctx.f x (parse_key x.default_section ctx.f kv.1).1
              (parse_key x.default_section ctx.f kv.1).2 kv.2 := by
        simp [createStep, hcs, hg]
      rw [hstep, set_eq_setCell,
        setCell_rawGet x _ S' o'
          (canonSec_hpres x.default_section x.sectionNames _
            (strat_has_section_true_elim x _ hg))
          (canonSec_idem _ _)]
    | false =>
      have hfacts := strat_has_section_cs_false_elim x _ hg
      have hstep : createStep ctx x kv
          = Config.set ctx.f (x.add_section (parse_key x.default_section ctx.f kv.1).1)
              (parse_key x.default_section ctx.f kv.1).1
              (parse_key x.default_section ctx.f kv.1).2 kv.2 := by
        simp [createStep, hcs, hg]
      rw [hstep, set_eq_setCell, default_section_add,
        setCell_rawGet (x.add_section (parse_key x.default_section ctx.f kv.1).1) _ S' o'
          ?hp ?hc, rawGet_add_full]
      case hp =>
        rw [default_section_add]
        apply canonSec_hpres
        rw [sectionNames_add]
        exact Or.inl (List.mem_append_right _ (by simp))
      case hc =>
        rw [default_section_add]
        exact canonSec_idem _ _
  | false =>
    cases hg : strat_has_section false x (parse_key x.default_section ctx.f kv.1).1 with
    | true =>
      rw [entryCell_def, resolveSec_eq_get_existing_ci x _ hg]
      have hstep : createStep ctx x kv
          = Config.set ctx.f x
              (get_existing_ci x (parse_key x.default_section ctx.f kv.1).1)
              (parse_key x.default_section ctx.f kv.1).2 kv.2 := by
        simp [createStep, hcs, hg]
      rw [hstep, set_eq_setCell,
        setCell_rawGet x _ S' o'
          (canonSec_hpres x.default_section x.sectionNames _
            (get_existing_ci_target x _ hg))
          (canonSec_idem _ _)]
    | false =>
      have hfacts := strat_has_section_ci_false_elim x _ hg
      have hnds : lowerStr (parse_key x.default_section ctx.f kv.1).1
          ≠ lowerStr x.default_section := fun hh => hfacts.2 hh.symm
      have hnone : lastWithLower x.sectionNames
          (lowerStr (parse_key x.default_section ctx.f kv.1).1) = none := by
        apply lastWithLower_none
        intro hc
        rw [(lmem_iff _ _).mpr hc] at hfacts
        cases hfacts.1
      rw [entryCell_def, resolveSec_ci_missing _ _ _ hnds hnone]
      have hstep : createStep ctx x kv
          = Config.set ctx.f
              (x.add_section (lowerStr (parse_key x.default_section ctx.f kv.1).1))
              (lowerStr (parse_key x.default_section ctx.f kv.1).1)
              (parse_key x.default_section ctx.f kv.1).2 kv.2 := by
        simp [createStep, hcs, hg]
      rw [hstep, set_eq_setCell, default_section_add,
        setCell_rawGet
          (x.add_section (lowerStr (parse_key x.default_section ctx.f kv.1).1)) _ S' o'
          ?hp ?hc, rawGet_add_full]
      case hp =>
        rw [default_section_add]
        apply canonSec_hpres
        rw [sectionNames_add]
        exact Or.inl (List.mem_append_right _ (by simp))
      case hc =>
        rw [default_section_add]
        exact canonSec_idem _ _

theorem chainExt_lower_fresh (cs : Bool) (ds : String) :
    ∀ (C base : List String), ChainExt cs ds base C → cs = false →
    ∀ a ∈ C, lowerStr a = a ∧ lowerStr a ∉ base.map lowerStr := by
  intro C
  induction C with
  | nil =>
    intro base _ _ a ha
    simp at ha
  | cons b C ih =>
    intro base hch hcs a ha
    obtain ⟨h1, h2, h3, h4⟩ := hch
    rcases List.mem_cons.mp ha with h | h
    · rw [h]
      exact h3 hcs
    · have hrec := ih (base ++ [b]) h4 hcs a h
      refine ⟨hrec.1, fun hc => hrec.2 ?_⟩
      rw [List.map_append]
      exact List.mem_append_left _ hc

theorem chainExt_nodup (cs : Bool) (ds : String) :
    ∀ (C base : List String), ChainExt cs ds base C → base.Nodup
      → (base ++ C).Nodup := by
  intro C
  induction C with
  | nil =>
    intro base _ h
    simpa using h
  | cons b C ih =>
    intro base hch hnd
    obtain ⟨h1, h2, h3, h4⟩ := hch
    have hnd2 : (base ++ [b]).Nodup := by
      rw [List.nodup_append]
      refine ⟨hnd, List.nodup_singleton b, ?_⟩
      intro a ha hb
      rw [List.mem_singleton] at hb
      rw [hb] at ha
      exact h2 ha
    have hrec := ih (base ++ [b]) h4 hnd2
    rw [show base ++ b :: C = (base ++ [b]) ++ C from by rw [List.append_assoc]; rfl]
    exact hrec

theorem chainExt_ds_not_mem (cs : Bool) (ds : String) :
    ∀ (C base : List String), ChainExt cs ds base C → ds ∉ base
      → ds ∉ base ++ C := by
  intro C
  induction C with
  | nil =>
    intro base _ h
    simpa using h
  | cons b C ih =>
    intro base hch hds
    obtain ⟨h1, h2, h3, h4⟩ := hch
    have hds2 : ds ∉ base ++ [b] := by
      intro hc
      rcases List.mem_append.mp hc with h | h
      · exact hds h
      · rw [List.mem_singleton] at h
        exact h1 h.symm
    have hrec := ih (base ++ [b]) h4 hds2
    rw [show base ++ b :: C = (base ++ [b]) ++ C from by rw [List.append_assoc]; rfl]
    exact hrec

theorem strat_ci_lmem (x : Config) (s : String)
    (h : strat_has_section false x s = true)
    (hd : lowerStr s ≠ lowerStr x.default_section) :
    lmem (x.sectionNames.map lowerStr) (lowerStr s) = true := by
  unfold strat_has_section at h
  simp only [Bool.false_eq_true, if_false] at h
  cases hm2 : lmem (x.sectionNames.map lowerStr) (lowerStr s) with
  | true => rfl
  | false =>
    rw [hm2] at h
    simp at h
    exact absurd h.symm hd

theorem entryCell_ext (ctx : Ctx) (x : Config) (C : List String) (k : String)
    (hg : strat_has_section ctx.cs x (parse_key x.default_section ctx.f k).1 = true)
    (hC : ctx.cs = false → ∀ a ∈ C, lowerStr a ∉ x.sectionNames.map lowerStr) :
    entryCell ctx.cs x.sectionNames x.default_section ctx.f k
      = entryCell ctx.cs (x.sectionNames ++ C) x.default_section ctx.f k := by
  cases hcs : ctx.cs with
  | true =>
    rw [entryCell_def, entryCell_def, resolveSec_cs, resolveSec_cs]
  | false =>
    rw [hcs] at hg
    by_cases hd : lowerStr (parse_key x.default_section ctx.f k).1
        = lowerStr x.default_section
    · rw [entryCell_def, entryCell_def, resolveSec_ci_ds _ _ _ hd,
        resolveSec_ci_ds _ _ _ hd]
    · have hm := strat_ci_lmem x _ hg hd
      rcases Option.isSome_iff_exists.mp
        (lastWithLower_isSome_of_lmem x.sectionNames _ hm) with ⟨t, ht⟩
      have htC : lastWithLower C (lowerStr (parse_key x.default_section ctx.f k).1)
          = none := by
        apply lastWithLower_none
        intro hc
        rcases List.mem_map.mp hc with ⟨a, ha, hal⟩
        apply hC hcs a ha
        rw [hal]
        exact (lmem_iff _ _).mp hm
      have ht2 : lastWithLower (x.sectionNames ++ C)
          (lowerStr (parse_key x.default_section ctx.f k).1) = some t := by
        rw [lastWithLower_append, htC]
        exact ht
      rw [entryCell_def, entryCell_def, resolveSec_ci_found _ _ _ t hd ht,
        resolveSec_ci_found _ _ _ t hd ht2]

theorem createStep_guarded (ctx : Ctx) (x : Config) (kv : String × String)
    (hg : strat_has_section ctx.cs x (parse_key x.default_section ctx.f kv.1).1 = true) :
    createStep ctx x kv
      = setCell x
          ((entryCell ctx.cs x.sectionNames x.default_section ctx.f kv.1, kv.2)) := by
  cases hcs : ctx.cs with
  | true =>
    rw [hcs] at hg
    have hstep : createStep ctx x kv
        = Config.set ctx.f x (parse_key x.default_section ctx.f kv.1).1
            (parse_key x.default_section ctx.f kv.1).2 kv.2 := by
      simp [createStep, hcs, hg]
    rw [hstep, set_eq_setCell, entryCell_def, resolveSec_cs]
  | false =>
    rw [hcs] at hg
    have hstep : createStep ctx x kv
        = Config.set ctx.f x
            (get_existing_ci x (parse_key x.default_section ctx.f kv.1).1)
            (parse_key x.default_section ctx.f kv.1).2 kv.2 := by
      simp [createStep, hcs, hg]
    rw [hstep, set_eq_setCell, entryCell_def, resolveSec_eq_get_existing_ci x _ hg]

theorem createFold_spec (ctx : Ctx) :
    ∀ (E : List (String × String)) (x : Config),
    ∃ C : List String,
      (E.foldl (createStep ctx) x).default_section = x.default_section
      ∧ (E.foldl (createStep ctx) x).sectionNames = x.sectionNames ++ C
      ∧ ChainExt ctx.cs x.default_section x.sectionNames C
      ∧ createTrace ctx x E
          = E.map (fun kv =>
              (entryCell ctx.cs (E.foldl (createStep ctx) x).sectionNames
                 x.default_section ctx.f kv.1, kv.2))
      ∧ (∀ kv ∈ E, strat_has_section ctx.cs (E.foldl (createStep ctx) x)
          (parse_key x.default_section ctx.f kv.1).1 = true) := by
  intro E
  induction E with
  | nil =>
    intro x
    refine ⟨[], rfl, by simp, trivial, rfl, ?_⟩
    intro kv hkv
    simp at hkv
  | cons kv rest ih =>
    intro x
    obtain ⟨hds1, hg1, hnames1⟩ := createStep_spec ctx x kv
    obtain ⟨C1, hds2, hn2, hch2, htr2, hg2⟩ := ih (createStep ctx x kv)
    rw [List.foldl_cons]
    rcases hnames1 with ⟨hnA, hgA⟩ | ⟨a, hnB, hads, hanotin, haci, hgB, hacs, haci2⟩
    · rw [hds1, hnA] at hch2
      refine ⟨C1, hds2.trans hds1, by rw [hn2, hnA], hch2, ?_, ?_⟩
      · rw [show createTrace ctx x (kv :: rest)
            = ((entryCell ctx.cs x.sectionNames x.default_section ctx.f kv.1, kv.2))
              :: createTrace ctx (createStep ctx x kv) rest from rfl]
        rw [List.map_cons]
        congr 1
        · rw [hn2, hnA]
          exact congrArg (fun z => (z, kv.2))
            (entryCell_ext ctx x C1 kv.1 hgA
              (fun hcs a ha => (chainExt_lower_fresh ctx.cs x.default_section C1
                x.sectionNames hch2 hcs a ha).2))
        · rw [hds1] at htr2
          exact htr2
      · intro kv2 hkv2
        rcases List.mem_cons.mp hkv2 with h | h
        · rw [h]
          exact strat_mono_append ctx.cs (createStep ctx x kv) _ _ C1 hds2 hn2 hg1
        · have hres := hg2 kv2 h
          rw [hds1] at hres
          exact hres
    · rw [hds1, hnB] at hch2
      refine ⟨a :: C1, hds2.trans hds1, ?_, ?_, ?_, ?_⟩
      · rw [hn2, hnB, List.append_assoc, List.singleton_append]
      · exact ⟨hads, hanotin, haci, hch2⟩
      · rw [show createTrace ctx x (kv :: rest)
            = ((entryCell ctx.cs x.sectionNames x.default_section ctx.f kv.1, kv.2))
              :: createTrace ctx (createStep ctx x kv) rest from rfl]
        rw [List.map_cons]
        congr 1
        · cases hcs : ctx.cs with
          | true =>
            rw [entryCell_def, entryCell_def, resolveSec_cs, resolveSec_cs]
          | false =>
            rw [hcs] at hgB
            have ha2 := haci2 hcs
            have hfacts := strat_has_section_ci_false_elim x _ hgB
            have hnds : lowerStr (parse_key x.default_section ctx.f kv.1).1
                ≠ lowerStr x.default_section := fun hh => hfacts.2 hh.symm
            have hnone : lastWithLower x.sectionNames
                (lowerStr (parse_key x.default_section ctx.f kv.1).1) = none := by
              apply lastWithLower_none
              intro hc
              rw [(lmem_iff _ _).mpr hc] at hfacts
              cases hfacts.1
            have hC1 : lastWithLower C1
                (lowerStr (parse_key x.default_section ctx.f kv.1).1) = none := by
              apply lastWithLower_none
              intro hc
              rcases List.mem_map.mp hc with ⟨b, hb, hbl⟩
              apply (chainExt_lower_fresh ctx.cs x.default_section C1 _ hch2 hcs b hb).2
              rw [hbl, List.map_append]
              apply List.mem_append_right
              simp [ha2, lowerStr_idem]
            have h1 : lastWithLower [a]
                (lowerStr (parse_key x.default_section ctx.f kv.1).1) = some a := by
              show (if lowerStr a = lowerStr (parse_key x.default_section ctx.f kv.1).1
                then some a else none) = some a
              rw [if_pos (by rw [ha2, lowerStr_idem])]
            have hsome : lastWithLower ((x.sectionNames ++ [a]) ++ C1)
                (lowerStr (parse_key x.default_section ctx.f kv.1).1) = some a := by
              rw [lastWithLower_append, hC1, lastWithLower_append, h1]
            rw [hn2, hnB, entryCell_def, entryCell_def,
              resolveSec_ci_missing _ _ _ hnds hnone,
              resolveSec_ci_found _ _ _ a hnds hsome, ha2]
        · rw [hds1] at htr2
          rw [htr2, hn2, hnB]
      · intro kv2 hkv2
        rcases List.mem_cons.mp hkv2 with h | h
        · rw [h]
          exact strat_mono_append ctx.cs (createStep ctx x kv) _ _ C1 hds2 hn2 hg1
        · have hres := hg2 kv2 h
          rw [hds1] at hres
          exact hres

theorem createFold_rawGet (ctx : Ctx) :
    ∀ (E : List (String × String)) (x : Config) (S' o' : String),
    (E.foldl (createStep ctx) x).rawGet S' o'
      = oorelse (lastW (createTrace ctx x E) (S', o')) (x.rawGet S' o') := by
  intro E
  induction E with
  | nil =>
    intro x S' o'
    rfl
  | cons kv rest ih =>
    intro x S' o'
    rw [List.foldl_cons, ih (createStep ctx x kv) S' o', createStep_rawGet_char]
    have hsplit : (if entryCell ctx.cs x.sectionNames x.default_section ctx.f kv.1
          = (S', o') then some kv.2 else x.rawGet S' o')
        = oorelse (if entryCell ctx.cs x.sectionNames x.default_section ctx.f kv.1
            = (S', o') then some kv.2 else none) (x.rawGet S' o') := by
      by_cases h : entryCell ctx.cs x.sectionNames x.default_section ctx.f kv.1 = (S', o')
        <;> simp [h, oorelse_some, oorelse_none]
    rw [hsplit, oorelse_assoc]
    rfl

theorem createFold_guarded (ctx : Ctx) :
    ∀ (E : List (String × String)) (x : Config),
    (∀ kv ∈ E, strat_has_section ctx.cs x
      (parse_key x.default_section ctx.f kv.1).1 = true) →
    E.foldl (createStep ctx) x
      = applyW x (E.map (fun kv =>
          (entryCell ctx.cs x.sectionNames x.default_section ctx.f kv.1, kv.2))) := by
  intro E
  induction E with
  | nil =>
    intro x _
    rfl
  | cons kv rest ih =>
    intro x hg
    rw [List.foldl_cons, List.map_cons, applyW_cons,
      createStep_guarded ctx x kv (hg kv (by simp))]
    have hrest : ∀ kv2 ∈ rest,
        strat_has_section ctx.cs
          (setCell x ((entryCell ctx.cs x.sectionNames x.default_section ctx.f kv.1,
            kv.2)))
          (parse_key (setCell x ((entryCell ctx.cs x.sectionNames x.default_section
            ctx.f kv.1, kv.2))).default_section ctx.f kv2.1).1 = true := by
      intro kv2 h2
      rw [setCell_default_section,
        strat_congr ctx.cs x _ _ (setCell_default_section x _) (setCell_sectionNames x _)]
      exact hg kv2 (List.mem_cons_of_mem _ h2)
    rw [ih _ hrest]
    simp only [setCell_sectionNames, setCell_default_section]

theorem slookup_skel (l1 : List (String × Opts)) :
    ∀ (l2 : List (String × Opts)),
    l1.map (fun q => (q.1, akeys q.2)) = l2.map (fun q => (q.1, akeys q.2)) →
    ∀ k, (slookup l1 k).map akeys = (slookup l2 k).map akeys := by
  induction l1 with
  | nil =>
    intro l2 h k
    cases l2 with
    | nil => rfl
    | cons q l2 => simp at h
  | cons p l1 ih =>
    intro l2 h k
    cases l2 with
    | nil => simp at h
    | cons q l2 =>
      simp only [List.map_cons, List.cons.injEq] at h
      obtain ⟨hhead, htail⟩ := h
      injection hhead with ha hb
      rw [slookup_cons, slookup_cons, ha]
      by_cases hq : q.1 = k
      · rw [if_pos hq, if_pos hq]
        simp [hb]
      · rw [if_neg hq, if_neg hq]
        exact ih l2 htail k

theorem has_option_skel (f : String → String) (x y : Config)
    (hds : x.default_section = y.default_section)
    (hsec : x.sections.map (fun q => (q.1, akeys q.2))
      = y.sections.map (fun q => (q.1, akeys q.2)))
    (hdef : akeys x.defaults = akeys y.defaults)
    (S O : String) :
    x.has_option f S O = y.has_option f S O := by
  unfold Config.has_option
  rw [hds]
  by_cases hc : S = "" ∨ S = y.default_section
  · rw [if_pos hc, if_pos hc]
    exact ahas_eq_of_akeys _ _ hdef _
  · rw [if_neg hc, if_neg hc]
    have hsl := slookup_skel x.sections y.sections hsec S
    cases h1 : slookup x.sections S with
    | none =>
      cases h2 : slookup y.sections S with
      | none => rfl
      | some os2 =>
        rw [h1, h2] at hsl
        simp at hsl
    | some os1 =>
      cases h2 : slookup y.sections S with
      | none =>
        rw [h1, h2] at hsl
        simp at hsl
      | some os2 =>
        rw [h1, h2] at hsl
        simp only [Option.map_some', Option.some.injEq] at hsl
        show (if ahas os1 (f O) = true then true else ahas x.defaults (f O))
          = (if ahas os2 (f O) = true then true else ahas y.defaults (f O))
        rw [ahas_eq_of_akeys os1 os2 hsl (f O), ahas_eq_of_akeys _ _ hdef (f O)]

theorem supdate_skel (l : List (String × Opts)) :
    ∀ (k q v : String) (os0 : Opts),
    slookup l k = some os0 → ahas os0 q = true →
    (supdate l k (fun os => aset os q v)).map (fun p => (p.1, akeys p.2))
      = l.map (fun p => (p.1, akeys p.2)) := by
  induction l with
  | nil =>
    intro k q v os0 hsl _
    simp at hsl
  | cons p l ih =>
    intro k q v os0 hsl hin
    rw [slookup_cons] at hsl
    by_cases hp : p.1 = k
    · rw [if_pos hp] at hsl
      injection hsl with hsl
      rw [← hsl] at hin
      rw [supdate_cons, if_pos hp, List.map_cons, List.map_cons,
        akeys_aset_of_ahas p.2 q v hin]
    · rw [if_neg hp] at hsl
      rw [supdate_cons, if_neg hp, List.map_cons, List.map_cons, ih k q v os0 hsl hin]

theorem setCell_skel_present (x : Config) (w : Write)
    (hok : cellOK x w) (hpres : (x.rawGet w.1.1 w.1.2).isSome) :
    (setCell x w).sections.map (fun q => (q.1, akeys q.2))
        = x.sections.map (fun q => (q.1, akeys q.2))
    ∧ akeys (setCell x w).defaults = akeys x.defaults := by
  rcases hok with hds | ⟨hmem, hne, hneds⟩
  · have hin : ahas x.defaults w.1.2 = true := by
      unfold Config.rawGet at hpres
      rw [if_pos hds] at hpres
      rw [← alookup_isSome]
      exact hpres
    unfold setCell Config.set
    rw [if_pos (Or.inr hds)]
    exact ⟨rfl, akeys_aset_of_ahas _ _ _ hin⟩
  · have hcond : ¬(w.1.1 = "" ∨ w.1.1 = x.default_section) := by
      rintro (h | h)
      · exact hne h
      · exact hneds h
    unfold Config.rawGet at hpres
    rw [if_neg hneds] at hpres
    cases hsl : slookup x.sections w.1.1 with
    | none =>
      rw [hsl] at hpres
      simp at hpres
    | some os =>
      rw [hsl] at hpres
      simp only [Option.some_bind] at hpres
      have hin : ahas os w.1.2 = true := by
        rw [← alookup_isSome]
        exact hpres
      unfold setCell Config.set
      rw [if_neg hcond]
      exact ⟨supdate_skel x.sections w.1.1 w.1.2 w.2 os hsl hin, rfl⟩

theorem SkelEq_refl (x : Config) : SkelEq x x := ⟨rfl, rfl, rfl⟩

theorem SkelEq_trans (x y z : Config) (h1 : SkelEq x y) (h2 : SkelEq y z) :
    SkelEq x z :=
  ⟨h1.1.trans h2.1, h1.2.1.trans h2.2.1, h1.2.2.trans h2.2.2⟩

theorem skel_names (x y : Config) (h : SkelEq x y) :
    x.sectionNames = y.sectionNames := by
  unfold Config.sectionNames
  have h2 := congrArg (List.map Prod.fst) h.2.1
  rw [List.map_map, List.map_map] at h2
  calc x.sections.map Prod.fst
      = x.sections.map (Prod.fst ∘ fun q => (q.1, akeys q.2)) := by
        apply List.map_congr_left
        intro q _
        rfl
    _ = y.sections.map (Prod.fst ∘ fun q => (q.1, akeys q.2)) := h2
    _ = y.sections.map Prod.fst := by
        apply List.map_congr_left
        intro q _
        rfl

theorem applyW_present_skel (W : List Write) :
    ∀ (x : Config),
    (∀ w ∈ W, cellOK x w) → (∀ w ∈ W, (x.rawGet w.1.1 w.1.2).isSome) →
    SkelEq (applyW x W) x := by
  induction W with
  | nil =>
    intro x _ _
    exact SkelEq_refl x
  | cons w W ih =>
    intro x hok hpres
    rw [applyW_cons]
    have hokw := hok w (by simp)
    have hpw := hpres w (by simp)
    have hskel := setCell_skel_present x w hokw hpw
    have hds : (setCell x w).default_section = x.default_section :=
      setCell_default_section x w
    have hnames : (setCell x w).sectionNames = x.sectionNames :=
      setCell_sectionNames x w
    have hp2 : w.1.1 = "" ∨ w.1.1 = x.default_section ∨ w.1.1 ∈ x.sectionNames := by
      rcases hokw with h | ⟨h1, h2, h3⟩
      · exact Or.inr (Or.inl h)
      · exact Or.inr (Or.inr h1)
    have hc2 : canonSec x.default_section w.1.1 = w.1.1 := by
      unfold canonSec
      rcases hokw with h | ⟨h1, h2, h3⟩
      · rw [if_pos (Or.inr h), h]
      · rw [if_neg (by rintro (hh | hh); exact h2 hh; exact h3 hh)]
    have hrec : SkelEq (applyW (setCell x w) W) (setCell x w) := by
      apply ih (setCell x w)
      · intro w2 hw2
        have hflat := hok w2 (by simp [hw2])
        unfold cellOK at hflat ⊢
        rw [hds, hnames]
        exact hflat
      · intro w2 hw2
        exact rawGet_isSome_after_setCell x w _ _ hp2 hc2 (hpres w2 (by simp [hw2]))
    exact SkelEq_trans _ _ _ hrec ⟨hds, hskel.1, hskel.2⟩

theorem applyW_present_has_option (f : String → String) (W : List Write) (x : Config)
    (hok : ∀ w ∈ W, cellOK x w) (hpres : ∀ w ∈ W, (x.rawGet w.1.1 w.1.2).isSome)
    (S O : String) :
    (applyW x W).has_option f S O = x.has_option f S O := by
  have h := applyW_present_skel W x hok hpres
  exact has_option_skel f _ x h.1 h.2.1 h.2.2 S O

theorem has_option_set_vis (f : String → String) (x : Config) (sec o' v : String)
    (hvis : x.has_option f sec o' = true) (S O : String) :
    (x.set f sec o' v).has_option f S O = x.has_option f S O := by
  unfold Config.has_option at hvis
  by_cases hc : sec = "" ∨ sec = x.default_section
  · rw [if_pos hc] at hvis
    apply has_option_skel
    · rw [default_section_set]
    · rw [sections_set_def f x sec o' v hc]
    · rw [defaults_set_def f x sec o' v hc]
      exact akeys_aset_of_ahas _ _ _ hvis
  · rw [if_neg hc] at hvis
    cases hsl : slookup x.sections sec with
    | none =>
      rw [hsl] at hvis
      simp at hvis
    | some os =>
      rw [hsl] at hvis
      have hvis2 : ahas os (f o') = true ∨ ahas x.defaults (f o') = true := by
        by_cases hown : ahas os (f o') = true
        · exact Or.inl hown
        · right
          have : (if ahas os (f o') = true then true
              else ahas x.defaults (f o')) = true := hvis
          rw [if_neg hown] at this
          exact this
      rcases hvis2 with hown | hdef
      · apply has_option_skel
        · rw [default_section_set]
        · rw [sections_set_other f x sec o' v hc]
          exact supdate_skel x.sections sec (f o') v os hsl hown
        · rw [defaults_set_other f x sec o' v hc]
      · unfold Config.has_option
        rw [default_section_set, defaults_set_other f x sec o' v hc,
          sections_set_other f x sec o' v hc]
        by_cases hS : S = "" ∨ S = x.default_section
        · rw [if_pos hS, if_pos hS]
        · rw [if_neg hS, if_neg hS]
          by_cases hSsec : S = sec
          · rw [hSsec, slookup_supdate_self2, hsl]
            simp only [Option.map_some']
            show (if ahas (aset os (f o') v) (f O) = true then true
                else ahas x.defaults (f O))
              = (if ahas os (f O) = true then true else ahas x.defaults (f O))
            rw [ahas_aset]
            by_cases hk : f o' = f O
            · rw [if_pos hk, ← hk]
              cases hos2 : ahas os (f o') with
              | true => simp [hos2]
              | false => simp [hos2, hdef]
            · rw [if_neg hk]
          · rw [slookup_supdate_ne x.sections sec _ S hSsec]

theorem directStepNoNew_cases (ctx : Ctx) (x : Config) (kv : String × String) :
    directStepNoNew ctx x kv = x
    ∨ ∃ sec, x.has_option ctx.f sec (parse_key x.default_section ctx.f kv.1).2 = true
        ∧ directStepNoNew ctx x kv
          = x.set ctx.f sec (parse_key x.default_section ctx.f kv.1).2 kv.2 := by
  cases hcs : ctx.cs with
  | true =>
    by_cases h1 : strat_has_section true x (parse_key x.default_section ctx.f kv.1).1
        = true
    · by_cases h2 : x.has_option ctx.f (parse_key x.default_section ctx.f kv.1).1
          (parse_key x.default_section ctx.f kv.1).2 = true
      · refine Or.inr ⟨_, h2, ?_⟩
        simp [directStepNoNew, hcs, h1, h2]
      · left
        simp [directStepNoNew, hcs, h1, h2]
    · left
      simp [directStepNoNew, hcs, h1]
  | false =>
    by_cases h1 : strat_has_section false x (parse_key x.default_section ctx.f kv.1).1
        = true
    · by_cases h2 : x.has_option ctx.f
          (get_existing_ci x (parse_key x.default_section ctx.f kv.1).1)
          (parse_key x.default_section ctx.f kv.1).2 = true
      · refine Or.inr ⟨_, h2, ?_⟩
        simp [directStepNoNew, hcs, h1, h2]
      · left
        simp [directStepNoNew, hcs, h1, h2]
    · left
      simp [directStepNoNew, hcs, h1]

theorem directStepNoNew_inv (ctx : Ctx) (e x : Config) (kv : String × String)
    (hds : x.default_section = e.default_section)
    (hn : x.sectionNames = e.sectionNames)
    (hho : ∀ S O, x.has_option ctx.f S O = e.has_option ctx.f S O) :
    (directStepNoNew ctx x kv).default_section = e.default_section
    ∧ (directStepNoNew ctx x kv).sectionNames = e.sectionNames
    ∧ ∀ S O, (directStepNoNew ctx x kv).has_option ctx.f S O
        = e.has_option ctx.f S O := by
  rcases directStepNoNew_cases ctx x kv with h | ⟨sec, hg, h⟩
  · rw [h]
    exact ⟨hds, hn, hho⟩
  · rw [h]
    refine ⟨by rw [default_section_set]; exact hds,
      by rw [sectionNames_set]; exact hn, ?_⟩
    intro S O
    rw [has_option_set_vis ctx.f x sec _ kv.2 hg S O]
    exact hho S O

theorem directStepNoNew_char (ctx : Ctx) (e x : Config) (kv : String × String)
    (hds : x.default_section = e.default_section)
    (hn : x.sectionNames = e.sectionNames)
    (hho : ∀ S O, x.has_option ctx.f S O = e.has_option ctx.f S O) :
    directStepNoNew ctx x kv
      = match dnnEntry ctx e kv with
        | some w => setCell x w
        | none => x := by
  cases hcs : ctx.cs with
  | true =>
    have hs1 : strat_has_section true x (parse_key e.default_section ctx.f kv.1).1
        = strat_has_section true e (parse_key e.default_section ctx.f kv.1).1 :=
      strat_congr true e x _ hds hn
    cases hg1 : strat_has_section true e (parse_key e.default_section ctx.f kv.1).1 with
    | false =>
      have hx1 : strat_has_section true x (parse_key e.default_section ctx.f kv.1).1
          = false := by
        rw [hs1, hg1]
      simp [directStepNoNew, dnnEntry, hcs, hg1, hds, hx1]
    | true =>
      have hx1 : strat_has_section true x (parse_key e.default_section ctx.f kv.1).1
          = true := by
        rw [hs1, hg1]
      cases hg2 : e.has_option ctx.f (parse_key e.default_section ctx.f kv.1).1
          (parse_key e.default_section ctx.f kv.1).2 with
      | false =>
        have hx2 : x.has_option ctx.f (parse_key e.default_section ctx.f kv.1).1
            (parse_key e.default_section ctx.f kv.1).2 = false := by
          rw [hho, hg2]
        simp [directStepNoNew, dnnEntry, hcs, hg1, hg2, hds, hx1, hx2]
      | true =>
        have hx2 : x.has_option ctx.f (parse_key e.default_section ctx.f kv.1).1
            (parse_key e.default_section ctx.f kv.1).2 = true := by
          rw [hho, hg2]
        have hred : directStepNoNew ctx x kv
            = Config.set ctx.f x (parse_key e.default_section ctx.f kv.1).1
                (parse_key e.default_section ctx.f kv.1).2 kv.2 := by
          simp [directStepNoNew, hcs, hds, hx1, hx2]
        have hred2 : dnnEntry ctx e kv
            = some ((canonSec e.default_section
                (parse_key e.default_section ctx.f kv.1).1,
                ctx.f (parse_key e.default_section ctx.f kv.1).2), kv.2) := by
          simp [dnnEntry, hcs, hg1, hg2]
        rw [hred, hred2, set_eq_setCell, hds]
  | false =>
    have hs1 : strat_has_section false x (parse_key e.default_section ctx.f kv.1).1
        = strat_has_section false e (parse_key e.default_section ctx.f kv.1).1 :=
      strat_congr false e x _ hds hn
    have hgec : get_existing_ci x (parse_key e.default_section ctx.f kv.1).1
        = get_existing_ci e (parse_key e.default_section ctx.f kv.1).1 :=
      get_existing_ci_congr e x _ hds hn
    cases hg1 : strat_has_section false e (parse_key e.default_section ctx.f kv.1).1 with
    | false =>
      have hx1 : strat_has_section false x (parse_key e.default_section ctx.f kv.1).1
          = false := by
        rw [hs1, hg1]
      simp [directStepNoNew, dnnEntry, hcs, hg1, hds, hx1]
    | true =>
      have hx1 : strat_has_section false x (parse_key e.default_section ctx.f kv.1).1
          = true := by
        rw [hs1, hg1]
      cases hg2 : e.has_option ctx.f
          (get_existing_ci e (parse_key e.default_section ctx.f kv.1).1)
          (parse_key e.default_section ctx.f kv.1).2 with
      | false =>
        have hx2 : x.has_option ctx.f
            (get_existing_ci x (parse_key e.default_section ctx.f kv.1).1)
            (parse_key e.default_section ctx.f kv.1).2 = false := by
          rw [hho, hgec, hg2]
        simp [directStepNoNew, dnnEntry, hcs, hg1, hg2, hds, hx1, hx2]
      | true =>
        have hx2 : x.has_option ctx.f
            (get_existing_ci x (parse_key e.default_section ctx.f kv.1).1)
            (parse_key e.default_section ctx.f kv.1).2 = true := by
          rw [hho, hgec, hg2]
        have hred : directStepNoNew ctx x kv
            = Config.set ctx.f x
                (get_existing_ci x (parse_key e.default_section ctx.f kv.1).1)
                (parse_key e.default_section ctx.f kv.1).2 kv.2 := by
          simp [directStepNoNew, hcs, hds, hx1, hx2]
        have hred2 : dnnEntry ctx e kv
            = some ((canonSec e.default_section
                (get_existing_ci e (parse_key e.default_section ctx.f kv.1).1),
                ctx.f (parse_key e.default_section ctx.f kv.1).2), kv.2) := by
          simp [dnnEntry, hcs, hg1, hg2]
        rw [hred, hred2, set_eq_setCell, hds, hgec]

theorem directNN_fold (ctx : Ctx) (e : Config) :
    ∀ (l : List (String × String)) (x : Config),
    x.default_section = e.default_section →
    x.sectionNames = e.sectionNames →
    (∀ S O, x.has_option ctx.f S O = e.has_option ctx.f S O) →
    l.foldl (directStepNoNew ctx) x = applyW x (l.filterMap (dnnEntry ctx e)) := by
  intro l
  induction l with
  | nil =>
    intro x _ _ _
    rfl
  | cons kv rest ih =>
    intro x hds hn hho
    obtain ⟨hds2, hn2, hho2⟩ := directStepNoNew_inv ctx e x kv hds hn hho
    have hchar := directStepNoNew_char ctx e x kv hds hn hho
    rw [hchar] at hds2 hn2 hho2
    rw [List.foldl_cons, List.filterMap_cons, hchar]
    cases hdnn : dnnEntry ctx e kv with
    | none =>
      exact ih x hds hn hho
    | some w =>
      rw [hdnn] at hds2 hn2 hho2
      exact ih (setCell x w) hds2 hn2 hho2

theorem dnnEntry_cellOK (ctx : Ctx) (e : Config) (kv : String × String) (w : Write)
    (h : dnnEntry ctx e kv = some w) : cellOK e w := by
  cases hcs : ctx.cs with
  | true =>
    by_cases hg : strat_has_section true e (parse_key e.default_section ctx.f kv.1).1
          = true
        ∧ e.has_option ctx.f (parse_key e.default_section ctx.f kv.1).1
            (parse_key e.default_section ctx.f kv.1).2 = true
    · have hred : dnnEntry ctx e kv
          = some ((canonSec e.default_section
              (parse_key e.default_section ctx.f kv.1).1,
              ctx.f (parse_key e.default_section ctx.f kv.1).2), kv.2) := by
        simp [dnnEntry, hcs, hg.1, hg.2]
      rw [hred] at h
      injection h with h
      rw [← h]
      unfold cellOK
      exact canonSec_cellOK e.default_section e.sectionNames _
        (strat_has_section_true_elim e _ hg.1)
    · exfalso
      have hred : dnnEntry ctx e kv = none := by
        simp [dnnEntry, hcs, hg]
      rw [hred] at h
      cases h
  | false =>
    by_cases hg : strat_has_section false e (parse_key e.default_section ctx.f kv.1).1
          = true
        ∧ e.has_option ctx.f
            (get_existing_ci e (parse_key e.default_section ctx.f kv.1).1)
            (parse_key e.default_section ctx.f kv.1).2 = true
    · have hred : dnnEntry ctx e kv
          = some ((canonSec e.default_section
              (get_existing_ci e (parse_key e.default_section ctx.f kv.1).1),
              ctx.f (parse_key e.default_section ctx.f kv.1).2), kv.2) := by
        simp [dnnEntry, hcs, hg.1, hg.2]
      rw [hred] at h
      injection h with h
      rw [← h]
      unfold cellOK
      exact canonSec_cellOK e.default_section e.sectionNames _
        (get_existing_ci_target e _ hg.1)
    · exfalso
      have hred : dnnEntry ctx e kv = none := by
        simp [dnnEntry, hcs, hg]
      rw [hred] at h
      cases h

theorem dnnEntry_congr (ctx : Ctx) (e1 e2 : Config)
    (hds : e2.default_section = e1.default_section)
    (hn : e2.sectionNames = e1.sectionNames)
    (hho : ∀ S O, e2.has_option ctx.f S O = e1.has_option ctx.f S O) :
    dnnEntry ctx e2 = dnnEntry ctx e1 := by
  funext kv
  have h1 : ∀ s, get_existing_ci e2 s = get_existing_ci e1 s :=
    fun s => get_existing_ci_congr e1 e2 s hds hn
  have h2 : ∀ s, strat_has_section true e2 s = strat_has_section true e1 s :=
    fun s => strat_congr true e1 e2 s hds hn
  have h3 : ∀ s, strat_has_section false e2 s = strat_has_section false e1 s :=
    fun s => strat_congr false e1 e2 s hds hn
  simp only [dnnEntry, hds, h1, h2, h3, hho]

theorem map_fst_skel (l1 l2 : List (String × Opts))
    (h : l1.map (fun q => (q.1, akeys q.2)) = l2.map (fun q => (q.1, akeys q.2))) :
    l1.map Prod.fst = l2.map Prod.fst := by
  have h2 := congrArg (List.map Prod.fst) h
  rw [List.map_map, List.map_map] at h2
  calc l1.map Prod.fst
      = l1.map (Prod.fst ∘ fun q => (q.1, akeys q.2)) := by
        apply List.map_congr_left
        intro r _
        rfl
    _ = l2.map (Prod.fst ∘ fun q => (q.1, akeys q.2)) := h2
    _ = l2.map Prod.fst := by
        apply List.map_congr_left
        intro r _
        rfl

theorem assoc_ext (l1 : Opts) :
    ∀ (l2 : Opts), akeys l1 = akeys l2 → (akeys l1).Nodup →
    (∀ k, alookup l1 k = alookup l2 k) → l1 = l2 := by
  induction l1 with
  | nil =>
    intro l2 hk _ _
    cases l2 with
    | nil => rfl
    | cons q l2 => simp [akeys] at hk
  | cons p l1 ih =>
    intro l2 hk hnd hl
    cases l2 with
    | nil => simp [akeys] at hk
    | cons q l2 =>
      simp only [akeys, List.map_cons, List.cons.injEq] at hk
      obtain ⟨hk1, hk2⟩ := hk
      have hv : p.2 = q.2 := by
        have hh := hl p.1
        rw [alookup_cons, alookup_cons, if_pos rfl, if_pos hk1.symm] at hh
        injection hh
      unfold akeys at hnd
      rw [List.map_cons] at hnd
      have hcons := List.nodup_cons.mp hnd
      have htl : ∀ k, alookup l1 k = alookup l2 k := by
        intro k
        by_cases hkp : k = p.1
        · rw [hkp, alookup_eq_none_of_not_mem l1 p.1 hcons.1,
            alookup_eq_none_of_not_mem l2 p.1 (by rw [show akeys l2 = akeys l1 from hk2.symm]; exact hcons.1)]
        · have hh := hl k
          rw [alookup_cons, alookup_cons, if_neg (fun h2 => hkp h2.symm),
            if_neg (fun h2 => hkp (hk1.trans h2).symm)] at hh
          exact hh
      have hpq : p = q := Prod.ext_iff.mpr ⟨hk1, hv⟩
      rw [hpq, ih l2 hk2 hcons.2 htl]

theorem sections_ext (l1 : List (String × Opts)) :
    ∀ (l2 : List (String × Opts)),
    l1.map (fun q => (q.1, akeys q.2)) = l2.map (fun q => (q.1, akeys q.2)) →
    (l1.map Prod.fst).Nodup →
    (∀ q ∈ l1, (akeys q.2).Nodup) →
    (∀ S o, (slookup l1 S).bind (fun os => alookup os o)
      = (slookup l2 S).bind (fun os => alookup os o)) →
    l1 = l2 := by
  induction l1 with
  | nil =>
    intro l2 h _ _ _
    cases l2 with
    | nil => rfl
    | cons q l2 => simp at h
  | cons p l1 ih =>
    intro l2 h hnd hopt hl
    cases l2 with
    | nil => simp at h
    | cons q l2 =>
      simp only [List.map_cons, List.cons.injEq] at h
      obtain ⟨hhead, htail⟩ := h
      injection hhead with ha hb
      rw [List.map_cons] at hnd
      have hndc := List.nodup_cons.mp hnd
      have hfst : l1.map Prod.fst = l2.map Prod.fst := map_fst_skel l1 l2 htail
      have hv : p.2 = q.2 := by
        apply assoc_ext p.2 q.2 hb (hopt p (by simp))
        intro o
        have hh := hl p.1 o
        rw [slookup_cons, slookup_cons, if_pos rfl, if_pos ha.symm] at hh
        simpa using hh
      have htl : ∀ S o, (slookup l1 S).bind (fun os => alookup os o)
          = (slookup l2 S).bind (fun os => alookup os o) := by
        intro S o
        by_cases hS : S = p.1
        · rw [hS, (slookup_eq_none_iff l1 p.1).mpr hndc.1,
            (slookup_eq_none_iff l2 p.1).mpr (by rw [← hfst]; exact hndc.1)]
        · have hh := hl S o
          rw [slookup_cons, slookup_cons, if_neg (fun h2 => hS h2.symm),
            if_neg (fun h2 => hS (ha.trans h2).symm)] at hh
          exact hh
      have hpq : p = q := Prod.ext_iff.mpr ⟨ha, hv⟩
      rw [hpq, ih l2 htail hndc.2 (fun r hr => hopt r (by simp [hr])) htl]

theorem config_ext (x y : Config)
    (hds : x.default_section = y.default_section)
    (hskel : SkelEq x y)
    (hnd : y.sectionNames.Nodup)
    (hdsn : y.default_section ∉ y.sectionNames)
    (hoptnd : OptNodup y)
    (hraw : ∀ S o, x.rawGet S o = y.rawGet S o) :
    x = y := by
  obtain ⟨hds2, hsec, hdef⟩ := hskel
  have hnames : x.sectionNames = y.sectionNames := skel_names x y ⟨hds2, hsec, hdef⟩
  have hdefeq : x.defaults = y.defaults := by
    apply assoc_ext x.defaults y.defaults hdef (by rw [hdef]; exact hoptnd.1)
    intro k
    have hh := hraw y.default_section k
    unfold Config.rawGet at hh
    rw [if_pos hds.symm, if_pos rfl] at hh
    exact hh
  have hseceq : x.sections = y.sections := by
    apply sections_ext x.sections y.sections hsec
    · have hfst : x.sections.map Prod.fst = y.sections.map Prod.fst := hnames
      rw [hfst]
      exact hnd
    · intro q hq
      have hmem : (q.1, akeys q.2) ∈ y.sections.map (fun r => (r.1, akeys r.2)) := by
        rw [← hsec]
        exact List.mem_map_of_mem _ hq
      rcases List.mem_map.mp hmem with ⟨r, hr, hre⟩
      injection hre with h1 h2
      rw [← h2]
      exact hoptnd.2 r hr
    · intro S o
      by_cases hSd : S = y.default_section
      · rw [(slookup_eq_none_iff x.sections S).mpr
            (by rw [show x.sections.map Prod.fst = y.sectionNames from hnames, hSd]; exact hdsn),
          (slookup_eq_none_iff y.sections S).mpr (by rw [hSd]; exact (show y.default_section ∉ y.sections.map Prod.fst from hdsn))]
      · have hh := hraw S o
        unfold Config.rawGet at hh
        rw [if_neg (fun h2 => hSd (h2.trans hds)), if_neg hSd] at hh
        exact hh
  cases x with
  | mk xd xdef xsec =>
    cases y with
    | mk yd ydef ysec =>
      have h1 : xd = yd := hds
      have h2 : xdef = ydef := hdefeq
      have h3 : xsec = ysec := hseceq
      rw [h1, h2, h3]

theorem OptNodup_set (f : String → String) (c : Config) (s o v : String)
    (h : OptNodup c) : OptNodup (c.set f s o v) := by
  unfold Config.set
  by_cases hc : s = "" ∨ s = c.default_section
  · rw [if_pos hc]
    refine ⟨?_, h.2⟩
    cases hin : ahas c.defaults (f o) with
    | true =>
      show (akeys (aset c.defaults (f o) v)).Nodup
      rw [akeys_aset_of_ahas _ _ _ hin]
      exact h.1
    | false =>
      show (akeys (aset c.defaults (f o) v)).Nodup
      rw [akeys_aset_of_not_ahas _ _ _ hin, List.nodup_append]
      refine ⟨h.1, List.nodup_singleton _, ?_⟩
      intro a ha hb
      rw [List.mem_singleton] at hb
      rw [hb] at ha
      rw [(ahas_iff c.defaults (f o)).mpr ha] at hin
      cases hin
  · rw [if_neg hc]
    refine ⟨h.1, ?_⟩
    intro q hq
    rcases mem_supdate c.sections s _ q hq with hq2 | ⟨os, hos, hqe⟩
    · exact h.2 q hq2
    · rw [hqe]
      have hnd := h.2 (s, os) hos
      cases hin : ahas os (f o) with
      | true =>
        show (akeys (aset os (f o) v)).Nodup
        rw [akeys_aset_of_ahas _ _ _ hin]
        exact hnd
      | false =>
        show (akeys (aset os (f o) v)).Nodup
        rw [akeys_aset_of_not_ahas _ _ _ hin, List.nodup_append]
        refine ⟨hnd, List.nodup_singleton _, ?_⟩
        intro a ha hb
        rw [List.mem_singleton] at hb
        rw [hb] at ha
        rw [(ahas_iff os (f o)).mpr ha] at hin
        cases hin

theorem OptNodup_add (c : Config) (a : String) (h : OptNodup c) :
    OptNodup (c.add_section a) := by
  refine ⟨h.1, ?_⟩
  intro q hq
  unfold Config.add_section at hq
  rcases List.mem_append.mp hq with h2 | h2
  · exact h.2 q h2
  · rw [List.mem_singleton] at h2
    rw [h2]
    simp [akeys]

theorem OptNodup_createStep (ctx : Ctx) (c : Config) (kv : String × String)
    (h : OptNodup c) : OptNodup (createStep ctx c kv) := by
  cases hcs : ctx.cs with
  | true =>
    cases hg : strat_has_section true c (parse_key c.default_section ctx.f kv.1).1 with
    | true =>
      have hstep : createStep ctx c kv
          = Config.set ctx.f c (parse_key c.default_section ctx.f kv.1).1
              (parse_key c.default_section ctx.f kv.1).2 kv.2 := by
        simp [createStep, hcs, hg]
      rw [hstep]
      exact OptNodup_set _ _ _ _ _ h
    | false =>
      have hstep : createStep ctx c kv
          = Config.set ctx.f (c.add_section (parse_key c.default_section ctx.f kv.1).1)
              (parse_key c.default_section ctx.f kv.1).1
              (parse_key c.default_section ctx.f kv.1).2 kv.2 := by
        simp [createStep, hcs, hg]
      rw [hstep]
      exact OptNodup_set _ _ _ _ _ (OptNodup_add _ _ h)
  | false =>
    cases hg : strat_has_section false c (parse_key c.default_section ctx.f kv.1).1 with
    | true =>
      have hstep : createStep ctx c kv
          = Config.set ctx.f c
              (get_existing_ci c (parse_key c.default_section ctx.f kv.1).1)
              (parse_key c.default_section ctx.f kv.1).2 kv.2 := by
        simp [createStep, hcs, hg]
      rw [hstep]
      exact OptNodup_set _ _ _ _ _ h
    | false =>
      have hstep : createStep ctx c kv
          = Config.set ctx.f
              (c.add_section (lowerStr (parse_key c.default_section ctx.f kv.1).1))
              (lowerStr (parse_key c.default_section ctx.f kv.1).1)
              (parse_key c.default_section ctx.f kv.1).2 kv.2 := by
        simp [createStep, hcs, hg]
      rw [hstep]
      exact OptNodup_set _ _ _ _ _ (OptNodup_add _ _ h)

theorem OptNodup_directStepNoNew (ctx : Ctx) (c : Config) (kv : String × String)
    (h : OptNodup c) : OptNodup (directStepNoNew ctx c kv) := by
  rcases directStepNoNew_cases ctx c kv with hh | ⟨sec, _, hh⟩
  · rw [hh]
    exact h
  · rw [hh]
    exact OptNodup_set _ _ _ _ _ h

theorem prefix_new_env_idem (ctx : Ctx) (c : Config)
    (hwf : WF c) (hond : OptNodup c) :
    override_direct ctx false (override_env ctx true
        (override_direct ctx false (override_env ctx true c)))
      = override_direct ctx false (override_env ctx true c) := by
  have hoe : ∀ z : Config, override_env ctx true z
      = List.foldl (createStep ctx) z (collect_env_vars ctx.env_pfx ctx.env) := by
    intro z
    rfl
  have hod : ∀ z : Config, override_direct ctx false z
      = List.foldl (directStepNoNew ctx) z ctx.overrides := by
    intro z
    rfl
  simp only [hoe, hod]
  obtain ⟨E, hE⟩ : ∃ z, z = collect_env_vars ctx.env_pfx ctx.env := ⟨_, rfl⟩
  rw [← hE]
  obtain ⟨e1, he1⟩ : ∃ z, z = List.foldl (createStep ctx) c E := ⟨_, rfl⟩
  rw [← he1]
  obtain ⟨CE, hs1, hs2, hs3, hs4, hs5⟩ := createFold_spec ctx E c
  rw [← he1] at hs1 hs2 hs4 hs5
  obtain ⟨WE, hWE⟩ : ∃ z, z = E.map (fun kv =>
      (entryCell ctx.cs e1.sectionNames c.default_section ctx.f kv.1, kv.2)) := ⟨_, rfl⟩
  rw [← hWE] at hs4
  have he1raw : ∀ S' o', e1.rawGet S' o'
      = oorelse (lastW WE (S', o')) (c.rawGet S' o') := by
    intro S' o'
    rw [he1, createFold_rawGet ctx E c S' o', hs4]
  have he1nd : e1.sectionNames.Nodup := by
    rw [hs2]
    exact chainExt_nodup ctx.cs c.default_section CE c.sectionNames hs3 hwf.1
  have he1dsn : c.default_section ∉ e1.sectionNames := by
    rw [hs2]
    exact chainExt_ds_not_mem ctx.cs c.default_section CE c.sectionNames hs3 hwf.2.1
  have he1ond : OptNodup e1 := by
    rw [he1]
    exact foldl_preserves_mem OptNodup (createStep ctx) E
      (fun z a _ hz => OptNodup_createStep ctx z a hz) c hond
  obtain ⟨c1, hc1⟩ : ∃ z, z = List.foldl (directStepNoNew ctx) e1 ctx.overrides := ⟨_, rfl⟩
  rw [← hc1]
  obtain ⟨D, hD⟩ : ∃ z, z = ctx.overrides.filterMap (dnnEntry ctx e1) := ⟨_, rfl⟩
  have hc1a : c1 = applyW e1 D := by
    rw [hc1, hD]
    exact directNN_fold ctx e1 ctx.overrides e1 rfl rfl (fun S O => rfl)
  have hDok : ∀ w ∈ D, cellOK e1 w := by
    intro w hw
    rw [hD] at hw
    rcases List.mem_filterMap.mp hw with ⟨kv, hkv, hw2⟩
    exact dnnEntry_cellOK ctx e1 kv w hw2
  have hc1raw : ∀ S' o', c1.rawGet S' o'
      = oorelse (lastW D (S', o')) (oorelse (lastW WE (S', o')) (c.rawGet S' o')) := by
    intro S' o'
    rw [hc1a, applyW_rawGet e1 D S' o' (fun w hw => hDok w hw), he1raw S' o']
  have hc1ds : c1.default_section = c.default_section := by
    rw [hc1a, applyW_default_section, hs1]
  have hc1n : c1.sectionNames = e1.sectionNames := by
    rw [hc1a, applyW_sectionNames]
  have hc1ho : ∀ S O, c1.has_option ctx.f S O = e1.has_option ctx.f S O := by
    have hInv := foldl_preserves_mem
      (fun z => z.default_section = e1.default_section
        ∧ z.sectionNames = e1.sectionNames
        ∧ ∀ S O, z.has_option ctx.f S O = e1.has_option ctx.f S O)
      (directStepNoNew ctx) ctx.overrides
      (fun z a _ hz => directStepNoNew_inv ctx e1 z a hz.1 hz.2.1 hz.2.2)
      e1 ⟨rfl, rfl, fun S O => rfl⟩
    rw [← hc1] at hInv
    exact hInv.2.2
  have hc1ond : OptNodup c1 := by
    rw [hc1]
    exact foldl_preserves_mem OptNodup (directStepNoNew ctx) ctx.overrides
      (fun z a _ hz => OptNodup_directStepNoNew ctx z a hz) e1 he1ond
  have hgE1 : ∀ kv ∈ E, strat_has_section ctx.cs c1
      (parse_key c1.default_section ctx.f kv.1).1 = true := by
    intro kv hkv
    rw [hc1ds, strat_congr ctx.cs e1 c1 _ (by rw [hc1ds, hs1]) hc1n]
    exact hs5 kv hkv
  obtain ⟨e2, he2⟩ : ∃ z, z = List.foldl (createStep ctx) c1 E := ⟨_, rfl⟩
  rw [← he2]
  have he2a : e2 = applyW c1 WE := by
    rw [he2, createFold_guarded ctx E c1 hgE1, hWE]
    simp only [hc1n, hc1ds]
  have hWEok : ∀ w ∈ WE, cellOK c1 w := by
    intro w hw
    rw [hWE] at hw
    rcases List.mem_map.mp hw with ⟨kv, hkv, hwe⟩
    have hcell := entryCell_cellOK ctx c1 kv.1 kv.2 (hgE1 kv hkv)
    rw [hc1n, hc1ds] at hcell
    rw [← hwe]
    exact hcell
  have hWEpres : ∀ w ∈ WE, (c1.rawGet w.1.1 w.1.2).isSome := by
    intro w hw
    rw [hc1raw w.1.1 w.1.2]
    exact oorelse_isSome_right _ _ (oorelse_isSome_left _ _ (lastW_isSome_of_mem WE w hw))
  have he2raw : ∀ S' o', e2.rawGet S' o'
      = oorelse (lastW WE (S', o')) (c1.rawGet S' o') := by
    intro S' o'
    rw [he2a, applyW_rawGet c1 WE S' o' (fun w hw => hWEok w hw)]
  have he2skel : SkelEq e2 c1 := by
    rw [he2a]
    exact applyW_present_skel WE c1 hWEok hWEpres
  have he2ds : e2.default_section = c1.default_section := by
    rw [he2a, applyW_default_section]
  have he2n : e2.sectionNames = c1.sectionNames := by
    rw [he2a, applyW_sectionNames]
  have he2ho : ∀ S O, e2.has_option ctx.f S O = e1.has_option ctx.f S O := by
    intro S O
    rw [he2a, applyW_present_has_option ctx.f WE c1 hWEok hWEpres S O]
    exact hc1ho S O
  have hD2 : ctx.overrides.filterMap (dnnEntry ctx e2) = D := by
    rw [hD]
    rw [dnnEntry_congr ctx e1 e2 (by rw [he2ds, hc1ds, hs1]) (by rw [he2n, hc1n])
      he2ho]
  have hc2a : List.foldl (directStepNoNew ctx) e2 ctx.overrides = applyW e2 D := by
    rw [← hD2]
    exact directNN_fold ctx e2 ctx.overrides e2 rfl rfl (fun S O => rfl)
  have hDok2 : ∀ w ∈ D, cellOK e2 w := by
    intro w hw
    have hcell := hDok w hw
    unfold cellOK at hcell ⊢
    rw [he2n, hc1n, he2ds, hc1ds]
    rw [hs1] at hcell
    exact hcell
  have hDpres1 : ∀ w ∈ D, (c1.rawGet w.1.1 w.1.2).isSome := by
    intro w hw
    rw [hc1raw]
    exact oorelse_isSome_left _ _ (lastW_isSome_of_mem D w hw)
  have hDpres2 : ∀ w ∈ D, (e2.rawGet w.1.1 w.1.2).isSome := by
    intro w hw
    rw [he2raw]
    exact oorelse_isSome_right _ _ (hDpres1 w hw)
  have hraw : ∀ S' o', (List.foldl (directStepNoNew ctx) e2 ctx.overrides).rawGet S' o'
      = c1.rawGet S' o' := by
    intro S' o'
    rw [hc2a, applyW_rawGet e2 D S' o' (fun w hw => hDok2 w hw), he2raw S' o',
      hc1raw S' o']
    exact oorelse_collapse _ _ _
  have hskel : SkelEq (List.foldl (directStepNoNew ctx) e2 ctx.overrides) c1 := by
    rw [hc2a]
    exact SkelEq_trans _ _ _ (applyW_present_skel D e2 hDok2 hDpres2) he2skel
  have hc1nd : c1.sectionNames.Nodup := by
    rw [hc1n]
    exact he1nd
  have hc1dsn : c1.default_section ∉ c1.sectionNames := by
    rw [hc1n, hc1ds]
    exact he1dsn
  exact config_ext _ c1
    (by rw [hc2a, applyW_default_section, he2ds]) hskel hc1nd hc1dsn hc1ond hraw

theorem prefix_new_env_new_direct_idem (ctx : Ctx) (c : Config)
    (hwf : WF c) (hond : OptNodup c) :
    override_direct ctx true (override_env ctx true
        (override_direct ctx true (override_env ctx true c)))
      = override_direct ctx true (override_env ctx true c) := by
  have hoe : ∀ z : Config, override_env ctx true z
      = List.foldl (createStep ctx) z (collect_env_vars ctx.env_pfx ctx.env) := by
    intro z
    rfl
  have hod : ∀ z : Config, override_direct ctx true z
      = List.foldl (createStep ctx) z ctx.overrides := by
    intro z
    rfl
  simp only [hoe, hod]
  obtain ⟨E, hE⟩ : ∃ z, z = collect_env_vars ctx.env_pfx ctx.env := ⟨_, rfl⟩
  rw [← hE]
  obtain ⟨e1, he1⟩ : ∃ z, z = List.foldl (createStep ctx) c E := ⟨_, rfl⟩
  rw [← he1]
  obtain ⟨CE, hs1, hs2, hs3, hs4, hs5⟩ := createFold_spec ctx E c
  rw [← he1] at hs1 hs2 hs4 hs5
  obtain ⟨c1, hc1⟩ : ∃ z, z = List.foldl (createStep ctx) e1 ctx.overrides := ⟨_, rfl⟩
  rw [← hc1]
  obtain ⟨CD, ht1, ht2, ht3, ht4, ht5⟩ := createFold_spec ctx ctx.overrides e1
  rw [← hc1] at ht1 ht2 ht4 ht5
  rw [hs1] at ht1 ht3 ht4 ht5
  obtain ⟨WD, hWD⟩ : ∃ z, z = ctx.overrides.map (fun kv =>
      (entryCell ctx.cs c1.sectionNames c.default_section ctx.f kv.1, kv.2)) := ⟨_, rfl⟩
  rw [← hWD] at ht4
  obtain ⟨WE, hWE⟩ : ∃ z, z = E.map (fun kv =>
      (entryCell ctx.cs c1.sectionNames c.default_section ctx.f kv.1, kv.2)) := ⟨_, rfl⟩
  have hstab : ∀ kv ∈ E, entryCell ctx.cs e1.sectionNames c.default_section ctx.f kv.1
      = entryCell ctx.cs c1.sectionNames c.default_section ctx.f kv.1 := by
    intro kv hkv
    rw [ht2]
    have hx := entryCell_ext ctx e1 CD kv.1
      (by rw [hs1]; exact hs5 kv hkv)
      (fun hcs a ha => (chainExt_lower_fresh ctx.cs c.default_section CD
        e1.sectionNames ht3 hcs a ha).2)
    rw [hs1] at hx
    exact hx
  have hWEeq : E.map (fun kv =>
      (entryCell ctx.cs e1.sectionNames c.default_section ctx.f kv.1, kv.2)) = WE := by
    rw [hWE]
    apply List.map_congr_left
    intro kv hkv
    rw [hstab kv hkv]
  rw [hWEeq] at hs4
  have he1raw : ∀ S' o', e1.rawGet S' o'
      = oorelse (lastW WE (S', o')) (c.rawGet S' o') := by
    intro S' o'
    rw [he1, createFold_rawGet ctx E c S' o', hs4]
  have hc1raw : ∀ S' o', c1.rawGet S' o'
      = oorelse (lastW WD (S', o'))
          (oorelse (lastW WE (S', o')) (c.rawGet S' o')) := by
    intro S' o'
    rw [hc1, createFold_rawGet ctx ctx.overrides e1 S' o', ht4, he1raw S' o']
  have he1nd : e1.sectionNames.Nodup := by
    rw [hs2]
    exact chainExt_nodup ctx.cs c.default_section CE c.sectionNames hs3 hwf.1
  have he1dsn : c.default_section ∉ e1.sectionNames := by
    rw [hs2]
    exact chainExt_ds_not_mem ctx.cs c.default_section CE c.sectionNames hs3 hwf.2.1
  have hc1nd : c1.sectionNames.Nodup := by
    rw [ht2]
    exact chainExt_nodup ctx.cs c.default_section CD e1.sectionNames ht3 he1nd
  have hc1dsn : c.default_section ∉ c1.sectionNames := by
    rw [ht2]
    exact chainExt_ds_not_mem ctx.cs c.default_section CD e1.sectionNames ht3 he1dsn
  have hc1ond : OptNodup c1 := by
    rw [hc1]
    apply foldl_preserves_mem OptNodup (createStep ctx) ctx.overrides
      (fun z a _ hz => OptNodup_createStep ctx z a hz) e1
    rw [he1]
    exact foldl_preserves_mem OptNodup (createStep ctx) E
      (fun z a _ hz => OptNodup_createStep ctx z a hz) c hond
  have hgE1 : ∀ kv ∈ E, strat_has_section ctx.cs c1
      (parse_key c1.default_section ctx.f kv.1).1 = true := by
    intro kv hkv
    rw [ht1]
    exact strat_mono_append ctx.cs e1 c1 _ CD (by rw [ht1, hs1]) ht2 (hs5 kv hkv)
  obtain ⟨e2, he2⟩ : ∃ z, z = List.foldl (createStep ctx) c1 E := ⟨_, rfl⟩
  rw [← he2]
  have he2a : e2 = applyW c1 WE := by
    rw [he2, createFold_guarded ctx E c1 hgE1, hWE]
    simp only [ht1]
  have hWEok : ∀ w ∈ WE, cellOK c1 w := by
    intro w hw
    rw [hWE] at hw
    rcases List.mem_map.mp hw with ⟨kv, hkv, hwe⟩
    have hcell := entryCell_cellOK ctx c1 kv.1 kv.2 (hgE1 kv hkv)
    rw [ht1] at hcell
    rw [← hwe]
    exact hcell
  have hWEpres : ∀ w ∈ WE, (c1.rawGet w.1.1 w.1.2).isSome := by
    intro w hw
    rw [hc1raw w.1.1 w.1.2]
    exact oorelse_isSome_right _ _ (oorelse_isSome_left _ _ (lastW_isSome_of_mem WE w hw))
  have he2raw : ∀ S' o', e2.rawGet S' o'
      = oorelse (lastW WE (S', o')) (c1.rawGet S' o') := by
    intro S' o'
    rw [he2a, applyW_rawGet c1 WE S' o' (fun w hw => hWEok w hw)]
  have he2skel : SkelEq e2 c1 := by
    rw [he2a]
    exact applyW_present_skel WE c1 hWEok hWEpres
  have he2ds : e2.default_section = c1.default_section := by
    rw [he2a, applyW_default_section]
  have he2n : e2.sectionNames = c1.sectionNames := by
    rw [he2a, applyW_sectionNames]
  have hgD2 : ∀ kv ∈ ctx.overrides, strat_has_section ctx.cs e2
      (parse_key e2.default_section ctx.f kv.1).1 = true := by
    intro kv hkv
    rw [he2ds, ht1, strat_congr ctx.cs c1 e2 _ (by rw [he2ds]) he2n]
    exact ht5 kv hkv
  have hc2a : List.foldl (createStep ctx) e2 ctx.overrides = applyW e2 WD := by
    rw [createFold_guarded ctx ctx.overrides e2 hgD2, hWD]
    simp only [he2n, he2ds, ht1]
  have hWDok1 : ∀ w ∈ WD, cellOK c1 w := by
    intro w hw
    rw [hWD] at hw
    rcases List.mem_map.mp hw with ⟨kv, hkv, hwe⟩
    have hg : strat_has_section ctx.cs c1 (parse_key c1.default_section ctx.f kv.1).1
        = true := by
      rw [ht1]
      exact ht5 kv hkv
    have hcell := entryCell_cellOK ctx c1 kv.1 kv.2 hg
    rw [ht1] at hcell
    rw [← hwe]
    exact hcell
  have hWDok2 : ∀ w ∈ WD, cellOK e2 w := by
    intro w hw
    have hcell := hWDok1 w hw
    unfold cellOK at hcell ⊢
    rw [he2n, he2ds]
    exact hcell
  have hWDpres1 : ∀ w ∈ WD, (c1.rawGet w.1.1 w.1.2).isSome := by
    intro w hw
    rw [hc1raw]
    exact oorelse_isSome_left _ _ (lastW_isSome_of_mem WD w hw)
  have hWDpres2 : ∀ w ∈ WD, (e2.rawGet w.1.1 w.1.2).isSome := by
    intro w hw
    rw [he2raw]
    exact oorelse_isSome_right _ _ (hWDpres1 w hw)
  have hraw : ∀ S' o', (List.foldl (createStep ctx) e2 ctx.overrides).rawGet S' o'
      = c1.rawGet S' o' := by
    intro S' o'
    rw [hc2a, applyW_rawGet e2 WD S' o' (fun w hw => hWDok2 w hw), he2raw S' o',
      hc1raw S' o']
    exact oorelse_collapse _ _ _
  have hskel : SkelEq (List.foldl (createStep ctx) e2 ctx.overrides) c1 := by
    rw [hc2a]
    exact SkelEq_trans _ _ _ (applyW_present_skel WD e2 hWDok2 hWDpres2) he2skel
  have hc1dsn2 : c1.default_section ∉ c1.sectionNames := by
    rw [ht1]
    exact hc1dsn
  exact config_ext _ c1
    (by rw [hc2a, applyW_default_section, he2ds]) hskel hc1nd hc1dsn2 hc1ond hraw

/-- **C8 counterexample.** The claim asserts idempotency for every create-new
policy.  It fails for `PREFIX_NEW_DIRECT` on a well-formed store: the first
run's direct pass creates a defaults-section option, which the second run's
no-new environment scan then also writes into section `s1`'s own storage,
duplicating the key — so the second run changes the store again. -/
theorem create_new_idempotence_counterexample :
    WF ⟨"DEFAULT", [], [("s1", [])]⟩
    ∧ OptNodup ⟨"DEFAULT", [], [("s1", [])]⟩
    ∧ ¬ (Strategy.execute OverrideStrategies.PREFIX_NEW_DIRECT
          ⟨[("T_S1__NEWOPT", "w")], "T_", [("newopt", "v")], false, lowerStr⟩
          (Strategy.execute OverrideStrategies.PREFIX_NEW_DIRECT
            ⟨[("T_S1__NEWOPT", "w")], "T_", [("newopt", "v")], false, lowerStr⟩
            ⟨"DEFAULT", [], [("s1", [])]⟩)
        = Strategy.execute OverrideStrategies.PREFIX_NEW_DIRECT
            ⟨[("T_S1__NEWOPT", "w")], "T_", [("newopt", "v")], false, lowerStr⟩
            ⟨"DEFAULT", [], [("s1", [])]⟩) := by
  refine ⟨by decide, by decide, by decide⟩

/-- **C8 (amended).** For the two policies whose environment pass runs in
create-new mode (`PREFIX_NEW_ENV` and `PREFIX_NEW_ENV_NEW_DIRECT`), resolution
is idempotent: executing the chosen strategy twice on a well-formed store
(distinct section names, default section kept outside the section list,
nonempty section names, duplicate-free option dicts) with an identical
environment snapshot and identical direct overrides yields the same final
store as executing it once. -/
theorem create_new_resolution_idempotent (strat : OverrideStrategies) (ctx : Ctx)
    (c : Config)
    (hstrat : strat = OverrideStrategies.PREFIX_NEW_ENV
      ∨ strat = OverrideStrategies.PREFIX_NEW_ENV_NEW_DIRECT)
    (hwf : WF c) (hond : OptNodup c) :
    Strategy.execute strat ctx (Strategy.execute strat ctx c)
      = Strategy.execute strat ctx c := by
  rcases hstrat with h | h
  · rw [h]
    exact prefix_new_env_idem ctx c hwf hond
  · rw [h]
    exact prefix_new_env_new_direct_idem ctx c hwf hond

/-- Witness for the amended C8 theorem at a concrete strategy, context and
store. -/
theorem create_new_resolution_idempotent_witness :
    Strategy.execute OverrideStrategies.PREFIX_NEW_ENV
        ⟨[("T_S1__NEWOPT", "w")], "T_", [("newopt", "v")], false, lowerStr⟩
        (Strategy.execute OverrideStrategies.PREFIX_NEW_ENV
          ⟨[("T_S1__NEWOPT", "w")], "T_", [("newopt", "v")], false, lowerStr⟩
          ⟨"DEFAULT", [], [("s1", [])]⟩)
      = Strategy.execute OverrideStrategies.PREFIX_NEW_ENV
          ⟨[("T_S1__NEWOPT", "w")], "T_", [("newopt", "v")], false, lowerStr⟩
          ⟨"DEFAULT", [], [("s1", [])]⟩ :=
  create_new_resolution_idempotent OverrideStrategies.PREFIX_NEW_ENV
    ⟨[("T_S1__NEWOPT", "w")], "T_", [("newopt", "v")], false, lowerStr⟩
    ⟨"DEFAULT", [], [("s1", [])]⟩ (Or.inl rfl) (by decide) (by decide)

end CPO
